import Mathlib

/-!
# Box nesting in ASCII art (`main.c`)

A shallow embedding of the box detector of `main.c` and proofs about it.

## Modelling conventions

* **Memory.**  A `MapT` is passed around by value in the C code, but its `Tiles`
  member is a pointer, so two `MapT` values may share their cells.  The
  embedding keeps that: a `Heap` holds the cells of every allocated tile block,
  a `MapT` stores the number of its block, and every function that touches
  cells takes the heap (and returns the new one when it writes).  `CreateMap`
  takes the next unused block, as `calloc` returns fresh zeroed memory.
* **Faults.**  A cell access outside `[0,Height) x [0,Width)` is undefined
  behaviour in C; here it is the fault `outOfBounds`.  (The C rows have one more
  byte, the string terminator at column `Width`; none of the functions embedded
  here writes it, and only `PrintMap` reads it.)  A failed `Assert` ends the program: fault `assertFailed`.
* **Machine integers.**  All coordinates are `unsigned int`.  The only
  arithmetic on them is `x + 1` (and `x++`), and each such `x` has either just
  been used as an index of a successful cell access or is strictly below a loop
  bound that is itself an `unsigned int`; so no expression can wrap without an
  `outOfBounds` fault having happened before, and `Nat` arithmetic is exact.
* **Loops.**  A counted `for` loop whose body changes neither the counter nor
  the bound is `forLoop Start Stop`; the trip count `Stop - Start` is the
  structural argument.  The two `while` scans of `FindBoxAt` carry as fuel the
  distance to the edge of the map, which they cannot exceed.
* **Recursion.**  `BoxFindChildren` is recursive in C; the embedding takes a
  bound on the recursion depth and reports `outOfFuel` when it is exceeded.
* **Children.**  The `Children`/`ChildrenCount`/`ChildrenAllocated` triple of
  `BoxT` is a growable array; it is embedded as a `List`, and `BoxAddChild`
  appends at the end (the slot `ChildrenCount - 1` after the increment).
* **Debug switches.**  `DEBUG_BOX_FIND_CHILDREN`, `DEBUG_BOX_MARK` and
  `DEBUG_MISC` are not defined in `main.c`, and `DEBUG_NO_ASSERT` is commented
  out; the embedding follows the code that is compiled: no logging inside the
  functions, the symbolic fill characters, and `Assert` active.
-/

namespace Dp237

/-! ## Faults, heap and maps -/

/-- The ways a run can stop without a result. -/
inductive Fault where
  | outOfBounds
  | assertFailed
  | outOfFuel
  deriving DecidableEq, Repr

/-- All tile blocks: `Cells p Row Col` is the character at `[Row][Col]` of block
`p`; blocks `p < Next` are allocated. -/
structure Heap where
  Next : Nat
  Cells : Nat → Nat → Nat → Char

/-- The struct `MapT`: `Tiles` is the block the member `Tiles` points to. -/
structure MapT where
  Height : Nat
  Width : Nat
  Tiles : Nat
  deriving DecidableEq, Repr

/-- The read `Map.Tiles[Row][Col]`. -/
def Heap.read (H : Heap) (Map : MapT) (Row Col : Nat) : Except Fault Char :=
  if Row < Map.Height ∧ Col < Map.Width then .ok (H.Cells Map.Tiles Row Col)
  else .error .outOfBounds

/-- The assignment `Map.Tiles[Row][Col] = c`. -/
def Heap.write (H : Heap) (Map : MapT) (Row Col : Nat) (c : Char) : Except Fault Heap :=
  if Row < Map.Height ∧ Col < Map.Width then
    .ok { Next := H.Next
          Cells := fun p r k => if p = Map.Tiles ∧ r = Row ∧ k = Col then c else H.Cells p r k }
  else .error .outOfBounds

/-- Iterations of a counted loop: `n` more rounds, the counter is at `I`. -/
def forLoop.go {σ : Type} (Body : Nat → σ → Except Fault σ) : Nat → Nat → σ → Except Fault σ
  | 0, _, s => .ok s
  | n + 1, I, s =>
    match Body I s with
    | .error e => .error e
    | .ok s1 => forLoop.go Body n (I + 1) s1

/-- The loop `for (I = Start; I < Stop; I++) Body`, run on the state `s`. -/
def forLoop {σ : Type} (Start Stop : Nat) (s : σ) (Body : Nat → σ → Except Fault σ) :
    Except Fault σ :=
  forLoop.go Body (Stop - Start) Start s

/-- The function `CreateMap`: a fresh block, zero-filled by `calloc`. -/
def CreateMap (H : Heap) (Height Width : Nat) : Heap × MapT :=
  ({ Next := H.Next + 1
     Cells := fun p r k => if p = H.Next then Char.ofNat 0 else H.Cells p r k },
   { Height := Height, Width := Width, Tiles := H.Next })

/-- The function `CopyMap`: a new map with the cells of `SourceMap` copied one by
one. -/
def CopyMap (H : Heap) (SourceMap : MapT) : Except Fault (Heap × MapT) :=
  let Map := (CreateMap H SourceMap.Height SourceMap.Width).2
  match forLoop 0 Map.Height (CreateMap H SourceMap.Height SourceMap.Width).1 (fun Row H1 =>
      forLoop 0 Map.Width H1 (fun Col H2 =>
        (H2.read SourceMap Row Col).bind (fun c => H2.write Map Row Col c))) with
  | .error e => .error e
  | .ok H3 => .ok (H3, Map)

/-! ## Boxes -/

/-- The struct `BoxT`: two corners and the children found so far. -/
structure BoxT where
  Top : Nat
  Left : Nat
  Bottom : Nat
  Right : Nat
  Children : List BoxT

mutual
/-- Equality of boxes is decidable. -/
def BoxT.decEq : (a b : BoxT) → Decidable (a = b)
  | ⟨t1, l1, b1, r1, c1⟩, ⟨t2, l2, b2, r2, c2⟩ =>
    if h : t1 = t2 ∧ l1 = l2 ∧ b1 = b2 ∧ r1 = r2 then
      match BoxT.decEqList c1 c2 with
      | isTrue hc => isTrue (by obtain ⟨h1, h2, h3, h4⟩ := h; subst h1 h2 h3 h4 hc; rfl)
      | isFalse hc => isFalse (by intro e; injection e with _ _ _ _ e5; exact hc e5)
    else isFalse (by intro e; injection e with e1 e2 e3 e4 _; exact h ⟨e1, e2, e3, e4⟩)
/-- Equality of lists of boxes is decidable. -/
def BoxT.decEqList : (a b : List BoxT) → Decidable (a = b)
  | [], [] => isTrue rfl
  | [], _ :: _ => isFalse (by intro e; cases e)
  | _ :: _, [] => isFalse (by intro e; cases e)
  | x :: xs, y :: ys =>
    match BoxT.decEq x y with
    | isTrue h1 =>
      match BoxT.decEqList xs ys with
      | isTrue h2 => isTrue (by rw [h1, h2])
      | isFalse h2 => isFalse (by intro e; injection e with _ e2; exact h2 e2)
    | isFalse h1 => isFalse (by intro e; injection e with e1 _; exact h1 e1)
end

instance : DecidableEq BoxT := BoxT.decEq

/-- The function `BoxCreate`: a box without children. -/
def BoxCreate (Top Left Bottom Right : Nat) : BoxT :=
  { Top := Top, Left := Left, Bottom := Bottom, Right := Right, Children := [] }

/-- The function `BoxAddChild`: the child goes into slot `ChildrenCount - 1`,
the end of the array. -/
def BoxAddChild (Parent : BoxT) (Child : BoxT) : BoxT :=
  { Parent with Children := Parent.Children ++ [Child] }

/-- The function `BoxIsZeroSized`. -/
def BoxIsZeroSized (Box : BoxT) : Bool :=
  (Box.Top == Box.Bottom) || (Box.Left == Box.Right)

/-- The first loop of `BoxIsValid` (`Row` from `Top + 1` below `Bottom`):
`false` is the early `return false`, `true` means the loop ran to its end. -/
def BoxIsValid.rows (H : Heap) (Map : MapT) (Box : BoxT) : Nat → Nat → Except Fault Bool
  | 0, _ => .ok true
  | n + 1, Row =>
    match H.read Map Row Box.Left with
    | .error e => .error e
    | .ok a =>
      if ¬ (a = '|') then .ok false
      else match H.read Map Row Box.Right with
        | .error e => .error e
        | .ok b =>
          if ¬ (b = '|') then .ok false
          else BoxIsValid.rows H Map Box n (Row + 1)

/-- The second loop of `BoxIsValid` (`Col` from `Left + 1` below `Right`). -/
def BoxIsValid.cols (H : Heap) (Map : MapT) (Box : BoxT) : Nat → Nat → Except Fault Bool
  | 0, _ => .ok true
  | n + 1, Col =>
    match H.read Map Box.Top Col with
    | .error e => .error e
    | .ok a =>
      if ¬ (a = '-') then .ok false
      else match H.read Map Box.Bottom Col with
        | .error e => .error e
        | .ok b =>
          if ¬ (b = '-') then .ok false
          else BoxIsValid.cols H Map Box n (Col + 1)

/-- The function `BoxIsValid`: is the box correctly represented on the map. -/
def BoxIsValid (H : Heap) (Map : MapT) (Box : BoxT) : Except Fault Bool :=
  if BoxIsZeroSized Box then .ok false
  else match H.read Map Box.Top Box.Left with
    | .error e => .error e
    | .ok a =>
      if ¬ (a = '+') then .ok false
      else match H.read Map Box.Bottom Box.Right with
        | .error e => .error e
        | .ok b =>
          if ¬ (b = '+') then .ok false
          else match BoxIsValid.rows H Map Box (Box.Bottom - (Box.Top + 1)) (Box.Top + 1) with
            | .error e => .error e
            | .ok false => .ok false
            | .ok true => BoxIsValid.cols H Map Box (Box.Right - (Box.Left + 1)) (Box.Left + 1)

/-- The zeroed box `EmptyBox` that `FindBoxAt` returns for "no box here". -/
def EmptyBox : BoxT :=
  { Top := 0, Left := 0, Bottom := 0, Right := 0, Children := [] }

/-- The scan `while (Col < Map.Width && Map.Tiles[Row][Col] == '-') Col++`;
the result is the final `Col`. -/
def FindBoxAt.scanRight (H : Heap) (Map : MapT) (Row : Nat) : Nat → Nat → Except Fault Nat
  | 0, Col => .ok Col
  | fuel + 1, Col =>
    if Col < Map.Width then
      match H.read Map Row Col with
      | .error e => .error e
      | .ok a => if a = '-' then FindBoxAt.scanRight H Map Row fuel (Col + 1) else .ok Col
    else .ok Col

/-- The scan `while (Row < Map.Height && Map.Tiles[Row][Col] == '|') Row++`;
the result is the final `Row`. -/
def FindBoxAt.scanDown (H : Heap) (Map : MapT) (Col : Nat) : Nat → Nat → Except Fault Nat
  | 0, Row => .ok Row
  | fuel + 1, Row =>
    if Row < Map.Height then
      match H.read Map Row Col with
      | .error e => .error e
      | .ok a => if a = '|' then FindBoxAt.scanDown H Map Col fuel (Row + 1) else .ok Row
    else .ok Row

/-- The function `FindBoxAt`: the box starting at the given top-left cell, or
`EmptyBox`. -/
def FindBoxAt (H : Heap) (Map : MapT) (Top Left : Nat) : Except Fault BoxT :=
  match H.read Map Top Left with
  | .error e => .error e
  | .ok a =>
    if a ≠ '+' then .ok EmptyBox
    else match FindBoxAt.scanRight H Map Top (Map.Width - (Left + 1)) (Left + 1) with
      | .error e => .error e
      | .ok Col =>
        if Col ≥ Map.Width then .ok EmptyBox
        else match H.read Map Top Col with
          | .error e => .error e
          | .ok b =>
            if b ≠ '+' then .ok EmptyBox
            else match FindBoxAt.scanDown H Map Col (Map.Height - (Top + 1)) (Top + 1) with
              | .error e => .error e
              | .ok Row =>
                if Row ≥ Map.Height then .ok EmptyBox
                else match BoxIsValid H Map (BoxCreate Top Left Row Col) with
                  | .error e => .error e
                  | .ok v => if ¬ v then .ok EmptyBox else .ok (BoxCreate Top Left Row Col)

/-- The function `MapReplaceRectangle`: both loops run up to and including their
bound (`Row <= Bottom`, `Col <= Right`). -/
def MapReplaceRectangle (H : Heap) (Map : MapT) (Char : Char)
    (Top Left Bottom Right : Nat) : Except Fault Heap :=
  forLoop Top (Bottom + 1) H (fun Row H1 =>
    forLoop Left (Right + 1) H1 (fun Col H2 => H2.write Map Row Col Char))

/-- The body of the inner loop of `BoxFindChildren`, run at the cell
`(Row, Col)` on the heap and the box of the state `s`; `Recurse` stands for the
recursive call `BoxFindChildren(Map, &BoxAtPosition, true)`. -/
def BoxFindChildren.visit (Recurse : Heap → BoxT → Except Fault (Heap × BoxT))
    (MarkMap : MapT) (Recursive : Bool) (Row Col : Nat) (s : Heap × BoxT) :
    Except Fault (Heap × BoxT) :=
  match FindBoxAt s.1 MarkMap Row Col with
  | .error e => .error e
  | .ok BoxAtPosition =>
    if ¬ BoxIsZeroSized BoxAtPosition then
      if ¬ (BoxAtPosition.Top = Row ∧ BoxAtPosition.Left = Col) then .error .assertFailed
      else match MapReplaceRectangle s.1 MarkMap '#' BoxAtPosition.Top BoxAtPosition.Left
          BoxAtPosition.Bottom BoxAtPosition.Right with
        | .error e => .error e
        | .ok H1 =>
          if Recursive then
            match Recurse H1 BoxAtPosition with
            | .error e => .error e
            | .ok (H2, Child) => .ok (H2, BoxAddChild s.2 Child)
          else .ok (H1, BoxAddChild s.2 BoxAtPosition)
    else .ok s

/-- The function `BoxFindChildren`: the first argument bounds the depth of the
recursion; the result is the heap after the call and the box with the children
added. -/
def BoxFindChildren : Nat → Heap → MapT → BoxT → Bool → Except Fault (Heap × BoxT)
  | 0, _, _, _, _ => .error .outOfFuel
  | fuel + 1, H, Map, Box, Recursive =>
    match CopyMap H Map with
    | .error e => .error e
    | .ok (H0, MarkMap) =>
      forLoop (Box.Top + 1) Box.Bottom (H0, Box) (fun Row s1 =>
        forLoop (Box.Left + 1) Box.Right s1 (fun Col s2 =>
          BoxFindChildren.visit (fun H1 BoxAtPosition => BoxFindChildren fuel H1 Map BoxAtPosition true)
            MarkMap Recursive Row Col s2))

/-- The fill character `DepthChar` chosen by the `switch` of `BoxMarkChildren`. -/
def DepthChar (Depth : Nat) : Char :=
  match Depth with
  | 0 => '#'
  | 1 => '='
  | 2 => '-'
  | 3 => '.'
  | _ => ' '

/-- The statements of `BoxMarkChildren` before its last loop: they draw the four
corners, the two vertical edges, the two horizontal edges and the fill. -/
def BoxMarkChildren.draw (H : Heap) (Map : MapT) (Top Left Bottom Right Depth : Nat) :
    Except Fault Heap :=
  match H.write Map Top Left '+' with
  | .error e => .error e
  | .ok H1 =>
  match H1.write Map Bottom Left '+' with
  | .error e => .error e
  | .ok H2 =>
  match H2.write Map Top Right '+' with
  | .error e => .error e
  | .ok H3 =>
  match H3.write Map Bottom Right '+' with
  | .error e => .error e
  | .ok H4 =>
  match forLoop (Top + 1) Bottom H4 (fun Row G =>
      (G.write Map Row Left '|').bind (fun G1 => G1.write Map Row Right '|')) with
  | .error e => .error e
  | .ok H5 =>
  match forLoop (Left + 1) Right H5 (fun Col G =>
      (G.write Map Top Col '-').bind (fun G1 => G1.write Map Bottom Col '-')) with
  | .error e => .error e
  | .ok H6 =>
  forLoop (Top + 1) Bottom H6 (fun Row G =>
    forLoop (Left + 1) Right G (fun Col G1 => G1.write Map Row Col (DepthChar Depth)))

mutual
/-- The function `BoxMarkChildren`: draw the box, fill it, then draw the
children. -/
def BoxMarkChildren (H : Heap) (Map : MapT) : BoxT → Nat → Except Fault Heap
  | ⟨Top, Left, Bottom, Right, Children⟩, Depth =>
    match BoxMarkChildren.draw H Map Top Left Bottom Right Depth with
    | .error e => .error e
    | .ok H7 => BoxMarkChildren.loop H7 Map Children (Depth + 1)
/-- The last loop of `BoxMarkChildren`: the children in order, one level deeper. -/
def BoxMarkChildren.loop (H : Heap) (Map : MapT) : List BoxT → Nat → Except Fault Heap
  | [], _ => .ok H
  | Child :: Rest, Depth =>
    match BoxMarkChildren H Map Child Depth with
    | .error e => .error e
    | .ok H1 => BoxMarkChildren.loop H1 Map Rest Depth
end

/-! ## Concrete grids -/

/-- A heap holding one map with the given rows in block `0`. -/
def heapOfRows (Rows : List (List Char)) : Heap :=
  { Next := 1
    Cells := fun p r k => if p = 0 then (Rows.getD r []).getD k (Char.ofNat 0) else Char.ofNat 0 }

/-- The map of block `0` of `heapOfRows`. -/
def mapOfRows (Rows : List (List Char)) : MapT :=
  { Height := Rows.length, Width := (Rows.getD 0 []).length, Tiles := 0 }

/-- The rows of a map as they stand in the heap. -/
def rowsOfMap (H : Heap) (Map : MapT) : List (List Char) :=
  (List.range Map.Height).map (fun r => (List.range Map.Width).map (fun k => H.Cells Map.Tiles r k))

/-! ## Predicates of the specification -/

/-- The character at `[Row][Col]` of a map, as it stands in the heap. -/
def Heap.tile (H : Heap) (Map : MapT) (Row Col : Nat) : Char :=
  H.Cells Map.Tiles Row Col

/-- Both corners of the rectangle are cells of the map. -/
def InBounds (Map : MapT) (Box : BoxT) : Prop :=
  Box.Top < Map.Height ∧ Box.Bottom < Map.Height ∧ Box.Left < Map.Width ∧ Box.Right < Map.Width

instance (Map : MapT) (Box : BoxT) : Decidable (InBounds Map Box) := by
  unfold InBounds; infer_instance

deriving instance DecidableEq for Except

/-- The four conditions of the validity contract, on the cells `f`. -/
def DrawnOn (f : Nat → Nat → Char) (Box : BoxT) : Prop :=
  ¬ (Box.Top = Box.Bottom ∨ Box.Left = Box.Right) ∧
  (f Box.Top Box.Left = '+' ∧ f Box.Bottom Box.Right = '+') ∧
  (∀ Row, Box.Top < Row → Row < Box.Bottom → f Row Box.Left = '|' ∧ f Row Box.Right = '|') ∧
  (∀ Col, Box.Left < Col → Col < Box.Right → f Box.Top Col = '-' ∧ f Box.Bottom Col = '-')

/-- The four conditions of the validity contract, on a map in the heap. -/
def Drawn (H : Heap) (Map : MapT) (Box : BoxT) : Prop :=
  DrawnOn (H.tile Map) Box

/-- What `FindBoxAt` looks for from the cell `(Top, Left)` of a grid of height
`h` and width `w` with cells `f`: a box drawn in the sense of `DrawnOn` that
lies in the grid, lies right of and below its top-left cell, and has `+` at its
top-right cell as well. -/
def TracedOn (f : Nat → Nat → Char) (h w Top Left Bottom Right : Nat) : Prop :=
  Bottom < h ∧ Right < w ∧ Top < Bottom ∧ Left < Right ∧
  f Top Right = '+' ∧ DrawnOn f (BoxCreate Top Left Bottom Right)

/-- The predicate `TracedOn` for a map in the heap. -/
def Traced (H : Heap) (Map : MapT) (Top Left Bottom Right : Nat) : Prop :=
  TracedOn (H.tile Map) Map.Height Map.Width Top Left Bottom Right

/-- The cells of a map after `BoxMarkChildren` has drawn the border and the
fill of one box over the cells `f` (the four groups of cells are disjoint). -/
def drawBox (f : Nat → Nat → Char) (Box : BoxT) (Depth : Nat) : Nat → Nat → Char :=
  fun r k =>
    if (Box.Top < r ∧ r < Box.Bottom) ∧ (Box.Left < k ∧ k < Box.Right) then DepthChar Depth
    else if (r = Box.Top ∨ r = Box.Bottom) ∧ (Box.Left < k ∧ k < Box.Right) then '-'
    else if (Box.Top < r ∧ r < Box.Bottom) ∧ (k = Box.Left ∨ k = Box.Right) then '|'
    else if (r = Box.Top ∨ r = Box.Bottom) ∧ (k = Box.Left ∨ k = Box.Right) then '+'
    else f r k

/-! ## The scan of `BoxFindChildren`, on plain grids -/

/-- The cell `(r, k)` lies in the closed rectangle of the box. -/
def BoxT.Cell (B : BoxT) (r k : Nat) : Prop :=
  (B.Top ≤ r ∧ r ≤ B.Bottom) ∧ (B.Left ≤ k ∧ k ≤ B.Right)

instance (B : BoxT) (r k : Nat) : Decidable (B.Cell r k) := by
  unfold BoxT.Cell; infer_instance

/-- The cells `f` with `#` stamped over the closed rectangles of `kids`: what
the mark map of `BoxFindChildren` holds once `kids` have been found. -/
def stamped (f : Nat → Nat → Char) (kids : List BoxT) : Nat → Nat → Char :=
  fun r k => if ∃ c ∈ kids, c.Cell r k then '#' else f r k

/-- Row-major order of the top-left corners. -/
def Before (A B : BoxT) : Prop :=
  A.Top < B.Top ∨ (A.Top = B.Top ∧ A.Left < B.Left)

/-- The closed rectangles of two boxes are separated by a row or a column. -/
def Apart (A B : BoxT) : Prop :=
  A.Bottom < B.Top ∨ B.Bottom < A.Top ∨ A.Right < B.Left ∨ B.Right < A.Left

/-- The scan of `BoxFindChildren` over the open interior of the rectangle
`(T, L, B, R)` of a grid with cells `f`, height `h` and width `w`:
`Scan f h w rec T L B R i j kids` says that `kids` are the children added when
the scan stands at row `i` before column `j`.  At a cell the locator either
traces no box on the stamped grid (`skip`), or it traces one, which is stamped
and added with its own children, found on the unstamped grid, when `rec` is
set (`hit`). -/
inductive Scan (f : Nat → Nat → Char) (h w : Nat) :
    Bool → Nat → Nat → Nat → Nat → Nat → Nat → List BoxT → Prop
  | start (rec : Bool) (T L B R : Nat) : Scan f h w rec T L B R (T + 1) (L + 1) []
  | skip {rec : Bool} {T L B R i j : Nat} {kids : List BoxT} :
      Scan f h w rec T L B R i j kids → i < B → L < j → j < R →
      (∀ b r, ¬ TracedOn (stamped f kids) h w i j b r) →
      Scan f h w rec T L B R i (j + 1) kids
  | hit {rec : Bool} {T L B R i j : Nat} {kids : List BoxT} {b r : Nat} {Children : List BoxT} :
      Scan f h w rec T L B R i j kids → i < B → L < j → j < R →
      TracedOn (stamped f kids) h w i j b r →
      (rec = true → Scan f h w true i j b r (i + 1 + (b - (i + 1))) (j + 1) Children) →
      (rec = false → Children = []) →
      Scan f h w rec T L B R i (j + 1) (kids ++ [⟨i, j, b, r, Children⟩])
  | row {rec : Bool} {T L B R i : Nat} {kids : List BoxT} :
      Scan f h w rec T L B R i (L + 1 + (R - (L + 1))) kids → i < B →
      Scan f h w rec T L B R (i + 1) (L + 1) kids

/-- The loop invariant of `BoxFindChildren` when the scan of the box `Box` of
the map `Map`, started on the heap `H`, stands at row `i` before column `j`:
the box of the state is `Box` with the children `kids` added, the mark map is
the block `H.Next` and holds the cells of `Map` with `kids` stamped, the blocks
that existed at the start are as they were, and `kids` is what `Scan` says. -/
def ScanInv (H : Heap) (Map : MapT) (Box : BoxT) (rec : Bool) (i j : Nat)
    (s : Heap × BoxT) : Prop :=
  ∃ kids, s.2 = { Box with Children := Box.Children ++ kids } ∧ H.Next < s.1.Next ∧
    (∀ p, p < H.Next → ∀ r k, s.1.Cells p r k = H.Cells p r k) ∧
    (∀ r k, r < Map.Height → k < Map.Width →
      s.1.Cells H.Next r k = stamped (H.tile Map) kids r k) ∧
    Scan (H.tile Map) Map.Height Map.Width rec Box.Top Box.Left Box.Bottom Box.Right i j kids

/-! ## Box trees and their rendering -/

/-- A tree of proper rectangles in which the children of every node lie
strictly inside the node, are pairwise apart and stand in row-major order of
their top-left corners. -/
inductive WFTree : BoxT → Prop
  | mk (T L B R : Nat) (kids : List BoxT) : T < B → L < R →
      (∀ c ∈ kids, T < c.Top ∧ L < c.Left ∧ c.Bottom < B ∧ c.Right < R) →
      kids.Pairwise Before → kids.Pairwise Apart → (∀ c ∈ kids, WFTree c) →
      WFTree ⟨T, L, B, R, kids⟩

/-- The border of the rectangle `(T, L, B, R)` is drawn on the cells `g`, all
four corners included. -/
def Border (g : Nat → Nat → Char) (T L B R : Nat) : Prop :=
  (g T L = '+' ∧ g T R = '+' ∧ g B L = '+' ∧ g B R = '+') ∧
  (∀ r, T < r → r < B → g r L = '|' ∧ g r R = '|') ∧
  (∀ k, L < k → k < R → g T k = '-' ∧ g B k = '-')

/-- The cells `g` show the tree rendered from depth `d`: every node has its
border drawn, the cells of its open interior that lie in no child hold the fill
character of its depth, and its children are rendered one level deeper. The
tree is well formed in the sense of `WFTree`. -/
inductive Rendered (g : Nat → Nat → Char) : BoxT → Nat → Prop
  | mk (T L B R d : Nat) (kids : List BoxT) : T < B → L < R →
      (∀ c ∈ kids, T < c.Top ∧ L < c.Left ∧ c.Bottom < B ∧ c.Right < R) →
      kids.Pairwise Before → kids.Pairwise Apart →
      Border g T L B R →
      (∀ r k, T < r → r < B → L < k → k < R → (∀ c ∈ kids, ¬ c.Cell r k) →
        g r k = DepthChar d) →
      (∀ c ∈ kids, Rendered g c (d + 1)) →
      Rendered g ⟨T, L, B, R, kids⟩ d

/-! ## Printing, the driver, and notions for whole trees -/

/-- The characters that `PrintMap` prints for one row: the row is handed to
`fprintf` as its format string, so the output runs up to the first NUL byte.
A row holds `Width + 1` bytes; the result is `none` when C does not define the
output, which is when no NUL is met within these bytes (`n` counts the bytes
left) or when the row holds a `%`. -/
def PrintMap.row (H : Heap) (Map : MapT) (Row : Nat) : Nat → Nat → Option (List Char)
  | 0, _ => none
  | n + 1, Col =>
    if H.Cells Map.Tiles Row Col = Char.ofNat 0 then some []
    else if H.Cells Map.Tiles Row Col = '%' then none
    else (PrintMap.row H Map Row n (Col + 1)).map (fun s => H.Cells Map.Tiles Row Col :: s)

/-- The loop of `PrintMap`: `n` more rows, starting at `Row`. -/
def PrintMap.rows (H : Heap) (Map : MapT) : Nat → Nat → Option (List (List Char))
  | 0, _ => some []
  | n + 1, Row =>
    match PrintMap.row H Map Row (Map.Width + 1) 0 with
    | none => none
    | some s => (PrintMap.rows H Map n (Row + 1)).map (fun t => s :: t)

/-- The function `PrintMap`: the lines it prints, one per row of the map. -/
def PrintMap (H : Heap) (Map : MapT) : Option (List (List Char)) :=
  PrintMap.rows H Map Map.Height 0

/-- The `unsigned int` value of `n - 1`, as in `Map.Height - 1`. -/
def uintPred (n : Nat) : Nat :=
  (n + 4294967295) % 4294967296

/-- The function `Run` from the point where the map has been read: the result
is `none` when the check of the root box fails (the function logs and
returns), and otherwise the heap and the marked map that is handed to
`PrintMap`. -/
def Run (fuel : Nat) (H : Heap) (Map : MapT) : Except Fault (Option (Heap × MapT)) :=
  (BoxIsValid H Map (BoxCreate 0 0 (uintPred Map.Height) (uintPred Map.Width))).bind fun v =>
    if v = true then
      (BoxFindChildren fuel H Map
          (BoxCreate 0 0 (uintPred Map.Height) (uintPred Map.Width)) true).bind fun s =>
        (BoxMarkChildren (CreateMap s.1 Map.Height Map.Width).1
            (CreateMap s.1 Map.Height Map.Width).2 s.2 0).bind fun H2 =>
          .ok (some (H2, (CreateMap s.1 Map.Height Map.Width).2))
    else .ok none

mutual
/-- The cells after `BoxMarkChildren` has run on a tree, starting from the
cells `f`: the box is drawn, then the children are rendered in order. -/
def renderOn (f : Nat → Nat → Char) : BoxT → Nat → Nat → Nat → Char
  | ⟨Top, Left, Bottom, Right, Children⟩, Depth =>
    renderList (drawBox f ⟨Top, Left, Bottom, Right, Children⟩ Depth) Children (Depth + 1)
/-- The cells after the children loop of `BoxMarkChildren`. -/
def renderList (f : Nat → Nat → Char) : List BoxT → Nat → Nat → Nat → Char
  | [], _ => f
  | Child :: Rest, Depth => renderList (renderOn f Child Depth) Rest Depth
end

mutual
/-- The number of boxes on the longest path from a node down to a leaf. -/
def BoxT.depth : BoxT → Nat
  | ⟨_, _, _, _, Children⟩ => BoxT.depthList Children + 1
/-- The largest `depth` in a list of boxes (`0` for the empty list). -/
def BoxT.depthList : List BoxT → Nat
  | [] => 0
  | Child :: Rest => max (BoxT.depth Child) (BoxT.depthList Rest)
end

/-- The box with its children removed, as `FindBoxAt` returns it. -/
def BoxT.bare (B : BoxT) : BoxT :=
  BoxCreate B.Top B.Left B.Bottom B.Right

/-- The node `N` lies below `T` in the tree `T`: it is a child of `T` or lies
below a child of `T`. -/
inductive Below : BoxT → BoxT → Prop
  | child {T N : BoxT} : N ∈ T.Children → Below T N
  | deeper {T C N : BoxT} : C ∈ T.Children → Below C N → Below T N

/-- Every node of the tree has both corners in the map. -/
inductive AllInBounds (Map : MapT) : BoxT → Prop
  | mk (T L B R : Nat) (kids : List BoxT) : T < Map.Height → B < Map.Height →
      L < Map.Width → R < Map.Width → (∀ c ∈ kids, AllInBounds Map c) →
      AllInBounds Map ⟨T, L, B, R, kids⟩

/-- A tree of rectangles (`Top ≤ Bottom`, `Left ≤ Right`) in which the children
of every node lie strictly inside the open interior of the node and no two of
them have a cell in common. -/
inductive Nested : BoxT → Prop
  | mk (T L B R : Nat) (kids : List BoxT) : T ≤ B → L ≤ R →
      (∀ c ∈ kids, T < c.Top ∧ L < c.Left ∧ c.Bottom < B ∧ c.Right < R) →
      kids.Pairwise (fun a b => ∀ r k, ¬ (a.Cell r k ∧ b.Cell r k)) →
      (∀ c ∈ kids, Nested c) → Nested ⟨T, L, B, R, kids⟩

/-- In the tree `N`, whose root is at depth `d`, `M` is a node at depth `e`. -/
inductive NodeAt : BoxT → Nat → BoxT → Nat → Prop
  | root (N : BoxT) (d : Nat) : NodeAt N d N d
  | step {N : BoxT} {d : Nat} {c M : BoxT} {e : Nat} : c ∈ N.Children →
      NodeAt c (d + 1) M e → NodeAt N d M e

/-- In the tree `N`, whose root is at depth `d`, the node `M` at depth `e` is a
deepest node whose closed rectangle contains the cell `(r, k)`: the cell lies
in `M` and in none of the children of `M`. -/
inductive Deepest : BoxT → Nat → Nat → Nat → BoxT → Nat → Prop
  | here (N : BoxT) (d r k : Nat) : N.Cell r k → (∀ c ∈ N.Children, ¬ c.Cell r k) →
      Deepest N d r k N d
  | inside {N : BoxT} {d r k : Nat} {c M : BoxT} {e : Nat} : c ∈ N.Children →
      Deepest c (d + 1) r k M e → Deepest N d r k M e

/-- What a node at depth `d` shows at a cell of its closed rectangle: `+` at a
corner, `|` on a vertical edge, `-` on a horizontal edge, and the fill
character of the depth elsewhere. -/
def BoxT.mark (N : BoxT) (d r k : Nat) : Char :=
  if (r = N.Top ∨ r = N.Bottom) ∧ (k = N.Left ∨ k = N.Right) then '+'
  else if k = N.Left ∨ k = N.Right then '|'
  else if r = N.Top ∨ r = N.Bottom then '-'
  else DepthChar d

/-- The characters that `BoxMarkChildren` writes. -/
def Printable (c : Char) : Prop :=
  c = '+' ∨ c = '|' ∨ c = '-' ∨ c = '#' ∨ c = '=' ∨ c = '.' ∨ c = ' '

instance (c : Char) : Decidable (Printable c) := by
  unfold Printable; infer_instance

instance (f : Nat → Nat → Char) (Box : BoxT) : Decidable (DrawnOn f Box) :=
  inferInstanceAs (Decidable (
    ¬ (Box.Top = Box.Bottom ∨ Box.Left = Box.Right) ∧
    (f Box.Top Box.Left = '+' ∧ f Box.Bottom Box.Right = '+') ∧
    (∀ Row, Box.Top + 1 ≤ Row → Row < Box.Bottom → f Row Box.Left = '|' ∧ f Row Box.Right = '|') ∧
    (∀ Col, Box.Left + 1 ≤ Col → Col < Box.Right → f Box.Top Col = '-' ∧ f Box.Bottom Col = '-')))

instance (f : Nat → Nat → Char) (h w T L B R : Nat) : Decidable (TracedOn f h w T L B R) := by
  unfold TracedOn; infer_instance

/-! ## `BoxIsValid` -/

theorem read_ok (H : Heap) (Map : MapT) {Row Col : Nat} (hr : Row < Map.Height)
    (hc : Col < Map.Width) : H.read Map Row Col = .ok (H.tile Map Row Col) := by
  simp [Heap.read, Heap.tile, hr, hc]

theorem read_eq_ok (H : Heap) (Map : MapT) {Row Col : Nat} {a : Char}
    (h : H.read Map Row Col = .ok a) :
    Row < Map.Height ∧ Col < Map.Width ∧ a = H.tile Map Row Col := by
  unfold Heap.read at h
  split at h
  · rename_i hb
    injection h with h
    exact ⟨hb.1, hb.2, h.symm⟩
  · cases h

theorem rows_spec (H : Heap) (Map : MapT) (Box : BoxT) (hl : Box.Left < Map.Width)
    (hr : Box.Right < Map.Width) : ∀ n Row, Row + n ≤ Map.Height →
    ∃ b, BoxIsValid.rows H Map Box n Row = .ok b ∧
      (b = true ↔ ∀ r, Row ≤ r → r < Row + n →
        H.tile Map r Box.Left = '|' ∧ H.tile Map r Box.Right = '|') := by
  intro n
  induction n with
  | zero =>
    intro Row _
    exact ⟨true, rfl, by simp; intro r h1 h2; omega⟩
  | succ n ih =>
    intro Row hRow
    have hlt : Row < Map.Height := by omega
    unfold BoxIsValid.rows
    rw [read_ok H Map hlt hl, read_ok H Map hlt hr]
    by_cases ha : H.tile Map Row Box.Left = '|'
    · by_cases hb : H.tile Map Row Box.Right = '|'
      · obtain ⟨b, hb1, hb2⟩ := ih (Row + 1) (by omega)
        refine ⟨b, by simp [ha, hb, hb1], ?_⟩
        rw [hb2]
        constructor
        · intro h r h1 h2
          by_cases hr0 : r = Row
          · subst hr0; exact ⟨ha, hb⟩
          · exact h r (by omega) (by omega)
        · intro h r h1 h2
          exact h r (by omega) (by omega)
      · refine ⟨false, by simp [ha, hb], ?_⟩
        simp only [Bool.false_eq_true, false_iff]
        intro h
        exact hb (h Row (Nat.le_refl _) (by omega)).2
    · refine ⟨false, by simp [ha], ?_⟩
      simp only [Bool.false_eq_true, false_iff]
      intro h
      exact ha (h Row (Nat.le_refl _) (by omega)).1

theorem cols_spec (H : Heap) (Map : MapT) (Box : BoxT) (ht : Box.Top < Map.Height)
    (hb : Box.Bottom < Map.Height) : ∀ n Col, Col + n ≤ Map.Width →
    ∃ b, BoxIsValid.cols H Map Box n Col = .ok b ∧
      (b = true ↔ ∀ c, Col ≤ c → c < Col + n →
        H.tile Map Box.Top c = '-' ∧ H.tile Map Box.Bottom c = '-') := by
  intro n
  induction n with
  | zero =>
    intro Col _
    exact ⟨true, rfl, by simp; intro r h1 h2; omega⟩
  | succ n ih =>
    intro Col hCol
    have hlt : Col < Map.Width := by omega
    unfold BoxIsValid.cols
    rw [read_ok H Map ht hlt, read_ok H Map hb hlt]
    by_cases ha : H.tile Map Box.Top Col = '-'
    · by_cases hb : H.tile Map Box.Bottom Col = '-'
      · obtain ⟨b, hb1, hb2⟩ := ih (Col + 1) (by omega)
        refine ⟨b, by simp [ha, hb, hb1], ?_⟩
        rw [hb2]
        constructor
        · intro h r h1 h2
          by_cases hr0 : r = Col
          · subst hr0; exact ⟨ha, hb⟩
          · exact h r (by omega) (by omega)
        · intro h r h1 h2
          exact h r (by omega) (by omega)
      · refine ⟨false, by simp [ha, hb], ?_⟩
        simp only [Bool.false_eq_true, false_iff]
        intro h
        exact hb (h Col (Nat.le_refl _) (by omega)).2
    · refine ⟨false, by simp [ha], ?_⟩
      simp only [Bool.false_eq_true, false_iff]
      intro h
      exact ha (h Col (Nat.le_refl _) (by omega)).1

/-- On an in-bounds rectangle `BoxIsValid` returns, and it returns `true`
exactly for the rectangles that meet the four conditions. -/
theorem BoxIsValid_spec (H : Heap) (Map : MapT) (Box : BoxT) (hb : InBounds Map Box) :
    ∃ b, BoxIsValid H Map Box = .ok b ∧ (b = true ↔ Drawn H Map Box) := by
  obtain ⟨hT, hB, hL, hR⟩ := hb
  unfold BoxIsValid Drawn DrawnOn
  by_cases hz : BoxIsZeroSized Box = true
  · refine ⟨false, by simp [hz], ?_⟩
    simp only [BoxIsZeroSized, Bool.or_eq_true, beq_iff_eq] at hz
    simp [hz]
  · have hz' : ¬ (Box.Top = Box.Bottom ∨ Box.Left = Box.Right) := by
      simpa [BoxIsZeroSized] using hz
    rw [if_neg hz, read_ok H Map hT hL, read_ok H Map hB hR]
    by_cases h1 : H.tile Map Box.Top Box.Left = '+'
    · by_cases h2 : H.tile Map Box.Bottom Box.Right = '+'
      · obtain ⟨r, hr1, hr2⟩ := rows_spec H Map Box hL hR (Box.Bottom - (Box.Top + 1))
          (Box.Top + 1) (by omega)
        obtain ⟨c, hc1, hc2⟩ := cols_spec H Map Box hT hB (Box.Right - (Box.Left + 1))
          (Box.Left + 1) (by omega)
        have hrows : r = true ↔ ∀ Row, Box.Top < Row → Row < Box.Bottom →
            H.tile Map Row Box.Left = '|' ∧ H.tile Map Row Box.Right = '|' := by
          rw [hr2]
          constructor
          · intro h Row a b; exact h Row (by omega) (by omega)
          · intro h Row a b; exact h Row (by omega) (by omega)
        have hcols : c = true ↔ ∀ Col, Box.Left < Col → Col < Box.Right →
            H.tile Map Box.Top Col = '-' ∧ H.tile Map Box.Bottom Col = '-' := by
          rw [hc2]
          constructor
          · intro h Col a b; exact h Col (by omega) (by omega)
          · intro h Col a b; exact h Col (by omega) (by omega)
        cases r with
        | false =>
          refine ⟨false, by simp [h1, h2, hr1], ?_⟩
          simp only [Bool.false_eq_true, false_iff]
          intro h
          exact Bool.false_ne_true (hrows.2 h.2.2.1)
        | true =>
          refine ⟨c, by simp [h1, h2, hr1, hc1], ?_⟩
          rw [hcols]
          constructor
          · intro h; exact ⟨hz', ⟨h1, h2⟩, hrows.1 rfl, h⟩
          · intro h; exact h.2.2.2
      · refine ⟨false, by simp [h1, h2], ?_⟩
        simp only [Bool.false_eq_true, false_iff]
        intro h; exact h2 h.2.1.2
    · refine ⟨false, by simp [h1], ?_⟩
      simp only [Bool.false_eq_true, false_iff]
      intro h; exact h1 h.2.1.1

/-- C1: on an in-bounds rectangle `BoxIsValid` answers `true` exactly when the
rectangle is not zero-sized, has `+` at its top-left and bottom-right cells,
`|` on the inner cells of its left and right edges and `-` on the inner cells of
its top and bottom edges (and `false` otherwise); the answer is the same on
every map content that differs only at the top-right cell, the bottom-left
cell or inside the rectangle. -/
theorem BoxIsValid_iff_drawn (H : Heap) (Map : MapT) (R : BoxT) (hb : InBounds Map R) :
    (BoxIsValid H Map R = .ok true ↔ Drawn H Map R) ∧
    (BoxIsValid H Map R = .ok false ↔ ¬ Drawn H Map R) ∧
    (∀ G : Heap,
      (∀ Row Col, ¬ (Row = R.Top ∧ Col = R.Right) → ¬ (Row = R.Bottom ∧ Col = R.Left) →
        ¬ (R.Top < Row ∧ Row < R.Bottom ∧ R.Left < Col ∧ Col < R.Right) →
        G.tile Map Row Col = H.tile Map Row Col) →
      BoxIsValid G Map R = BoxIsValid H Map R) := by
  obtain ⟨b, hb1, hb2⟩ := BoxIsValid_spec H Map R hb
  refine ⟨?_, ?_, ?_⟩
  · rw [hb1, ← hb2]
    constructor
    · intro h; injection h
    · intro h; rw [h]
  · rw [hb1, ← hb2]
    constructor
    · intro h; injection h with h; simp [h]
    · intro h; cases b <;> simp_all
  · intro G hG
    obtain ⟨c, hc1, hc2⟩ := BoxIsValid_spec G Map R hb
    have key : Drawn G Map R ↔ Drawn H Map R := by
      unfold Drawn DrawnOn
      by_cases hz : R.Top = R.Bottom ∨ R.Left = R.Right
      · simp [hz]
      · have e1 : G.tile Map R.Top R.Left = H.tile Map R.Top R.Left :=
          hG _ _ (by omega) (by omega) (by omega)
        have e2 : G.tile Map R.Bottom R.Right = H.tile Map R.Bottom R.Right :=
          hG _ _ (by omega) (by omega) (by omega)
        have e3 : ∀ Row, R.Top < Row → Row < R.Bottom →
            G.tile Map Row R.Left = H.tile Map Row R.Left ∧
            G.tile Map Row R.Right = H.tile Map Row R.Right := fun Row h1 h2 =>
          ⟨hG _ _ (by omega) (by omega) (by omega), hG _ _ (by omega) (by omega) (by omega)⟩
        have e4 : ∀ Col, R.Left < Col → Col < R.Right →
            G.tile Map R.Top Col = H.tile Map R.Top Col ∧
            G.tile Map R.Bottom Col = H.tile Map R.Bottom Col := fun Col h1 h2 =>
          ⟨hG _ _ (by omega) (by omega) (by omega), hG _ _ (by omega) (by omega) (by omega)⟩
        rw [e1, e2]
        constructor
        · rintro ⟨a, b, c, d⟩
          exact ⟨a, b, fun Row h1 h2 => by rw [← (e3 Row h1 h2).1, ← (e3 Row h1 h2).2]; exact c Row h1 h2,
            fun Col h1 h2 => by rw [← (e4 Col h1 h2).1, ← (e4 Col h1 h2).2]; exact d Col h1 h2⟩
        · rintro ⟨a, b, c, d⟩
          exact ⟨a, b, fun Row h1 h2 => by rw [(e3 Row h1 h2).1, (e3 Row h1 h2).2]; exact c Row h1 h2,
            fun Col h1 h2 => by rw [(e4 Col h1 h2).1, (e4 Col h1 h2).2]; exact d Col h1 h2⟩
    rw [hb1, hc1]
    congr 1
    rw [Bool.eq_iff_iff, hc2, hb2, key]

/-- C1 at the 3x3 box `+-+ / | | / +-+`. -/
theorem BoxIsValid_iff_drawn_witness :
    InBounds (mapOfRows ["+-+".toList, "| |".toList, "+-+".toList]) (BoxCreate 0 0 2 2) ∧
    BoxIsValid (heapOfRows ["+-+".toList, "| |".toList, "+-+".toList])
      (mapOfRows ["+-+".toList, "| |".toList, "+-+".toList]) (BoxCreate 0 0 2 2) = .ok true ∧
    Drawn (heapOfRows ["+-+".toList, "| |".toList, "+-+".toList])
      (mapOfRows ["+-+".toList, "| |".toList, "+-+".toList]) (BoxCreate 0 0 2 2) :=
  have hb : InBounds (mapOfRows ["+-+".toList, "| |".toList, "+-+".toList])
      (BoxCreate 0 0 2 2) := by decide
  have hv : BoxIsValid (heapOfRows ["+-+".toList, "| |".toList, "+-+".toList])
      (mapOfRows ["+-+".toList, "| |".toList, "+-+".toList]) (BoxCreate 0 0 2 2) = .ok true := by
    decide
  ⟨hb, hv, (BoxIsValid_iff_drawn _ _ _ hb).1.1 hv⟩

/-! ## `FindBoxAt` -/

theorem scanRight_spec (H : Heap) (Map : MapT) {Row : Nat} (hr : Row < Map.Height) :
    ∀ fuel Col, Map.Width ≤ Col + fuel →
    ∃ Stop, FindBoxAt.scanRight H Map Row fuel Col = .ok Stop ∧ Col ≤ Stop ∧
      (∀ c, Col ≤ c → c < Stop → c < Map.Width ∧ H.tile Map Row c = '-') ∧
      (Stop < Map.Width → H.tile Map Row Stop ≠ '-') := by
  intro fuel
  induction fuel with
  | zero =>
    intro Col h
    exact ⟨Col, rfl, Nat.le_refl _, fun c h1 h2 => by omega, fun h1 => by omega⟩
  | succ fuel ih =>
    intro Col h
    unfold FindBoxAt.scanRight
    by_cases hc : Col < Map.Width
    · rw [if_pos hc, read_ok H Map hr hc]
      by_cases ha : H.tile Map Row Col = '-'
      · obtain ⟨Stop, h1, h2, h3, h4⟩ := ih (Col + 1) (by omega)
        refine ⟨Stop, by simp [ha, h1], by omega, ?_, h4⟩
        intro c hc1 hc2
        by_cases hcc : c = Col
        · subst hcc; exact ⟨hc, ha⟩
        · exact h3 c (by omega) hc2
      · exact ⟨Col, by simp [ha], Nat.le_refl _, fun c h1 h2 => by omega, fun _ => ha⟩
    · rw [if_neg hc]
      exact ⟨Col, rfl, Nat.le_refl _, fun c h1 h2 => by omega, fun h1 => by omega⟩

theorem scanDown_spec (H : Heap) (Map : MapT) {Col : Nat} (hc : Col < Map.Width) :
    ∀ fuel Row, Map.Height ≤ Row + fuel →
    ∃ Stop, FindBoxAt.scanDown H Map Col fuel Row = .ok Stop ∧ Row ≤ Stop ∧
      (∀ r, Row ≤ r → r < Stop → r < Map.Height ∧ H.tile Map r Col = '|') ∧
      (Stop < Map.Height → H.tile Map Stop Col ≠ '|') := by
  intro fuel
  induction fuel with
  | zero =>
    intro Row h
    exact ⟨Row, rfl, Nat.le_refl _, fun c h1 h2 => by omega, fun h1 => by omega⟩
  | succ fuel ih =>
    intro Row h
    unfold FindBoxAt.scanDown
    by_cases hr : Row < Map.Height
    · rw [if_pos hr, read_ok H Map hr hc]
      by_cases ha : H.tile Map Row Col = '|'
      · obtain ⟨Stop, h1, h2, h3, h4⟩ := ih (Row + 1) (by omega)
        refine ⟨Stop, by simp [ha, h1], by omega, ?_, h4⟩
        intro r hr1 hr2
        by_cases hrr : r = Row
        · subst hrr; exact ⟨hr, ha⟩
        · exact h3 r (by omega) hr2
      · exact ⟨Row, by simp [ha], Nat.le_refl _, fun c h1 h2 => by omega, fun _ => ha⟩
    · rw [if_neg hr]
      exact ⟨Row, rfl, Nat.le_refl _, fun c h1 h2 => by omega, fun h1 => by omega⟩

/-- From a given top-left cell at most one box can be traced. -/
theorem TracedOn_unique {f : Nat → Nat → Char} {h w Top Left B1 R1 B2 R2 : Nat}
    (h1 : TracedOn f h w Top Left B1 R1) (h2 : TracedOn f h w Top Left B2 R2) :
    B1 = B2 ∧ R1 = R2 := by
  obtain ⟨_, _, a3, a4, a5, -, ⟨-, a6⟩, a7, a8⟩ := h1
  obtain ⟨_, _, b3, b4, b5, -, ⟨-, b6⟩, b7, b8⟩ := h2
  simp only [BoxCreate] at a6 a7 a8 b6 b7 b8
  have hR : R1 = R2 := by
    rcases Nat.lt_trichotomy R1 R2 with h | h | h
    · have := (b8 R1 a4 h).1; rw [a5] at this; exact absurd this (by decide)
    · exact h
    · have := (a8 R2 b4 h).1; rw [b5] at this; exact absurd this (by decide)
  subst hR
  refine ⟨?_, rfl⟩
  rcases Nat.lt_trichotomy B1 B2 with h | h | h
  · have := (b7 B1 a3 h).2; rw [a6] at this; exact absurd this (by decide)
  · exact h
  · have := (a7 B2 b3 h).2; rw [b6] at this; exact absurd this (by decide)

theorem Traced_unique {H : Heap} {Map : MapT} {Top Left B1 R1 B2 R2 : Nat}
    (h1 : Traced H Map Top Left B1 R1) (h2 : Traced H Map Top Left B2 R2) :
    B1 = B2 ∧ R1 = R2 :=
  TracedOn_unique h1 h2

/-- From an in-bounds cell `FindBoxAt` returns: the box traced from the cell
when there is one, and `EmptyBox` when there is none. -/
theorem FindBoxAt_spec (H : Heap) (Map : MapT) {Top Left : Nat} (hT : Top < Map.Height)
    (hL : Left < Map.Width) :
    ∃ B, FindBoxAt H Map Top Left = .ok B ∧
      ((∃ Bottom Right, Traced H Map Top Left Bottom Right ∧ B = BoxCreate Top Left Bottom Right) ∨
       (B = EmptyBox ∧ ∀ Bottom Right, ¬ Traced H Map Top Left Bottom Right)) := by
  unfold FindBoxAt
  rw [read_ok H Map hT hL]
  by_cases h0 : H.tile Map Top Left = '+'
  swap
  · refine ⟨EmptyBox, by simp [h0], Or.inr ⟨rfl, ?_⟩⟩
    rintro Bottom Right ⟨_, _, _, _, _, -, ⟨a, -⟩, -, -⟩
    exact h0 a
  obtain ⟨Col, c1, c2, c3, c4⟩ := scanRight_spec H Map hT (Map.Width - (Left + 1)) (Left + 1)
    (by omega)
  by_cases hCol : Col ≥ Map.Width
  · refine ⟨EmptyBox, by simp [h0, c1, hCol], Or.inr ⟨rfl, ?_⟩⟩
    rintro Bottom Right ⟨_, a2, _, a4, a5, -⟩
    have := (c3 Right (by omega) (by omega)).2
    rw [a5] at this; exact absurd this (by decide)
  have hColW : Col < Map.Width := by omega
  have hRight : ∀ Bottom Right, Traced H Map Top Left Bottom Right → Right = Col := by
    rintro Bottom Right ⟨_, a2, _, a4, a5, -, ⟨-, -⟩, -, a8⟩
    simp only [BoxCreate] at a8
    rcases Nat.lt_trichotomy Right Col with h | h | h
    · have := (c3 Right (by omega) h).2
      rw [a5] at this; exact absurd this (by decide)
    · exact h
    · exact absurd (a8 Col (by omega) h).1 (c4 hColW)
  by_cases h1 : H.tile Map Top Col = '+'
  swap
  · refine ⟨EmptyBox, by simp [h0, c1, hCol, read_ok H Map hT hColW, h1], Or.inr ⟨rfl, ?_⟩⟩
    intro Bottom Right ht
    have hR := hRight Bottom Right ht
    subst hR
    exact h1 ht.2.2.2.2.1
  obtain ⟨Row, r1, r2, r3, r4⟩ := scanDown_spec H Map hColW (Map.Height - (Top + 1)) (Top + 1)
    (by omega)
  by_cases hRow : Row ≥ Map.Height
  · refine ⟨EmptyBox, by simp [h0, c1, hCol, read_ok H Map hT hColW, h1, r1, hRow],
      Or.inr ⟨rfl, ?_⟩⟩
    intro Bottom Right ht
    have hR := hRight Bottom Right ht
    subst hR
    obtain ⟨a1, _, a3, _, _, -, ⟨-, a6⟩, -, -⟩ := ht
    simp only [BoxCreate] at a6
    have := (r3 Bottom (by omega) (by omega)).2
    rw [a6] at this; exact absurd this (by decide)
  have hRowH : Row < Map.Height := by omega
  have hBottom : ∀ Bottom, Traced H Map Top Left Bottom Col → Bottom = Row := by
    rintro Bottom ⟨_, a2, a3, a4, a5, -, ⟨-, a6⟩, a7, -⟩
    simp only [BoxCreate] at a6 a7
    rcases Nat.lt_trichotomy Bottom Row with h | h | h
    · have := (r3 Bottom (by omega) h).2
      rw [a6] at this; exact absurd this (by decide)
    · exact h
    · exact absurd (a7 Row (by omega) h).2 (r4 hRowH)
  have hbnd : InBounds Map (BoxCreate Top Left Row Col) := ⟨hT, hRowH, hL, hColW⟩
  obtain ⟨v, v1, v2⟩ := BoxIsValid_spec H Map (BoxCreate Top Left Row Col) hbnd
  cases v with
  | true =>
    refine ⟨BoxCreate Top Left Row Col,
      by simp [h0, c1, hCol, read_ok H Map hT hColW, h1, r1, hRow, v1], Or.inl ⟨Row, Col, ?_, rfl⟩⟩
    exact ⟨hRowH, hColW, by omega, by omega, h1, v2.1 rfl⟩
  | false =>
    refine ⟨EmptyBox, by simp [h0, c1, hCol, read_ok H Map hT hColW, h1, r1, hRow, v1],
      Or.inr ⟨rfl, ?_⟩⟩
    intro Bottom Right ht
    have hR := hRight Bottom Right ht
    subst hR
    have hB := hBottom Bottom ht
    subst hB
    exact Bool.false_ne_true (v2.2 ht.2.2.2.2.2)

theorem Drawn_of_valid {H : Heap} {Map : MapT} {Box : BoxT} (hb : InBounds Map Box)
    (hv : BoxIsValid H Map Box = .ok true) : Drawn H Map Box := by
  obtain ⟨b, h1, h2⟩ := BoxIsValid_spec H Map Box hb
  rw [hv] at h1
  injection h1 with h1
  exact h2.1 h1.symm

theorem valid_of_Drawn {H : Heap} {Map : MapT} {Box : BoxT} (hb : InBounds Map Box)
    (hd : Drawn H Map Box) : BoxIsValid H Map Box = .ok true := by
  obtain ⟨b, h1, h2⟩ := BoxIsValid_spec H Map Box hb
  rw [h1, h2.2 hd]

/-- The predicate `Drawn` looks at the four coordinates of a box only. -/
theorem Drawn_congr {H : Heap} {Map : MapT} {A B : BoxT} (h1 : A.Top = B.Top)
    (h2 : A.Left = B.Left) (h3 : A.Bottom = B.Bottom) (h4 : A.Right = B.Right) :
    Drawn H Map A ↔ Drawn H Map B := by
  unfold Drawn DrawnOn
  rw [h1, h2, h3, h4]

/-- C2, as stated, fails: on the 3x3 grid `+-x / | | / x-+` the rectangle
`(0,0,2,2)` is in bounds and drawn correctly in the sense of the validity
contract, and `BoxIsValid` accepts it, but `FindBoxAt` from `(0,0)` returns the
zeroed box, because the top-right cell is not `+`. -/
theorem FindBoxAt_drawn_counterexample :
    InBounds (mapOfRows ["+-x".toList, "| |".toList, "x-+".toList]) (BoxCreate 0 0 2 2) ∧
    Drawn (heapOfRows ["+-x".toList, "| |".toList, "x-+".toList])
      (mapOfRows ["+-x".toList, "| |".toList, "x-+".toList]) (BoxCreate 0 0 2 2) ∧
    FindBoxAt (heapOfRows ["+-x".toList, "| |".toList, "x-+".toList])
      (mapOfRows ["+-x".toList, "| |".toList, "x-+".toList]) 0 0 = .ok EmptyBox ∧
    ¬ (BoxIsValid (heapOfRows ["+-x".toList, "| |".toList, "x-+".toList])
        (mapOfRows ["+-x".toList, "| |".toList, "x-+".toList]) (BoxCreate 0 0 2 2) = .ok true ∧
      ∃ B, FindBoxAt (heapOfRows ["+-x".toList, "| |".toList, "x-+".toList])
        (mapOfRows ["+-x".toList, "| |".toList, "x-+".toList]) 0 0 = .ok B ∧
        B.Top = 0 ∧ B.Left = 0 ∧ B.Bottom = 2 ∧ B.Right = 2) := by
  have hf : FindBoxAt (heapOfRows ["+-x".toList, "| |".toList, "x-+".toList])
      (mapOfRows ["+-x".toList, "| |".toList, "x-+".toList]) 0 0 = .ok EmptyBox := by decide
  refine ⟨by decide, Drawn_of_valid (by decide) (by decide), hf, ?_⟩
  rintro ⟨-, B, hB, -, -, h3, -⟩
  rw [hf] at hB
  injection hB with hB
  subst hB
  exact absurd h3 (by decide)

/-- C2, amended: a rectangle (`Top ≤ Bottom`, `Left ≤ Right`) that is in bounds
and drawn correctly in the sense of the validity contract is accepted by
`BoxIsValid`; `FindBoxAt` from its top-left cell returns exactly this rectangle
if the top-right cell holds `+` too, and does not return it otherwise. -/
theorem FindBoxAt_drawn (H : Heap) (Map : MapT) (R : BoxT) (hb : InBounds Map R)
    (hrect : R.Top ≤ R.Bottom ∧ R.Left ≤ R.Right) (hd : Drawn H Map R) :
    BoxIsValid H Map R = .ok true ∧
    (FindBoxAt H Map R.Top R.Left = .ok (BoxCreate R.Top R.Left R.Bottom R.Right) ↔
      H.tile Map R.Top R.Right = '+') := by
  refine ⟨valid_of_Drawn hb hd, ?_⟩
  have hd' : Drawn H Map (BoxCreate R.Top R.Left R.Bottom R.Right) :=
    (Drawn_congr rfl rfl rfl rfl).1 hd
  have hz := hd.1
  obtain ⟨B, hB, hcase⟩ := FindBoxAt_spec H Map hb.1 hb.2.2.1
  rw [hB]
  constructor
  · intro h
    injection h with h
    subst h
    rcases hcase with ⟨Bottom, Right, ht, he⟩ | ⟨he, -⟩
    · have e3 : R.Bottom = Bottom := congrArg BoxT.Bottom he
      have e4 : R.Right = Right := congrArg BoxT.Right he
      simp only [BoxCreate] at e3 e4
      rw [e4]; exact ht.2.2.2.2.1
    · have e1 : R.Top = 0 := congrArg BoxT.Top he
      have e3 : R.Bottom = 0 := congrArg BoxT.Bottom he
      simp only [BoxCreate] at e1 e3
      exact absurd (e1.trans e3.symm) (fun e => hz (Or.inl e))
  · intro hplus
    have ht : Traced H Map R.Top R.Left R.Bottom R.Right :=
      ⟨hb.2.1, hb.2.2.2, by omega, by omega, hplus, hd'⟩
    rcases hcase with ⟨Bottom, Right, ht2, he⟩ | ⟨-, hnone⟩
    · obtain ⟨e1, e2⟩ := Traced_unique ht ht2
      rw [he, e1, e2]
    · exact absurd ht (hnone _ _)

/-- The amended C2 at the 3x3 box `+-+ / | | / +-+`: `FindBoxAt` returns it. -/
theorem FindBoxAt_drawn_witness :
    InBounds (mapOfRows ["+-+".toList, "| |".toList, "+-+".toList]) (BoxCreate 0 0 2 2) ∧
    FindBoxAt (heapOfRows ["+-+".toList, "| |".toList, "+-+".toList])
      (mapOfRows ["+-+".toList, "| |".toList, "+-+".toList]) 0 0 = .ok (BoxCreate 0 0 2 2) :=
  ⟨by decide,
   (FindBoxAt_drawn (heapOfRows ["+-+".toList, "| |".toList, "+-+".toList])
      (mapOfRows ["+-+".toList, "| |".toList, "+-+".toList]) (BoxCreate 0 0 2 2)
      (by decide) (by decide) (Drawn_of_valid (by decide) (by decide))).2.2 (by decide)⟩

/-- A call of `FindBoxAt` that returns has read its start cell. -/
theorem FindBoxAt_ok_inBounds {H : Heap} {Map : MapT} {Top Left : Nat} {B : BoxT}
    (h : FindBoxAt H Map Top Left = .ok B) : Top < Map.Height ∧ Left < Map.Width := by
  unfold FindBoxAt at h
  cases hr : H.read Map Top Left with
  | error e => rw [hr] at h; cases h
  | ok a => exact ⟨(read_eq_ok H Map hr).1, (read_eq_ok H Map hr).2.1⟩

/-- What `FindBoxAt` returns is the zeroed box or a box that starts at the
given cell and extends to the right and downwards. -/
theorem FindBoxAt_cases {H : Heap} {Map : MapT} {Top Left : Nat} {B : BoxT}
    (h : FindBoxAt H Map Top Left = .ok B) :
    B = EmptyBox ∨ ∃ Bottom Right, B = BoxCreate Top Left Bottom Right ∧
      Traced H Map Top Left Bottom Right := by
  obtain ⟨hT, hL⟩ := FindBoxAt_ok_inBounds h
  obtain ⟨B', hB, hcase⟩ := FindBoxAt_spec H Map hT hL
  rw [h] at hB
  injection hB with hB
  subst hB
  rcases hcase with ⟨Bottom, Right, ht, he⟩ | ⟨he, -⟩
  · exact Or.inr ⟨Bottom, Right, he, ht⟩
  · exact Or.inl he

/-- C6: a box that `FindBoxAt` reports as found (a result other than the zeroed
box) has `Top < Bottom` and `Left < Right`, so the results of `FindBoxAt` that
are zero-sized are exactly the zeroed box; and `BoxIsValid` rejects every
zero-sized rectangle on every grid. -/
theorem FindBoxAt_not_zero_sized (H : Heap) (Map : MapT) (Top Left : Nat) (B R : BoxT)
    (h : FindBoxAt H Map Top Left = .ok B) (hz : R.Top = R.Bottom ∨ R.Left = R.Right) :
    (B ≠ EmptyBox → B.Top < B.Bottom ∧ B.Left < B.Right) ∧
    (BoxIsZeroSized B = true ↔ B = EmptyBox) ∧
    BoxIsZeroSized R = true ∧ BoxIsValid H Map R = .ok false := by
  have hcases := FindBoxAt_cases h
  have hR : BoxIsZeroSized R = true := by
    simpa [BoxIsZeroSized] using hz
  refine ⟨?_, ?_, hR, by simp [BoxIsValid, hR]⟩
  · intro hne
    rcases hcases with he | ⟨Bottom, Right, he, ht⟩
    · exact absurd he hne
    · subst he
      exact ⟨ht.2.2.1, ht.2.2.2.1⟩
  · constructor
    · intro hzB
      rcases hcases with he | ⟨Bottom, Right, he, ht⟩
      · exact he
      · subst he
        have h1 := ht.2.2.1
        have h2 := ht.2.2.2.1
        simp only [BoxIsZeroSized, BoxCreate, Bool.or_eq_true, beq_iff_eq] at hzB
        omega
    · intro he
      subst he
      rfl

/-- C6 on the 3x3 box `+-+ / | | / +-+`: the box found at `(0,0)` and the
zero-sized rectangle `(1,0,1,2)`. -/
theorem FindBoxAt_not_zero_sized_witness :
    BoxIsZeroSized (BoxCreate 0 0 2 2) = false ∧
    BoxIsValid (heapOfRows ["+-+".toList, "| |".toList, "+-+".toList])
      (mapOfRows ["+-+".toList, "| |".toList, "+-+".toList]) (BoxCreate 1 0 1 2) = .ok false :=
  have h := FindBoxAt_not_zero_sized (heapOfRows ["+-+".toList, "| |".toList, "+-+".toList])
    (mapOfRows ["+-+".toList, "| |".toList, "+-+".toList]) 0 0 (BoxCreate 0 0 2 2)
    (BoxCreate 1 0 1 2) (by decide) (by decide)
  ⟨by
    have h2 := h.2.1
    cases hb : BoxIsZeroSized (BoxCreate 0 0 2 2) with
    | false => rfl
    | true => exact absurd (h2.1 hb) (by decide), h.2.2.2⟩

/-- C7: from a start cell inside the map `FindBoxAt` returns without reading a
cell outside the map, and it returns the zeroed box when the run of `-` right
of the start cell reaches the last column (which covers a start cell in the
last column) and when the run of `|` below the stopping cell reaches the last
row. -/
theorem FindBoxAt_in_bounds (H : Heap) (Map : MapT) (Top Left : Nat) (hT : Top < Map.Height)
    (hL : Left < Map.Width) :
    (∃ B, FindBoxAt H Map Top Left = .ok B) ∧
    ((∀ c, Left < c → c < Map.Width → H.tile Map Top c = '-') →
      FindBoxAt H Map Top Left = .ok EmptyBox) ∧
    (∀ Col, Left < Col → Col < Map.Width →
      (∀ c, Left < c → c < Col → H.tile Map Top c = '-') → H.tile Map Top Col ≠ '-' →
      (∀ r, Top < r → r < Map.Height → H.tile Map r Col = '|') →
      FindBoxAt H Map Top Left = .ok EmptyBox) := by
  obtain ⟨B, hB, hcase⟩ := FindBoxAt_spec H Map hT hL
  refine ⟨⟨B, hB⟩, ?_, ?_⟩
  · intro hrun
    rcases hcase with ⟨Bottom, Right, ht, -⟩ | ⟨he, -⟩
    · have := hrun Right ht.2.2.2.1 ht.2.1
      rw [ht.2.2.2.2.1] at this
      exact absurd this (by decide)
    · rw [hB, he]
  · intro Col h1 h2 hrun hstop hdown
    rcases hcase with ⟨Bottom, Right, ht, -⟩ | ⟨he, -⟩
    · obtain ⟨a1, a2, a3, a4, a5, -, ⟨-, a6⟩, -, a8⟩ := ht
      simp only [BoxCreate] at a6 a8
      have hR : Right = Col := by
        rcases Nat.lt_trichotomy Right Col with h | h | h
        · have := hrun Right a4 h
          rw [a5] at this; exact absurd this (by decide)
        · exact h
        · exact absurd (a8 Col h1 h).1 hstop
      subst hR
      have := hdown Bottom a3 a1
      rw [a6] at this
      exact absurd this (by decide)
    · rw [hB, he]

/-- C7 on the one-row grid `+--`: the run of `-` reaches the last column. -/
theorem FindBoxAt_in_bounds_witness :
    FindBoxAt (heapOfRows ["+--".toList]) (mapOfRows ["+--".toList]) 0 0 = .ok EmptyBox :=
  (FindBoxAt_in_bounds (heapOfRows ["+--".toList]) (mapOfRows ["+--".toList]) 0 0
    (by decide) (by decide)).2.1 (by
      intro c h1 h2
      have h3 : c < 3 := h2
      interval_cases c <;> decide)

/-! ## Counted loops and writes -/

theorem forLoop_go_inv {σ : Type} (Inv : Nat → σ → Prop) (Body : Nat → σ → Except Fault σ) :
    ∀ n I s, Inv I s →
    (∀ i t, I ≤ i → i < I + n → Inv i t → ∃ t', Body i t = .ok t' ∧ Inv (i + 1) t') →
    ∃ s', forLoop.go Body n I s = .ok s' ∧ Inv (I + n) s' := by
  intro n
  induction n with
  | zero =>
    intro I s h0 _
    exact ⟨s, rfl, h0⟩
  | succ n ih =>
    intro I s h0 hstep
    obtain ⟨t, ht1, ht2⟩ := hstep I s (Nat.le_refl _) (by omega) h0
    obtain ⟨s', hs1, hs2⟩ := ih (I + 1) t ht2 (fun i u h1 h2 h3 => hstep i u (by omega) (by omega) h3)
    refine ⟨s', ?_, ?_⟩
    · simp only [forLoop.go, ht1, hs1]
    · have e : I + (n + 1) = I + 1 + n := by omega
      rw [e]; exact hs2

/-- The invariant rule for counted loops. -/
theorem forLoop_inv {σ : Type} (Inv : Nat → σ → Prop) (Start Stop : Nat) (s : σ)
    (Body : Nat → σ → Except Fault σ) (h0 : Inv Start s)
    (hstep : ∀ i t, Start ≤ i → i < Stop → Inv i t → ∃ t', Body i t = .ok t' ∧ Inv (i + 1) t') :
    ∃ s', forLoop Start Stop s Body = .ok s' ∧ Inv (Start + (Stop - Start)) s' := by
  unfold forLoop
  exact forLoop_go_inv Inv Body (Stop - Start) Start s h0
    (fun i t h1 h2 h3 => hstep i t h1 (by omega) h3)

/-- Two loops with bodies that agree on the range agree. -/
theorem forLoop_congr {σ : Type} (Start Stop : Nat) (s : σ) (Body1 Body2 : Nat → σ → Except Fault σ)
    (h : ∀ i t, Start ≤ i → i < Stop → Body1 i t = Body2 i t) :
    forLoop Start Stop s Body1 = forLoop Start Stop s Body2 := by
  unfold forLoop
  have key : ∀ n I t, I + n ≤ Start + (Stop - Start) → Start ≤ I →
      forLoop.go Body1 n I t = forLoop.go Body2 n I t := by
    intro n
    induction n with
    | zero => intro I t _ _; rfl
    | succ n ih =>
      intro I t h1 h2
      simp only [forLoop.go]
      rw [h I t h2 (by omega)]
      cases Body2 I t with
      | error e => rfl
      | ok u => exact ih (I + 1) u (by omega) (by omega)
  exact key _ _ _ (Nat.le_refl _) (Nat.le_refl _)

theorem write_ok (H : Heap) (Map : MapT) {Row Col : Nat} (c : Char) (hr : Row < Map.Height)
    (hc : Col < Map.Width) :
    ∃ G, H.write Map Row Col c = .ok G ∧ G.Next = H.Next ∧
      ∀ p r k, G.Cells p r k = if p = Map.Tiles ∧ r = Row ∧ k = Col then c else H.Cells p r k :=
  ⟨{ Next := H.Next
     Cells := fun p r k => if p = Map.Tiles ∧ r = Row ∧ k = Col then c else H.Cells p r k },
    by simp only [Heap.write, hr, hc, and_self, if_true], rfl, fun _ _ _ => rfl⟩

/-- A loop that writes one character along a stretch of a row. -/
theorem fillRow_spec (H : Heap) (Map : MapT) (ch : Char) {Row : Nat} (hr : Row < Map.Height)
    (Left Stop : Nat) (hs : Stop ≤ Map.Width) :
    ∃ G, forLoop Left Stop H (fun Col G => G.write Map Row Col ch) = .ok G ∧ G.Next = H.Next ∧
      ∀ p r k, G.Cells p r k =
        if p = Map.Tiles ∧ r = Row ∧ Left ≤ k ∧ k < Stop then ch else H.Cells p r k := by
  obtain ⟨G, h1, h2, h3⟩ := forLoop_inv
    (fun i (G : Heap) => G.Next = H.Next ∧ ∀ p r k, G.Cells p r k =
      if p = Map.Tiles ∧ r = Row ∧ Left ≤ k ∧ k < i then ch else H.Cells p r k)
    Left Stop H (fun Col G => G.write Map Row Col ch)
    ⟨rfl, fun p r k => by split_ifs <;> first | rfl | (exfalso; omega)⟩
    (by
      intro i G hi1 hi2 ⟨hn, hcells⟩
      obtain ⟨G', w1, w2, w3⟩ := write_ok G Map ch hr (show i < Map.Width by omega)
      refine ⟨G', w1, w2.trans hn, fun p r k => ?_⟩
      rw [w3, hcells]
      split_ifs <;> first | rfl | (exfalso; omega))
  refine ⟨G, h1, h2, fun p r k => ?_⟩
  rw [h3]
  split_ifs <;> first | rfl | (exfalso; omega)

/-- A loop nest that writes one character over a block of cells. -/
theorem fillRect_spec (H : Heap) (Map : MapT) (ch : Char) (Top RowStop Left ColStop : Nat)
    (hr : RowStop ≤ Map.Height) (hc : ColStop ≤ Map.Width) :
    ∃ G, forLoop Top RowStop H (fun Row H1 =>
        forLoop Left ColStop H1 (fun Col H2 => H2.write Map Row Col ch)) = .ok G ∧
      G.Next = H.Next ∧
      ∀ p r k, G.Cells p r k =
        if p = Map.Tiles ∧ (Top ≤ r ∧ r < RowStop) ∧ Left ≤ k ∧ k < ColStop then ch
        else H.Cells p r k := by
  obtain ⟨G, h1, h2, h3⟩ := forLoop_inv
    (fun i (G : Heap) => G.Next = H.Next ∧ ∀ p r k, G.Cells p r k =
      if p = Map.Tiles ∧ (Top ≤ r ∧ r < i) ∧ Left ≤ k ∧ k < ColStop then ch else H.Cells p r k)
    Top RowStop H (fun Row H1 => forLoop Left ColStop H1 (fun Col H2 => H2.write Map Row Col ch))
    ⟨rfl, fun p r k => by split_ifs <;> first | rfl | (exfalso; omega)⟩
    (by
      intro i G hi1 hi2 ⟨hn, hcells⟩
      obtain ⟨G', w1, w2, w3⟩ := fillRow_spec G Map ch (show i < Map.Height by omega)
        Left ColStop hc
      refine ⟨G', w1, w2.trans hn, fun p r k => ?_⟩
      rw [w3, hcells]
      split_ifs <;> first | rfl | (exfalso; omega))
  refine ⟨G, h1, h2, fun p r k => ?_⟩
  rw [h3]
  split_ifs <;> first | rfl | (exfalso; omega)

/-! ## `BoxMarkChildren` -/

/-- The loop of `BoxMarkChildren` that draws the two vertical edges. -/
theorem markRows_spec (H : Heap) (Map : MapT) (Top Bottom Left Right : Nat)
    (hB : Bottom ≤ Map.Height) (hL : Left < Map.Width) (hR : Right < Map.Width) :
    ∃ G, forLoop (Top + 1) Bottom H (fun Row G =>
        (G.write Map Row Left '|').bind (fun G1 => G1.write Map Row Right '|')) = .ok G ∧ G.Next = H.Next ∧
      ∀ p r k, G.Cells p r k =
        if p = Map.Tiles ∧ (Top < r ∧ r < Bottom) ∧ (k = Left ∨ k = Right) then '|'
        else H.Cells p r k := by
  obtain ⟨G, h1, h2, h3⟩ := forLoop_inv
    (fun i (G : Heap) => G.Next = H.Next ∧ ∀ p r k, G.Cells p r k =
      if p = Map.Tiles ∧ (Top < r ∧ r < i) ∧ (k = Left ∨ k = Right) then '|' else H.Cells p r k)
    (Top + 1) Bottom H (fun Row G =>
        (G.write Map Row Left '|').bind (fun G1 => G1.write Map Row Right '|'))
    ⟨rfl, fun p r k => by split_ifs <;> first | rfl | (exfalso; omega)⟩
    (by
      intro i G hi1 hi2 ⟨hn, hcells⟩
      obtain ⟨G1, w1, w2, w3⟩ := write_ok G Map '|' (show i < Map.Height by omega) hL
      obtain ⟨G2, v1, v2, v3⟩ := write_ok G1 Map '|' (show i < Map.Height by omega) hR
      refine ⟨G2, by simp only [w1, Except.bind, v1], v2.trans (w2.trans hn), fun p r k => ?_⟩
      rw [v3, w3, hcells]
      split_ifs <;> first | rfl | (exfalso; omega))
  refine ⟨G, h1, h2, fun p r k => ?_⟩
  rw [h3]
  split_ifs <;> first | rfl | (exfalso; omega)

/-- The loop of `BoxMarkChildren` that draws the two horizontal edges. -/
theorem markCols_spec (H : Heap) (Map : MapT) (Top Bottom Left Right : Nat)
    (hT : Top < Map.Height) (hB : Bottom < Map.Height) (hR : Right ≤ Map.Width) :
    ∃ G, forLoop (Left + 1) Right H (fun Col G =>
        (G.write Map Top Col '-').bind (fun G1 => G1.write Map Bottom Col '-')) = .ok G ∧ G.Next = H.Next ∧
      ∀ p r k, G.Cells p r k =
        if p = Map.Tiles ∧ (r = Top ∨ r = Bottom) ∧ (Left < k ∧ k < Right) then '-'
        else H.Cells p r k := by
  obtain ⟨G, h1, h2, h3⟩ := forLoop_inv
    (fun i (G : Heap) => G.Next = H.Next ∧ ∀ p r k, G.Cells p r k =
      if p = Map.Tiles ∧ (r = Top ∨ r = Bottom) ∧ (Left < k ∧ k < i) then '-' else H.Cells p r k)
    (Left + 1) Right H (fun Col G =>
        (G.write Map Top Col '-').bind (fun G1 => G1.write Map Bottom Col '-'))
    ⟨rfl, fun p r k => by split_ifs <;> first | rfl | (exfalso; omega)⟩
    (by
      intro i G hi1 hi2 ⟨hn, hcells⟩
      obtain ⟨G1, w1, w2, w3⟩ := write_ok G Map '-' hT (show i < Map.Width by omega)
      obtain ⟨G2, v1, v2, v3⟩ := write_ok G1 Map '-' hB (show i < Map.Width by omega)
      refine ⟨G2, by simp only [w1, Except.bind, v1], v2.trans (w2.trans hn), fun p r k => ?_⟩
      rw [v3, w3, hcells]
      split_ifs <;> first | rfl | (exfalso; omega))
  refine ⟨G, h1, h2, fun p r k => ?_⟩
  rw [h3]
  split_ifs <;> first | rfl | (exfalso; omega)

/-- One call of `BoxMarkChildren` on an in-bounds box: the box is drawn as
`drawBox` says, no other block is touched, and the children follow. -/
theorem BoxMarkChildren_step (H : Heap) (Map : MapT) (Box : BoxT) (Depth : Nat)
    (hb : InBounds Map Box) :
    ∃ G, G.Next = H.Next ∧
      (∀ p r k, G.Cells p r k =
        if p = Map.Tiles then drawBox (H.Cells Map.Tiles) Box Depth r k else H.Cells p r k) ∧
      BoxMarkChildren H Map Box Depth = BoxMarkChildren.loop G Map Box.Children (Depth + 1) := by
  obtain ⟨Top, Left, Bottom, Right, Children⟩ := Box
  obtain ⟨hT, hB, hL, hR⟩ := hb
  simp only at hT hB hL hR
  obtain ⟨H1, a1, a2, a3⟩ := write_ok H Map '+' hT hL
  obtain ⟨H2, b1, b2, b3⟩ := write_ok H1 Map '+' hB hL
  obtain ⟨H3, c1, c2, c3⟩ := write_ok H2 Map '+' hT hR
  obtain ⟨H4, d1, d2, d3⟩ := write_ok H3 Map '+' hB hR
  obtain ⟨H5, e1, e2, e3⟩ := markRows_spec H4 Map Top Bottom Left Right (by omega) hL hR
  obtain ⟨H6, f1, f2, f3⟩ := markCols_spec H5 Map Top Bottom Left Right hT hB (by omega)
  obtain ⟨H7, g1, g2, g3⟩ := fillRect_spec H6 Map (DepthChar Depth) (Top + 1) Bottom (Left + 1)
    Right (by omega) (by omega)
  refine ⟨H7, ?_, ?_, ?_⟩
  · rw [g2, f2, e2, d2, c2, b2, a2]
  · intro p r k
    rw [g3, f3, e3, d3, c3, b3, a3]
    by_cases hp : p = Map.Tiles
    swap
    · simp only [hp, false_and, if_false]
    simp only [hp, true_and, if_true, drawBox]
    have e1 : ((Top + 1 ≤ r ∧ r < Bottom) ∧ Left + 1 ≤ k ∧ k < Right) ↔
        ((Top < r ∧ r < Bottom) ∧ (Left < k ∧ k < Right)) := Iff.rfl
    rw [if_congr e1 rfl rfl]
    by_cases q1 : (Top < r ∧ r < Bottom) ∧ (Left < k ∧ k < Right)
    · rw [if_pos q1, if_pos q1]
    rw [if_neg q1, if_neg q1]
    by_cases q2 : (r = Top ∨ r = Bottom) ∧ (Left < k ∧ k < Right)
    · rw [if_pos q2, if_pos q2]
    rw [if_neg q2, if_neg q2]
    by_cases q3 : (Top < r ∧ r < Bottom) ∧ (k = Left ∨ k = Right)
    · rw [if_pos q3, if_pos q3]
    rw [if_neg q3, if_neg q3]
    split_ifs <;> first | rfl | (exfalso; omega)
  · have hd : BoxMarkChildren.draw H Map Top Left Bottom Right Depth = .ok H7 := by
      simp only [BoxMarkChildren.draw, a1, b1, c1, d1, e1, f1, g1]
    rw [BoxMarkChildren, hd]


/-! ### The cells drawn for one box -/

theorem drawBox_interior (f : Nat → Nat → Char) (Box : BoxT) (Depth : Nat) {r k : Nat}
    (h : (Box.Top < r ∧ r < Box.Bottom) ∧ (Box.Left < k ∧ k < Box.Right)) :
    drawBox f Box Depth r k = DepthChar Depth := by
  unfold drawBox
  rw [if_pos h]

theorem drawBox_hedge (f : Nat → Nat → Char) (Box : BoxT) (Depth : Nat) {r k : Nat}
    (h : (r = Box.Top ∨ r = Box.Bottom) ∧ (Box.Left < k ∧ k < Box.Right)) :
    drawBox f Box Depth r k = '-' := by
  unfold drawBox
  rw [if_neg (by omega), if_pos h]

theorem drawBox_vedge (f : Nat → Nat → Char) (Box : BoxT) (Depth : Nat) {r k : Nat}
    (h : (Box.Top < r ∧ r < Box.Bottom) ∧ (k = Box.Left ∨ k = Box.Right)) :
    drawBox f Box Depth r k = '|' := by
  unfold drawBox
  rw [if_neg (by omega), if_neg (by omega), if_pos h]

theorem drawBox_corner (f : Nat → Nat → Char) (Box : BoxT) (Depth : Nat) {r k : Nat}
    (h : (r = Box.Top ∨ r = Box.Bottom) ∧ (k = Box.Left ∨ k = Box.Right)) :
    drawBox f Box Depth r k = '+' := by
  unfold drawBox
  rw [if_neg (by omega), if_neg (by omega), if_neg (by omega), if_pos h]

theorem drawBox_outside (f : Nat → Nat → Char) (Box : BoxT) (Depth : Nat) {r k : Nat}
    (hrect : Box.Top ≤ Box.Bottom ∧ Box.Left ≤ Box.Right)
    (h : ¬ ((Box.Top ≤ r ∧ r ≤ Box.Bottom) ∧ (Box.Left ≤ k ∧ k ≤ Box.Right))) :
    drawBox f Box Depth r k = f r k := by
  unfold drawBox
  rw [if_neg (by omega), if_neg (by omega), if_neg (by omega), if_neg (by omega)]

/-- C10: `BoxMarkChildren` on an in-bounds box without children that is a
rectangle with `Top < Bottom` and `Left < Right`, at a depth from `0` to `3`,
returns and leaves `+` at the four corners, `|` on the left and right edges and
`-` on the top and bottom edges strictly between the corners, the fill
character of the depth (`#`, `=`, `-`, `.` for `0`, `1`, `2`, `3`) on every cell
of the open interior, and every other cell, of this map and of any other, as
it was. -/
theorem BoxMarkChildren_leaf (H : Heap) (Map : MapT) (B : BoxT) (d : Nat)
    (hb : InBounds Map B) (hrect : B.Top < B.Bottom ∧ B.Left < B.Right)
    (hleaf : B.Children = []) (hd : d ≤ 3) :
    ∃ G, BoxMarkChildren H Map B d = .ok G ∧
      (G.tile Map B.Top B.Left = '+' ∧ G.tile Map B.Top B.Right = '+' ∧
        G.tile Map B.Bottom B.Left = '+' ∧ G.tile Map B.Bottom B.Right = '+') ∧
      (∀ r, B.Top < r → r < B.Bottom →
        G.tile Map r B.Left = '|' ∧ G.tile Map r B.Right = '|') ∧
      (∀ k, B.Left < k → k < B.Right →
        G.tile Map B.Top k = '-' ∧ G.tile Map B.Bottom k = '-') ∧
      (∀ r k, B.Top < r → r < B.Bottom → B.Left < k → k < B.Right →
        (d = 0 ∧ G.tile Map r k = '#') ∨ (d = 1 ∧ G.tile Map r k = '=') ∨
        (d = 2 ∧ G.tile Map r k = '-') ∨ (d = 3 ∧ G.tile Map r k = '.')) ∧
      (∀ r k, ¬ ((B.Top ≤ r ∧ r ≤ B.Bottom) ∧ (B.Left ≤ k ∧ k ≤ B.Right)) →
        G.tile Map r k = H.tile Map r k) ∧
      (∀ p r k, p ≠ Map.Tiles → G.Cells p r k = H.Cells p r k) := by
  obtain ⟨G, g1, g2, g3⟩ := BoxMarkChildren_step H Map B d hb
  rw [hleaf] at g3
  have ht : ∀ r k, G.tile Map r k = drawBox (H.Cells Map.Tiles) B d r k := by
    intro r k
    unfold Heap.tile
    rw [g2, if_pos rfl]
  refine ⟨G, by rw [g3]; rfl, ⟨?_, ?_, ?_, ?_⟩, ?_, ?_, ?_, ?_, ?_⟩
  · rw [ht]; exact drawBox_corner _ _ _ ⟨Or.inl rfl, Or.inl rfl⟩
  · rw [ht]; exact drawBox_corner _ _ _ ⟨Or.inl rfl, Or.inr rfl⟩
  · rw [ht]; exact drawBox_corner _ _ _ ⟨Or.inr rfl, Or.inl rfl⟩
  · rw [ht]; exact drawBox_corner _ _ _ ⟨Or.inr rfl, Or.inr rfl⟩
  · intro r h1 h2
    rw [ht, ht]
    exact ⟨drawBox_vedge _ _ _ ⟨⟨h1, h2⟩, Or.inl rfl⟩, drawBox_vedge _ _ _ ⟨⟨h1, h2⟩, Or.inr rfl⟩⟩
  · intro k h1 h2
    rw [ht, ht]
    exact ⟨drawBox_hedge _ _ _ ⟨Or.inl rfl, h1, h2⟩, drawBox_hedge _ _ _ ⟨Or.inr rfl, h1, h2⟩⟩
  · intro r k h1 h2 h3 h4
    rw [ht, drawBox_interior _ _ _ ⟨⟨h1, h2⟩, h3, h4⟩]
    have hd' : d = 0 ∨ d = 1 ∨ d = 2 ∨ d = 3 := by omega
    rcases hd' with h | h | h | h <;> subst h <;> simp [DepthChar]
  · intro r k h
    rw [ht, drawBox_outside _ _ _ ⟨by omega, by omega⟩ h]
    rfl
  · intro p r k hp
    rw [g2, if_neg hp]

/-- C10 on a zero-filled 3x3 map: the leaf `(0,0,2,2)` drawn at depth `0`
gives the rows `+-+ / |#| / +-+`. -/
theorem BoxMarkChildren_leaf_witness :
    ∃ G, BoxMarkChildren (CreateMap ⟨0, fun _ _ _ => ' '⟩ 3 3).1
        (CreateMap ⟨0, fun _ _ _ => ' '⟩ 3 3).2 (BoxCreate 0 0 2 2) 0 = .ok G ∧
      rowsOfMap G (CreateMap ⟨0, fun _ _ _ => ' '⟩ 3 3).2 =
        ["+-+".toList, "|#|".toList, "+-+".toList] := by
  obtain ⟨G, h1, -⟩ := BoxMarkChildren_leaf (CreateMap ⟨0, fun _ _ _ => ' '⟩ 3 3).1
    (CreateMap ⟨0, fun _ _ _ => ' '⟩ 3 3).2 (BoxCreate 0 0 2 2) 0 (by decide) (by decide)
    rfl (by decide)
  refine ⟨G, h1, ?_⟩
  have h2 : BoxMarkChildren (CreateMap ⟨0, fun _ _ _ => ' '⟩ 3 3).1
      (CreateMap ⟨0, fun _ _ _ => ' '⟩ 3 3).2 (BoxCreate 0 0 2 2) 0 = .ok G := h1
  have h3 : (BoxMarkChildren (CreateMap ⟨0, fun _ _ _ => ' '⟩ 3 3).1
      (CreateMap ⟨0, fun _ _ _ => ' '⟩ 3 3).2 (BoxCreate 0 0 2 2) 0).toOption.map
        (fun G => rowsOfMap G (CreateMap ⟨0, fun _ _ _ => ' '⟩ 3 3).2) =
      some ["+-+".toList, "|#|".toList, "+-+".toList] := by decide
  rw [h2] at h3
  simpa [Except.toOption] using h3

/-! ## Properties of the scan -/

theorem Scan_pos {f : Nat → Nat → Char} {h w : Nat} {rec : Bool} {T L B R i j : Nat}
    {kids : List BoxT} (hs : Scan f h w rec T L B R i j kids) : T + 1 ≤ i ∧ L + 1 ≤ j := by
  induction hs with
  | start => exact ⟨Nat.le_refl _, Nat.le_refl _⟩
  | skip _ _ _ _ _ ih => exact ⟨ih.1, by omega⟩
  | hit _ _ _ _ _ _ _ ih _ => exact ⟨ih.1, by omega⟩
  | row _ _ ih => exact ⟨by omega, Nat.le_refl _⟩

/-- How a scan can have come to stand past the first column of a row. -/
theorem Scan_inv_col {f : Nat → Nat → Char} {h w : Nat} {rec : Bool} {T L B R i j1 : Nat}
    {kids : List BoxT} (hs : Scan f h w rec T L B R i j1 kids) (hj : L + 1 < j1) :
    ∃ j, j1 = j + 1 ∧ i < B ∧ L < j ∧ j < R ∧
      ((Scan f h w rec T L B R i j kids ∧ ∀ b r, ¬ TracedOn (stamped f kids) h w i j b r) ∨
       (∃ kids0 b r Ch, kids = kids0 ++ [⟨i, j, b, r, Ch⟩] ∧ Scan f h w rec T L B R i j kids0 ∧
          TracedOn (stamped f kids0) h w i j b r ∧
          (rec = true → Scan f h w true i j b r (i + 1 + (b - (i + 1))) (j + 1) Ch) ∧
          (rec = false → Ch = []))) := by
  cases hs with
  | start => omega
  | skip hs h1 h2 h3 h4 => exact ⟨_, rfl, h1, h2, h3, Or.inl ⟨hs, h4⟩⟩
  | hit hs h1 h2 h3 h4 h5 h6 => exact ⟨_, rfl, h1, h2, h3, Or.inr ⟨_, _, _, _, rfl, hs, h4, h5, h6⟩⟩
  | row => omega

/-- How a scan can have come to stand at the first column of a row. -/
theorem Scan_inv_row {f : Nat → Nat → Char} {h w : Nat} {rec : Bool} {T L B R i1 j1 : Nat}
    {kids : List BoxT} (hs : Scan f h w rec T L B R i1 j1 kids) (hj : j1 = L + 1) :
    (i1 = T + 1 ∧ kids = []) ∨
    (∃ i, i1 = i + 1 ∧ i < B ∧ Scan f h w rec T L B R i (L + 1 + (R - (L + 1))) kids) := by
  cases hs with
  | start => exact Or.inl ⟨rfl, rfl⟩
  | skip hs h1 h2 h3 h4 => omega
  | hit hs h1 h2 h3 h4 h5 h6 => omega
  | row hs h1 => exact Or.inr ⟨_, rfl, h1, hs⟩

/-- The scan is deterministic: the grid and the position fix the children. -/
theorem Scan_unique {f : Nat → Nat → Char} {h w : Nat} {rec : Bool} {T L B R i j : Nat}
    {kids1 : List BoxT} (h1 : Scan f h w rec T L B R i j kids1) :
    ∀ kids2, Scan f h w rec T L B R i j kids2 → kids1 = kids2 := by
  induction h1 with
  | start rec T L B R =>
    intro kids2 h2
    rcases Scan_inv_row h2 rfl with ⟨-, e⟩ | ⟨i, e, -, hs⟩
    · exact e.symm
    · have := (Scan_pos hs).1
      omega
  | @skip rec T L B R i j kids hs h1 h2 h3 h4 ih =>
    intro kids2 hk2
    obtain ⟨j', e, -, -, -, hcase⟩ := Scan_inv_col hk2 (by omega)
    have ej : j' = j := by omega
    subst ej
    rcases hcase with ⟨hs2, -⟩ | ⟨kids0, b, r, Ch, -, hs2, ht, -, -⟩
    · exact ih _ hs2
    · have := ih _ hs2
      subst this
      exact absurd ht (h4 b r)
  | @hit rec T L B R i j kids b r Ch hs h1 h2 h3 h4 h5 h6 ih ih5 =>
    intro kids2 hk2
    obtain ⟨j', e, -, -, -, hcase⟩ := Scan_inv_col hk2 (by omega)
    have ej : j' = j := by omega
    subst ej
    rcases hcase with ⟨hs2, hno⟩ | ⟨kids0, b', r', Ch', e2, hs2, ht, g5, g6⟩
    · have := ih _ hs2
      subst this
      exact absurd h4 (hno b r)
    · have := ih _ hs2
      subst this
      obtain ⟨eb, er⟩ := TracedOn_unique h4 ht
      subst eb er
      have eC : Ch = Ch' := by
        cases rec with
        | true => exact ih5 rfl _ (g5 rfl)
        | false => rw [h6 rfl, g6 rfl]
      rw [e2, eC]
  | @row rec T L B R i kids hs h1 ih =>
    intro kids2 hk2
    rcases Scan_inv_row hk2 rfl with ⟨e, -⟩ | ⟨i', e, -, hs2⟩
    · have := (Scan_pos hs).1
      omega
    · have ei : i' = i := by omega
      subst ei
      exact ih _ hs2

theorem stamped_ne {f : Nat → Nat → Char} {kids : List BoxT} {r k : Nat}
    (h : stamped f kids r k ≠ '#') :
    (∀ c ∈ kids, ¬ c.Cell r k) ∧ stamped f kids r k = f r k := by
  unfold stamped at h ⊢
  by_cases hc : ∃ c ∈ kids, c.Cell r k
  · rw [if_pos hc] at h
    exact absurd rfl h
  · rw [if_neg hc]
    exact ⟨fun c hm hcell => hc ⟨c, hm, hcell⟩, rfl⟩

theorem stamped_of_not_cell {f : Nat → Nat → Char} {kids : List BoxT} {r k : Nat}
    (h : ∀ c ∈ kids, ¬ c.Cell r k) : stamped f kids r k = f r k := by
  unfold stamped
  rw [if_neg]
  rintro ⟨c, hm, hc⟩
  exact h c hm hc

theorem stamped_of_cell {f : Nat → Nat → Char} {kids : List BoxT} {r k : Nat} {c : BoxT}
    (hm : c ∈ kids) (hc : c.Cell r k) : stamped f kids r k = '#' := by
  unfold stamped
  rw [if_pos ⟨c, hm, hc⟩]

theorem stamped_val {f : Nat → Nat → Char} {kids : List BoxT} {r k : Nat} {x : Char}
    (hv : stamped f kids r k = x) (hne : x ≠ '#') :
    f r k = x ∧ ∀ c ∈ kids, ¬ c.Cell r k := by
  have h := @stamped_ne f kids r k (by rw [hv]; exact hne)
  exact ⟨by rw [← h.2]; exact hv, h.1⟩

/-- A box traced on the stamped grid is traced on the grid itself, and no cell
of its top edge is stamped. -/
theorem TracedOn_stamped {f : Nat → Nat → Char} {kids : List BoxT} {h w T L B R : Nat}
    (ht : TracedOn (stamped f kids) h w T L B R) :
    TracedOn f h w T L B R ∧ ∀ y, L ≤ y → y ≤ R → ∀ c ∈ kids, ¬ c.Cell T y := by
  obtain ⟨a1, a2, a3, a4, a5, a6, ⟨a7, a8⟩, a9, a10⟩ := ht
  simp only [BoxCreate] at a6 a7 a8 a9 a10
  have n1 : ('+' : Char) ≠ '#' := by decide
  have n2 : ('-' : Char) ≠ '#' := by decide
  have n3 : ('|' : Char) ≠ '#' := by decide
  refine ⟨⟨a1, a2, a3, a4, (stamped_val a5 n1).1, a6, ⟨(stamped_val a7 n1).1,
    (stamped_val a8 n1).1⟩, ?_, ?_⟩, ?_⟩
  · intro Row h1 h2
    obtain ⟨b1, b2⟩ := a9 Row h1 h2
    exact ⟨(stamped_val b1 n3).1, (stamped_val b2 n3).1⟩
  · intro Col h1 h2
    obtain ⟨b1, b2⟩ := a10 Col h1 h2
    exact ⟨(stamped_val b1 n2).1, (stamped_val b2 n2).1⟩
  · intro y h1 h2
    by_cases e1 : y = L
    · subst e1; exact (stamped_val a7 n1).2
    by_cases e2 : y = R
    · subst e2; exact (stamped_val a5 n1).2
    · exact (stamped_val (a10 y (by omega) (by omega)).1 n2).2

/-- What the scan knows of each child it has added. -/
theorem Scan_mem {f : Nat → Nat → Char} {h w : Nat} {rec : Bool} {T L B R i j : Nat}
    {kids : List BoxT} (hs : Scan f h w rec T L B R i j kids) :
    ∀ c ∈ kids, (T < c.Top ∧ c.Top < B ∧ L < c.Left ∧ c.Left < R) ∧
      (c.Top < i ∨ (c.Top = i ∧ c.Left < j)) ∧
      TracedOn f h w c.Top c.Left c.Bottom c.Right ∧
      (rec = true → Scan f h w true c.Top c.Left c.Bottom c.Right
        (c.Top + 1 + (c.Bottom - (c.Top + 1))) (c.Left + 1) c.Children) ∧
      (rec = false → c.Children = []) := by
  induction hs with
  | start => intro c hc; cases hc
  | skip _ _ _ _ _ ih =>
    intro c hc
    obtain ⟨a, b, d⟩ := ih c hc
    exact ⟨a, by omega, d⟩
  | @hit rec T L B R i j kids b r Ch hs h1 h2 h3 h4 h5 h6 ih _ =>
    intro c hc
    rcases List.mem_append.1 hc with hc | hc
    · obtain ⟨a, b, d⟩ := ih c hc
      exact ⟨a, by omega, d⟩
    · rw [List.mem_singleton] at hc
      subst hc
      have := (Scan_pos hs).1
      exact ⟨⟨by simp only; omega, h1, h2, h3⟩, Or.inr ⟨rfl, by simp only; omega⟩,
        (TracedOn_stamped h4).1, h5, h6⟩
  | row _ _ ih =>
    intro c hc
    obtain ⟨a, b, d⟩ := ih c hc
    exact ⟨a, by omega, d⟩

/-- The children are added in row-major order of their top-left corners. -/
theorem Scan_sorted {f : Nat → Nat → Char} {h w : Nat} {rec : Bool} {T L B R i j : Nat}
    {kids : List BoxT} (hs : Scan f h w rec T L B R i j kids) : kids.Pairwise Before := by
  induction hs with
  | start => exact List.Pairwise.nil
  | skip _ _ _ _ _ ih => exact ih
  | @hit rec T L B R i j kids b r Ch hs h1 h2 h3 h4 h5 h6 ih _ =>
    rw [List.pairwise_append]
    refine ⟨ih, List.pairwise_singleton _ _, ?_⟩
    intro a ha c hc
    rw [List.mem_singleton] at hc
    subst hc
    exact (Scan_mem hs a ha).2.1
  | row _ _ ih => exact ih

/-- The closed rectangles of the children are pairwise apart. -/
theorem Scan_apart {f : Nat → Nat → Char} {h w : Nat} {rec : Bool} {T L B R i j : Nat}
    {kids : List BoxT} (hs : Scan f h w rec T L B R i j kids) : kids.Pairwise Apart := by
  induction hs with
  | start => exact List.Pairwise.nil
  | skip _ _ _ _ _ ih => exact ih
  | @hit rec T L B R i j kids b r Ch hs h1 h2 h3 h4 h5 h6 ih _ =>
    rw [List.pairwise_append]
    refine ⟨ih, List.pairwise_singleton _ _, ?_⟩
    intro a ha c hc
    rw [List.mem_singleton] at hc
    subst hc
    obtain ⟨-, hbef, htr, -⟩ := Scan_mem hs a ha
    obtain ⟨htr', hedge⟩ := TracedOn_stamped h4
    obtain ⟨-, -, t3, t4, -⟩ := htr
    obtain ⟨-, -, u3, u4, -⟩ := htr'
    unfold Apart
    simp only
    by_contra hcon
    have hy := hedge (max a.Left j) (by omega) (by omega) a ha
    apply hy
    unfold BoxT.Cell
    omega
  | row _ _ ih => exact ih

/-- In a box that is drawn on the grid, the children found lie strictly inside. -/
theorem Scan_inside {f : Nat → Nat → Char} {h w : Nat} {rec : Bool} {T L B R i j : Nat}
    {kids : List BoxT} (hs : Scan f h w rec T L B R i j kids)
    (hd : DrawnOn f (BoxCreate T L B R)) :
    ∀ c ∈ kids, T < c.Top ∧ L < c.Left ∧ c.Bottom < B ∧ c.Right < R := by
  intro c hc
  obtain ⟨⟨p1, p2, p3, p4⟩, -, htr, -⟩ := Scan_mem hs c hc
  obtain ⟨-, -, t3, t4, t5, -, ⟨-, t6⟩, t7, t8⟩ := htr
  obtain ⟨-, -, d3, d4⟩ := hd
  simp only [BoxCreate] at t6 t7 t8 d3 d4
  have hR : c.Right < R := by
    by_contra hcon
    have e1 := (d3 c.Top p1 p2).2
    by_cases e : R = c.Right
    · rw [e, t5] at e1; exact absurd e1 (by decide)
    · have e2 := (t8 R (by omega) (by omega)).1
      rw [e1] at e2; exact absurd e2 (by decide)
  have hB : c.Bottom < B := by
    by_contra hcon
    have e1 := (d4 c.Right (by omega) hR).2
    by_cases e : B = c.Bottom
    · rw [e, t6] at e1; exact absurd e1 (by decide)
    · have e2 := (t7 B (by omega) (by omega)).2
      rw [e1] at e2; exact absurd e2 (by decide)
  exact ⟨p1, p3, hB, hR⟩

/-! ## The heap side of `BoxFindChildren` -/

/-- The invariant rule for a loop nest over rows and columns. -/
theorem forLoop2_inv {σ : Type} (Inv : Nat → Nat → σ → Prop) (R0 R1 C0 C1 : Nat) (s : σ)
    (Body : Nat → Nat → σ → Except Fault σ) (h0 : Inv R0 C0 s)
    (hstep : ∀ i j t, R0 ≤ i → i < R1 → C0 ≤ j → j < C1 → Inv i j t →
      ∃ t', Body i j t = .ok t' ∧ Inv i (j + 1) t')
    (hrow : ∀ i t, R0 ≤ i → i < R1 → Inv i (C0 + (C1 - C0)) t → Inv (i + 1) C0 t) :
    ∃ s', forLoop R0 R1 s (fun i s1 => forLoop C0 C1 s1 (fun j s2 => Body i j s2)) = .ok s' ∧
      Inv (R0 + (R1 - R0)) C0 s' := by
  apply forLoop_inv (fun i t => Inv i C0 t) R0 R1 s _ h0
  intro i t h1 h2 hinv
  obtain ⟨t', e1, e2⟩ := forLoop_inv (fun j u => Inv i j u) C0 C1 t (fun j s2 => Body i j s2) hinv
    (fun j u g1 g2 g3 => hstep i j u h1 h2 g1 g2 g3)
  exact ⟨t', e1, hrow i t' h1 h2 e2⟩

/-- The copy `CopyMap` makes of an allocated map: the copy is the next block, it holds the
cells of the source, and no other block changes. -/
theorem CopyMap_spec (H : Heap) (Map : MapT) (ha : Map.Tiles < H.Next) :
    ∃ G, CopyMap H Map = .ok (G, ⟨Map.Height, Map.Width, H.Next⟩) ∧ G.Next = H.Next + 1 ∧
      (∀ p r k, p ≠ H.Next → G.Cells p r k = H.Cells p r k) ∧
      (∀ r k, r < Map.Height → k < Map.Width → G.Cells H.Next r k = H.Cells Map.Tiles r k) := by
  obtain ⟨G, g1, g2, g3, g4⟩ := forLoop2_inv
    (fun i j (G : Heap) => G.Next = H.Next + 1 ∧
      (∀ p r k, p ≠ H.Next → G.Cells p r k = H.Cells p r k) ∧
      (∀ r k, (r < i ∨ (r = i ∧ k < j)) → k < Map.Width →
        G.Cells H.Next r k = H.Cells Map.Tiles r k))
    0 Map.Height 0 Map.Width (CreateMap H Map.Height Map.Width).1
    (fun Row Col H2 => (H2.read Map Row Col).bind
      (fun c => H2.write (CreateMap H Map.Height Map.Width).2 Row Col c))
    ⟨rfl, fun p r k hp => by simp only [CreateMap, if_neg hp], fun r k h1 h2 => by omega⟩
    (by
      intro i j G h1 h2 h3 h4 ⟨e1, e2, e3⟩
      obtain ⟨G', w1, w2, w3⟩ := write_ok G (CreateMap H Map.Height Map.Width).2
        (G.tile Map i j) (show i < Map.Height from h2) (show j < Map.Width from h4)
      have hT : (CreateMap H Map.Height Map.Width).2.Tiles = H.Next := rfl
      rw [hT] at w3
      refine ⟨G', ?_, w2.trans e1, ?_, ?_⟩
      · beta_reduce
        rw [read_ok G Map h2 h4]
        exact w1
      · intro p r k hp
        rw [w3, if_neg (fun h => hp h.1)]
        exact e2 p r k hp
      · intro r k hrk hk
        rw [w3]
        by_cases hc : r = i ∧ k = j
        · rw [if_pos ⟨rfl, hc.1, hc.2⟩, hc.1, hc.2]
          exact e2 Map.Tiles i j (by omega)
        · rw [if_neg (fun h => hc h.2)]
          exact e3 r k (by omega) hk)
    (by
      intro i G h1 h2 ⟨e1, e2, e3⟩
      exact ⟨e1, e2, fun r k hrk hk => e3 r k (by omega) hk⟩)
  refine ⟨G, ?_, g2, g3, fun r k hr hk => g4 r k (by omega) hk⟩
  simp only [CopyMap]
  rw [show (CreateMap H Map.Height Map.Width).2.Height = Map.Height from rfl,
    show (CreateMap H Map.Height Map.Width).2.Width = Map.Width from rfl, g1]
  rfl

/-- The effect of `MapReplaceRectangle` on a rectangle inside the map. -/
theorem MapReplaceRectangle_spec (H : Heap) (Map : MapT) (ch : Char) (Top Left Bottom Right : Nat)
    (hB : Bottom < Map.Height) (hR : Right < Map.Width) :
    ∃ G, MapReplaceRectangle H Map ch Top Left Bottom Right = .ok G ∧ G.Next = H.Next ∧
      ∀ p r k, G.Cells p r k =
        if p = Map.Tiles ∧ (Top ≤ r ∧ r ≤ Bottom) ∧ (Left ≤ k ∧ k ≤ Right) then ch
        else H.Cells p r k := by
  obtain ⟨G, g1, g2, g3⟩ := fillRect_spec H Map ch Top (Bottom + 1) Left (Right + 1)
    (by omega) (by omega)
  refine ⟨G, g1, g2, fun p r k => ?_⟩
  rw [g3]
  exact if_congr ⟨fun h => ⟨h.1, by omega, by omega⟩, fun h => ⟨h.1, by omega, by omega⟩⟩ rfl rfl

theorem TracedOn_congr {f g : Nat → Nat → Char} {h w T L B R : Nat}
    (hfg : ∀ r k, r < h → k < w → f r k = g r k) (ht : TracedOn f h w T L B R) :
    TracedOn g h w T L B R := by
  obtain ⟨a1, a2, a3, a4, a5, a6, ⟨a7, a8⟩, a9, a10⟩ := ht
  simp only [BoxCreate] at a6 a7 a8 a9 a10
  refine ⟨a1, a2, a3, a4, ?_, a6, ⟨?_, ?_⟩, ?_, ?_⟩
  · rw [← hfg T R (by omega) (by omega)]; exact a5
  · show g T L = '+'
    rw [← hfg T L (by omega) (by omega)]; exact a7
  · show g B R = '+'
    rw [← hfg B R (by omega) (by omega)]; exact a8
  · intro Row h1 h2
    simp only [BoxCreate] at h1 h2
    show g Row L = '|' ∧ g Row R = '|'
    rw [← hfg Row L (by omega) (by omega), ← hfg Row R (by omega) (by omega)]
    exact a9 Row h1 h2
  · intro Col h1 h2
    simp only [BoxCreate] at h1 h2
    show g T Col = '-' ∧ g B Col = '-'
    rw [← hfg T Col (by omega) (by omega), ← hfg B Col (by omega) (by omega)]
    exact a10 Col h1 h2

theorem stamped_nil (f : Nat → Nat → Char) (r k : Nat) : stamped f [] r k = f r k := by
  unfold stamped
  rw [if_neg]
  rintro ⟨c, hc, -⟩
  cases hc

theorem stamped_append (f : Nat → Nat → Char) (kids : List BoxT) (c : BoxT) (r k : Nat) :
    stamped f (kids ++ [c]) r k = if c.Cell r k then '#' else stamped f kids r k := by
  unfold stamped
  by_cases h1 : c.Cell r k
  · rw [if_pos h1, if_pos ⟨c, by simp, h1⟩]
  · rw [if_neg h1]
    by_cases h2 : ∃ c ∈ kids, c.Cell r k
    · obtain ⟨d, hd, hc⟩ := h2
      rw [if_pos ⟨d, by simp [hd], hc⟩, if_pos ⟨d, hd, hc⟩]
    · rw [if_neg h2, if_neg]
      rintro ⟨d, hd, hc⟩
      rcases List.mem_append.1 hd with hd | hd
      · exact h2 ⟨d, hd, hc⟩
      · rw [List.mem_singleton] at hd
        subst hd
        exact h1 hc

/-- One round of the inner loop of `BoxFindChildren` keeps the invariant; the
recursive call is only asked to work on boxes traced on the map from a cell of
the open interior of the box. -/
theorem visit_step_traced {H : Heap} {Map : MapT} {Box : BoxT} {rec : Bool}
    (Recurse : Heap → BoxT → Except Fault (Heap × BoxT))
    (hB : Box.Bottom ≤ Map.Height) (hRt : Box.Right ≤ Map.Width)
    (hR : rec = true → ∀ G1 i j b r, H.Next < G1.Next →
      (∀ p, p < H.Next → ∀ r k, G1.Cells p r k = H.Cells p r k) →
      TracedOn (H.tile Map) Map.Height Map.Width i j b r →
      i < Box.Bottom → Box.Left < j → j < Box.Right →
      Box.Top < i → i < b → b < Map.Height → r < Map.Width →
      ∃ G2 Ch, Recurse G1 (BoxCreate i j b r) = .ok (G2, ⟨i, j, b, r, Ch⟩) ∧
        G1.Next ≤ G2.Next ∧ (∀ p, p < G1.Next → ∀ r k, G2.Cells p r k = G1.Cells p r k) ∧
        Scan (H.tile Map) Map.Height Map.Width true i j b r (i + 1 + (b - (i + 1))) (j + 1) Ch)
    {i j : Nat} (h1 : Box.Top + 1 ≤ i) (h2 : i < Box.Bottom) (h3 : Box.Left + 1 ≤ j)
    (h4 : j < Box.Right) (s : Heap × BoxT) (hinv : ScanInv H Map Box rec i j s) :
    ∃ s', BoxFindChildren.visit Recurse ⟨Map.Height, Map.Width, H.Next⟩ rec i j s = .ok s' ∧
      ScanInv H Map Box rec i (j + 1) s' := by
  obtain ⟨G, Bx⟩ := s
  obtain ⟨kids, e1, e2, e3, e4, e5⟩ := hinv
  simp only at e1 e2 e3 e4
  have hcong : ∀ r k, r < Map.Height → k < Map.Width →
      G.tile ⟨Map.Height, Map.Width, H.Next⟩ r k = stamped (H.tile Map) kids r k :=
    fun r k hr hk => e4 r k hr hk
  obtain ⟨B', f1, fcase⟩ := FindBoxAt_spec G ⟨Map.Height, Map.Width, H.Next⟩
    (show i < Map.Height by omega) (show j < Map.Width by omega)
  unfold BoxFindChildren.visit
  simp only [f1]
  rcases fcase with ⟨b, r, ht, eB⟩ | ⟨eB, hno⟩
  · have ht' : TracedOn (stamped (H.tile Map) kids) Map.Height Map.Width i j b r :=
      TracedOn_congr hcong ht
    obtain ⟨t1, t2, t3, t4, -⟩ := ht'
    have hz : BoxIsZeroSized B' = false := by
      rw [eB]
      simp only [BoxIsZeroSized, BoxCreate, Bool.or_eq_false_iff, beq_eq_false_iff_ne, ne_eq]
      omega
    obtain ⟨G1, m1, m2, m3⟩ := MapReplaceRectangle_spec G ⟨Map.Height, Map.Width, H.Next⟩ '#'
      i j b r t1 t2
    have hB'1 : B'.Top = i := by rw [eB]; rfl
    have hB'2 : B'.Left = j := by rw [eB]; rfl
    have hB'3 : B'.Bottom = b := by rw [eB]; rfl
    have hB'4 : B'.Right = r := by rw [eB]; rfl
    simp only [hz, hB'1, hB'2, hB'3, hB'4, m1, Bool.false_eq_true, not_false_eq_true, if_true,
      and_self, not_true_eq_false, if_false]
    have hframe1 : ∀ p, p < H.Next → ∀ r k, G1.Cells p r k = H.Cells p r k := by
      intro p hp r' k'
      rw [m3, if_neg (fun h => by have := h.1; simp only at this; omega)]
      exact e3 p hp r' k'
    have hmark1 : ∀ Ch r' k', r' < Map.Height → k' < Map.Width →
        G1.Cells H.Next r' k' = stamped (H.tile Map) (kids ++ [⟨i, j, b, r, Ch⟩]) r' k' := by
      intro Ch r' k' hr' hk'
      rw [m3, stamped_append]
      unfold BoxT.Cell
      simp only [true_and]
      by_cases hc : (i ≤ r' ∧ r' ≤ b) ∧ (j ≤ k' ∧ k' ≤ r)
      · rw [if_pos hc, if_pos hc]
      · rw [if_neg hc, if_neg hc]
        exact e4 r' k' hr' hk'
    cases hrec : rec with
    | true =>
      subst hrec
      obtain ⟨G2, Ch, r1, r2, r3, r4⟩ := hR rfl G1 i j b r (by omega) hframe1
        (TracedOn_stamped (TracedOn_congr hcong ht)).1 h2 (by omega) h4 (by omega) t3 t1 t2
      rw [eB, r1]
      simp only [if_true]
      refine ⟨_, rfl, kids ++ [⟨i, j, b, r, Ch⟩], ?_, ?_, ?_, ?_, ?_⟩
      · simp only [BoxAddChild, e1, List.append_assoc]
      · simp only; omega
      · intro p hp r' k'
        simp only
        rw [r3 p (by omega)]
        exact hframe1 p hp r' k'
      · intro r' k' hr' hk'
        simp only
        rw [r3 H.Next (by omega)]
        exact hmark1 Ch r' k' hr' hk'
      · exact Scan.hit e5 h2 (by omega) h4 (TracedOn_congr hcong ht) (fun _ => r4)
          (fun h => by cases h)
    | false =>
      subst hrec
      rw [eB]
      simp only [Bool.false_eq_true, if_false]
      refine ⟨_, rfl, kids ++ [⟨i, j, b, r, []⟩], ?_, ?_, ?_, ?_, ?_⟩
      · simp only [BoxAddChild, BoxCreate, e1, List.append_assoc]
      · simp only; omega
      · exact hframe1
      · exact hmark1 []
      · exact Scan.hit e5 h2 (by omega) h4 (TracedOn_congr hcong ht) (fun h => by cases h)
          (fun _ => rfl)
  · have hz : BoxIsZeroSized B' = true := by rw [eB]; rfl
    simp only [hz, not_true_eq_false, if_false]
    refine ⟨(G, Bx), rfl, kids, e1, e2, e3, e4, ?_⟩
    refine Scan.skip e5 h2 (by omega) h4 ?_
    intro b r ht
    exact hno b r (TracedOn_congr (fun r k hr hk => (hcong r k hr hk).symm) ht)

/-- One round of the inner loop of `BoxFindChildren` keeps the invariant. -/
theorem visit_step {H : Heap} {Map : MapT} {Box : BoxT} {rec : Bool}
    (Recurse : Heap → BoxT → Except Fault (Heap × BoxT))
    (hB : Box.Bottom ≤ Map.Height) (hRt : Box.Right ≤ Map.Width)
    (hR : rec = true → ∀ G1 i j b r, H.Next < G1.Next →
      (∀ p, p < H.Next → ∀ r k, G1.Cells p r k = H.Cells p r k) →
      Box.Top < i → i < b → b < Map.Height → r < Map.Width →
      ∃ G2 Ch, Recurse G1 (BoxCreate i j b r) = .ok (G2, ⟨i, j, b, r, Ch⟩) ∧
        G1.Next ≤ G2.Next ∧ (∀ p, p < G1.Next → ∀ r k, G2.Cells p r k = G1.Cells p r k) ∧
        Scan (H.tile Map) Map.Height Map.Width true i j b r (i + 1 + (b - (i + 1))) (j + 1) Ch)
    {i j : Nat} (h1 : Box.Top + 1 ≤ i) (h2 : i < Box.Bottom) (h3 : Box.Left + 1 ≤ j)
    (h4 : j < Box.Right) (s : Heap × BoxT) (hinv : ScanInv H Map Box rec i j s) :
    ∃ s', BoxFindChildren.visit Recurse ⟨Map.Height, Map.Width, H.Next⟩ rec i j s = .ok s' ∧
      ScanInv H Map Box rec i (j + 1) s' :=
  visit_step_traced Recurse hB hRt
    (fun hrec G1 i' j' b r g1 g2 _ _ _ _ g3 g4 g5 g6 => hR hrec G1 i' j' b r g1 g2 g3 g4 g5 g6)
    h1 h2 h3 h4 s hinv

/-- The call of `BoxFindChildren` on an allocated map, for a box whose interior lies in the
map, with enough fuel: the call returns, it adds to the box the children that
`Scan` finds on the cells of the map, and it changes no block that existed
before the call. -/
theorem BoxFindChildren_spec : ∀ (fuel : Nat) (H : Heap) (Map : MapT) (Box : BoxT) (rec : Bool),
    Map.Tiles < H.Next → Box.Bottom ≤ Map.Height → Box.Right ≤ Map.Width →
    Map.Height - Box.Top < fuel →
    ∃ G kids, BoxFindChildren fuel H Map Box rec =
        .ok (G, { Box with Children := Box.Children ++ kids }) ∧
      H.Next ≤ G.Next ∧ (∀ p, p < H.Next → ∀ r k, G.Cells p r k = H.Cells p r k) ∧
      Scan (H.tile Map) Map.Height Map.Width rec Box.Top Box.Left Box.Bottom Box.Right
        (Box.Top + 1 + (Box.Bottom - (Box.Top + 1))) (Box.Left + 1) kids := by
  intro fuel
  induction fuel with
  | zero => intro H Map Box rec _ _ _ hf; omega
  | succ fuel ih =>
    intro H Map Box rec ha hB hR hf
    obtain ⟨H0, c1, c2, c3, c4⟩ := CopyMap_spec H Map ha
    obtain ⟨s', l1, kids, e1, e2, e3, -, e5⟩ := forLoop2_inv (ScanInv H Map Box rec)
      (Box.Top + 1) Box.Bottom (Box.Left + 1) Box.Right (H0, Box)
      (BoxFindChildren.visit (fun H1 BoxAtPosition => BoxFindChildren fuel H1 Map BoxAtPosition true)
        ⟨Map.Height, Map.Width, H.Next⟩ rec)
      ⟨[], by simp only [List.append_nil]; cases Box; rfl, by simp only; omega, fun p hp r k => c3 p r k (by omega),
        fun r k hr hk => by rw [stamped_nil]; exact c4 r k hr hk, Scan.start _ _ _ _ _⟩
      (by
        intro i j t h1 h2 h3 h4 hinv
        refine visit_step _ hB hR ?_ h1 h2 h3 h4 t hinv
        intro _ G1 i j b r g1 g2 g3 g4 g5 g6
        obtain ⟨G2, Ch, r1, r2, r3, r4⟩ := ih G1 Map (BoxCreate i j b r) true (by omega)
          (by simp only [BoxCreate]; omega) (by simp only [BoxCreate]; omega)
          (by simp only [BoxCreate]; omega)
        refine ⟨G2, Ch, ?_, r2, r3, ?_⟩
        · rw [r1]; rfl
        · have ef : G1.tile Map = H.tile Map := by
            funext r k
            exact g2 Map.Tiles ha r k
          rw [ef] at r4
          exact r4)
      (by
        rintro i t h1 h2 ⟨kids, e1, e2, e3, e4, e5⟩
        exact ⟨kids, e1, e2, e3, e4, Scan.row e5 h2⟩)
    refine ⟨s'.1, kids, ?_, by omega, e3, e5⟩
    rw [BoxFindChildren]
    simp only [c1]
    rw [l1, ← e1]

/-! ## The children found by `BoxFindChildren` -/

/-- A box that `BoxIsValid` accepts has both corners in the map. -/
theorem valid_inBounds {H : Heap} {Map : MapT} {Box : BoxT}
    (hv : BoxIsValid H Map Box = .ok true) : InBounds Map Box := by
  unfold BoxIsValid at hv
  by_cases hz : BoxIsZeroSized Box = true
  · rw [if_pos hz] at hv
    cases hv
  · rw [if_neg hz] at hv
    cases h1 : H.read Map Box.Top Box.Left with
    | error e => rw [h1] at hv; cases hv
    | ok a =>
      rw [h1] at hv
      simp only at hv
      by_cases ha : a = '+'
      · rw [if_neg (not_not.2 ha)] at hv
        cases h2 : H.read Map Box.Bottom Box.Right with
        | error e => rw [h2] at hv; cases hv
        | ok b =>
          obtain ⟨p1, p2, -⟩ := read_eq_ok H Map h1
          obtain ⟨p3, p4, -⟩ := read_eq_ok H Map h2
          exact ⟨p1, p3, p2, p4⟩
      · rw [if_pos ha] at hv
        cases hv

/-- C3: for a box that `BoxIsValid` accepts on an allocated map, and with fuel
for the recursion, `BoxFindChildren` returns (for either value of the flag),
and every child it adds lies strictly inside the open interior of the box. -/
theorem BoxFindChildren_children_inside (fuel : Nat) (H : Heap) (Map : MapT) (B : BoxT)
    (rec : Bool) (ha : Map.Tiles < H.Next) (hv : BoxIsValid H Map B = .ok true)
    (hf : Map.Height - B.Top < fuel) :
    ∃ G kids, BoxFindChildren fuel H Map B rec =
        .ok (G, { B with Children := B.Children ++ kids }) ∧
      ∀ C ∈ kids, B.Top < C.Top ∧ B.Left < C.Left ∧ C.Bottom < B.Bottom ∧ C.Right < B.Right := by
  have hb := valid_inBounds hv
  obtain ⟨G, kids, h1, -, -, h4⟩ := BoxFindChildren_spec fuel H Map B rec ha
    (Nat.le_of_lt hb.2.1) (Nat.le_of_lt hb.2.2.2) hf
  have hd : DrawnOn (H.tile Map) (BoxCreate B.Top B.Left B.Bottom B.Right) :=
    (@Drawn_congr H Map B (BoxCreate B.Top B.Left B.Bottom B.Right) rfl rfl rfl rfl).1 (Drawn_of_valid hb hv)
  exact ⟨G, kids, h1, Scan_inside h4 hd⟩

/-- C3 on the 5x9 grid with two boxes side by side in the root box. -/
theorem BoxFindChildren_children_inside_witness :
    ∃ G kids, BoxFindChildren 6
        (heapOfRows ["+-------+".toList, "|+-+ +-+|".toList, "|| | | ||".toList,
          "|+-+ +-+|".toList, "+-------+".toList])
        (mapOfRows ["+-------+".toList, "|+-+ +-+|".toList, "|| | | ||".toList,
          "|+-+ +-+|".toList, "+-------+".toList]) (BoxCreate 0 0 4 8) true =
        .ok (G, { BoxCreate 0 0 4 8 with Children := (BoxCreate 0 0 4 8).Children ++ kids }) ∧
      ∀ C ∈ kids, (BoxCreate 0 0 4 8).Top < C.Top ∧ (BoxCreate 0 0 4 8).Left < C.Left ∧
        C.Bottom < (BoxCreate 0 0 4 8).Bottom ∧ C.Right < (BoxCreate 0 0 4 8).Right :=
  BoxFindChildren_children_inside 6 _ _ (BoxCreate 0 0 4 8) true (by decide) (by decide)
    (by decide)

/-- C4: for an in-bounds box of an allocated map, and with fuel for the
recursion, `BoxFindChildren` returns, and no two of the children it adds have
a cell in common. -/
theorem BoxFindChildren_children_disjoint (fuel : Nat) (H : Heap) (Map : MapT) (B : BoxT)
    (rec : Bool) (ha : Map.Tiles < H.Next) (hb : InBounds Map B)
    (hf : Map.Height - B.Top < fuel) :
    ∃ G kids, BoxFindChildren fuel H Map B rec =
        .ok (G, { B with Children := B.Children ++ kids }) ∧
      kids.Pairwise (fun C1 C2 => ∀ r k, ¬ (C1.Cell r k ∧ C2.Cell r k)) := by
  obtain ⟨G, kids, h1, -, -, h4⟩ := BoxFindChildren_spec fuel H Map B rec ha
    (Nat.le_of_lt hb.2.1) (Nat.le_of_lt hb.2.2.2) hf
  refine ⟨G, kids, h1, (Scan_apart h4).imp ?_⟩
  intro C1 C2 hap r k hc
  unfold Apart at hap
  unfold BoxT.Cell at hc
  omega

/-- C4 on the 5x9 grid with two boxes side by side in the root box. -/
theorem BoxFindChildren_children_disjoint_witness :
    ∃ G kids, BoxFindChildren 6
        (heapOfRows ["+-------+".toList, "|+-+ +-+|".toList, "|| | | ||".toList,
          "|+-+ +-+|".toList, "+-------+".toList])
        (mapOfRows ["+-------+".toList, "|+-+ +-+|".toList, "|| | | ||".toList,
          "|+-+ +-+|".toList, "+-------+".toList]) (BoxCreate 0 0 4 8) true =
        .ok (G, { BoxCreate 0 0 4 8 with Children := (BoxCreate 0 0 4 8).Children ++ kids }) ∧
      kids.Pairwise (fun C1 C2 => ∀ r k, ¬ (C1.Cell r k ∧ C2.Cell r k)) :=
  BoxFindChildren_children_disjoint 6 _ _ (BoxCreate 0 0 4 8) true (by decide) (by decide)
    (by decide)

/-- C8: for an in-bounds box of an allocated map, and with fuel for the
recursion, `BoxFindChildren` returns and leaves every cell of the map it was
given, and of every other block that existed before the call, as it was (the
stamps go to the copy, a new block); a second call on the heap it leaves, for
the same map and box, adds the same children in the same order. -/
theorem BoxFindChildren_frame (fuel : Nat) (H : Heap) (Map : MapT) (B : BoxT)
    (rec : Bool) (ha : Map.Tiles < H.Next) (hb : InBounds Map B)
    (hf : Map.Height - B.Top < fuel) :
    ∃ G kids, BoxFindChildren fuel H Map B rec =
        .ok (G, { B with Children := B.Children ++ kids }) ∧
      (∀ r k, G.tile Map r k = H.tile Map r k) ∧
      (∀ p, p < H.Next → ∀ r k, G.Cells p r k = H.Cells p r k) ∧
      ∃ G2, BoxFindChildren fuel G Map B rec =
        .ok (G2, { B with Children := B.Children ++ kids }) := by
  obtain ⟨G, kids, h1, h2, h3, h4⟩ := BoxFindChildren_spec fuel H Map B rec ha
    (Nat.le_of_lt hb.2.1) (Nat.le_of_lt hb.2.2.2) hf
  have ht : ∀ r k, G.tile Map r k = H.tile Map r k := fun r k => h3 Map.Tiles ha r k
  obtain ⟨G2, kids2, g1, -, -, g4⟩ := BoxFindChildren_spec fuel G Map B rec (by omega)
    (Nat.le_of_lt hb.2.1) (Nat.le_of_lt hb.2.2.2) hf
  have ef : G.tile Map = H.tile Map := by
    funext r k
    exact ht r k
  rw [ef] at g4
  have ek : kids2 = kids := Scan_unique g4 _ h4
  rw [ek] at g1
  exact ⟨G, kids, h1, ht, h3, G2, g1⟩

/-- C8 on the 5x9 grid with two boxes side by side in the root box. -/
theorem BoxFindChildren_frame_witness :
    ∃ G kids, BoxFindChildren 6
        (heapOfRows ["+-------+".toList, "|+-+ +-+|".toList, "|| | | ||".toList,
          "|+-+ +-+|".toList, "+-------+".toList])
        (mapOfRows ["+-------+".toList, "|+-+ +-+|".toList, "|| | | ||".toList,
          "|+-+ +-+|".toList, "+-------+".toList]) (BoxCreate 0 0 4 8) true =
        .ok (G, { BoxCreate 0 0 4 8 with Children := (BoxCreate 0 0 4 8).Children ++ kids }) ∧
      (∀ r k, G.tile (mapOfRows ["+-------+".toList, "|+-+ +-+|".toList, "|| | | ||".toList,
          "|+-+ +-+|".toList, "+-------+".toList]) r k =
        (heapOfRows ["+-------+".toList, "|+-+ +-+|".toList, "|| | | ||".toList,
          "|+-+ +-+|".toList, "+-------+".toList]).tile
          (mapOfRows ["+-------+".toList, "|+-+ +-+|".toList, "|| | | ||".toList,
          "|+-+ +-+|".toList, "+-------+".toList]) r k) :=
  have h := BoxFindChildren_frame 6
    (heapOfRows ["+-------+".toList, "|+-+ +-+|".toList, "|| | | ||".toList,
      "|+-+ +-+|".toList, "+-------+".toList])
    (mapOfRows ["+-------+".toList, "|+-+ +-+|".toList, "|| | | ||".toList,
      "|+-+ +-+|".toList, "+-------+".toList]) (BoxCreate 0 0 4 8) true (by decide) (by decide)
    (by decide)
  match h with
  | ⟨G, kids, h1, h2, _⟩ => ⟨G, kids, h1, h2⟩

/-- C9: for an in-bounds box of an allocated map, and with fuel for the
recursion, `BoxFindChildren` returns, and the children it adds stand in the
row-major order of their top-left corners: each child comes before every later
one (so before the next one), and no two children have the same rectangle. -/
theorem BoxFindChildren_children_sorted (fuel : Nat) (H : Heap) (Map : MapT) (B : BoxT)
    (rec : Bool) (ha : Map.Tiles < H.Next) (hb : InBounds Map B)
    (hf : Map.Height - B.Top < fuel) :
    ∃ G kids, BoxFindChildren fuel H Map B rec =
        .ok (G, { B with Children := B.Children ++ kids }) ∧
      kids.Pairwise (fun C1 C2 => C1.Top < C2.Top ∨ (C1.Top = C2.Top ∧ C1.Left < C2.Left)) ∧
      kids.Chain' (fun C1 C2 => C1.Top < C2.Top ∨ (C1.Top = C2.Top ∧ C1.Left < C2.Left)) ∧
      kids.Pairwise (fun C1 C2 => ¬ (C1.Top = C2.Top ∧ C1.Left = C2.Left ∧
        C1.Bottom = C2.Bottom ∧ C1.Right = C2.Right)) := by
  obtain ⟨G, kids, h1, -, -, h4⟩ := BoxFindChildren_spec fuel H Map B rec ha
    (Nat.le_of_lt hb.2.1) (Nat.le_of_lt hb.2.2.2) hf
  have hs : kids.Pairwise (fun C1 C2 => C1.Top < C2.Top ∨ (C1.Top = C2.Top ∧ C1.Left < C2.Left)) :=
    Scan_sorted h4
  refine ⟨G, kids, h1, hs, List.Pairwise.chain' hs, hs.imp ?_⟩
  intro C1 C2 hbef
  omega

/-- C9 on the 5x9 grid with two boxes side by side in the root box. -/
theorem BoxFindChildren_children_sorted_witness :
    ∃ G kids, BoxFindChildren 6
        (heapOfRows ["+-------+".toList, "|+-+ +-+|".toList, "|| | | ||".toList,
          "|+-+ +-+|".toList, "+-------+".toList])
        (mapOfRows ["+-------+".toList, "|+-+ +-+|".toList, "|| | | ||".toList,
          "|+-+ +-+|".toList, "+-------+".toList]) (BoxCreate 0 0 4 8) true =
        .ok (G, { BoxCreate 0 0 4 8 with Children := (BoxCreate 0 0 4 8).Children ++ kids }) ∧
      kids.Pairwise (fun C1 C2 => C1.Top < C2.Top ∨ (C1.Top = C2.Top ∧ C1.Left < C2.Left)) :=
  have h := BoxFindChildren_children_sorted 6
    (heapOfRows ["+-------+".toList, "|+-+ +-+|".toList, "|| | | ||".toList,
      "|+-+ +-+|".toList, "+-------+".toList])
    (mapOfRows ["+-------+".toList, "|+-+ +-+|".toList, "|| | | ||".toList,
      "|+-+ +-+|".toList, "+-------+".toList]) (BoxCreate 0 0 4 8) true (by decide) (by decide)
    (by decide)
  match h with
  | ⟨G, kids, h1, h2, _⟩ => ⟨G, kids, h1, h2⟩

/-! ## From the scan to a well-formed tree -/

/-- Tracing a box looks at the cells of its closed rectangle only. -/
theorem TracedOn_congr_rect {f g : Nat → Nat → Char} {h w T L B R : Nat}
    (hfg : ∀ r k, T ≤ r → r ≤ B → L ≤ k → k ≤ R → f r k = g r k)
    (ht : TracedOn f h w T L B R) : TracedOn g h w T L B R := by
  obtain ⟨a1, a2, a3, a4, a5, a6, ⟨a7, a8⟩, a9, a10⟩ := ht
  simp only [BoxCreate] at a6 a7 a8 a9 a10
  refine ⟨a1, a2, a3, a4, ?_, a6, ⟨?_, ?_⟩, ?_, ?_⟩
  · rw [← hfg T R (by omega) (by omega) (by omega) (by omega)]; exact a5
  · show g T L = '+'
    rw [← hfg T L (by omega) (by omega) (by omega) (by omega)]; exact a7
  · show g B R = '+'
    rw [← hfg B R (by omega) (by omega) (by omega) (by omega)]; exact a8
  · intro Row h1 h2
    simp only [BoxCreate] at h1 h2
    show g Row L = '|' ∧ g Row R = '|'
    rw [← hfg Row L (by omega) (by omega) (by omega) (by omega),
      ← hfg Row R (by omega) (by omega) (by omega) (by omega)]
    exact a9 Row h1 h2
  · intro Col h1 h2
    simp only [BoxCreate] at h1 h2
    show g T Col = '-' ∧ g B Col = '-'
    rw [← hfg T Col (by omega) (by omega) (by omega) (by omega),
      ← hfg B Col (by omega) (by omega) (by omega) (by omega)]
    exact a10 Col h1 h2

theorem TracedOn_drawn {f : Nat → Nat → Char} {h w T L B R : Nat}
    (ht : TracedOn f h w T L B R) : DrawnOn f (BoxCreate T L B R) :=
  ht.2.2.2.2.2

/-- With the flag set, every child the scan adds is a well-formed tree. -/
theorem Scan_wf {f : Nat → Nat → Char} {h w : Nat} {rec : Bool} {T L B R i j : Nat}
    {kids : List BoxT} (hs : Scan f h w rec T L B R i j kids) :
    rec = true → ∀ c ∈ kids, WFTree c := by
  induction hs with
  | start => intro _ c hc; cases hc
  | skip _ _ _ _ _ ih => exact ih
  | @hit rec T L B R i j kids b r Ch hs h1 h2 h3 h4 h5 h6 ih ih5 =>
    intro hrec c hc
    rcases List.mem_append.1 hc with hc | hc
    · exact ih hrec c hc
    · rw [List.mem_singleton] at hc
      subst hc
      have ht := (TracedOn_stamped h4).1
      exact WFTree.mk i j b r Ch ht.2.2.1 ht.2.2.2.1
        (Scan_inside (h5 hrec) (TracedOn_drawn ht)) (Scan_sorted (h5 hrec))
        (Scan_apart (h5 hrec)) (ih5 hrec rfl)
  | row _ _ ih => exact ih

/-- The tree that the scan of a drawn box builds is well formed. -/
theorem Scan_wf_root {f : Nat → Nat → Char} {h w : Nat} {T L B R i j : Nat}
    {kids : List BoxT} (hs : Scan f h w true T L B R i j kids)
    (hd : DrawnOn f (BoxCreate T L B R)) (hT : T < B) (hL : L < R) :
    WFTree ⟨T, L, B, R, kids⟩ :=
  WFTree.mk T L B R kids hT hL (Scan_inside hs hd) (Scan_sorted hs) (Scan_apart hs)
    (Scan_wf hs rfl)

/-! ## The rendering of a well-formed tree -/

/-- Whether a tree shows on a grid depends on the cells of its root only. -/
theorem Rendered_congr {g g' : Nat → Nat → Char} {N : BoxT} {d : Nat} (hr : Rendered g N d)
    (hgg : ∀ r k, N.Cell r k → g r k = g' r k) : Rendered g' N d := by
  induction hr with
  | mk T L B R d kids hT hL hin hsort hapart hborder hfill _ ih =>
    have hc : ∀ r k, T ≤ r → r ≤ B → L ≤ k → k ≤ R → g' r k = g r k :=
      fun r k h1 h2 h3 h4 => (hgg r k ⟨⟨h1, h2⟩, h3, h4⟩).symm
    obtain ⟨⟨b1, b2, b3, b4⟩, b5, b6⟩ := hborder
    refine Rendered.mk T L B R d kids hT hL hin hsort hapart ⟨⟨?_, ?_, ?_, ?_⟩, ?_, ?_⟩ ?_ ?_
    · rw [hc T L (by omega) (by omega) (by omega) (by omega)]; exact b1
    · rw [hc T R (by omega) (by omega) (by omega) (by omega)]; exact b2
    · rw [hc B L (by omega) (by omega) (by omega) (by omega)]; exact b3
    · rw [hc B R (by omega) (by omega) (by omega) (by omega)]; exact b4
    · intro r h1 h2
      rw [hc r L (by omega) (by omega) (by omega) (by omega),
        hc r R (by omega) (by omega) (by omega) (by omega)]
      exact b5 r h1 h2
    · intro k h1 h2
      rw [hc T k (by omega) (by omega) (by omega) (by omega),
        hc B k (by omega) (by omega) (by omega) (by omega)]
      exact b6 k h1 h2
    · intro r k h1 h2 h3 h4 hno
      rw [hc r k (by omega) (by omega) (by omega) (by omega)]
      exact hfill r k h1 h2 h3 h4 hno
    · intro c hcm
      apply ih c hcm
      intro r k hcell
      obtain ⟨i1, i2, i3, i4⟩ := hin c hcm
      unfold BoxT.Cell at hcell
      exact hgg r k ⟨⟨by simp only; omega, by simp only; omega⟩, by simp only; omega,
        by simp only; omega⟩

theorem WFTree_proper {N : BoxT} (hw : WFTree N) : N.Top < N.Bottom ∧ N.Left < N.Right := by
  cases hw with
  | mk T L B R kids hT hL => exact ⟨hT, hL⟩

/-- The call of `BoxMarkChildren` on a well-formed tree whose root lies in the map: the
call returns, the map shows the tree, and nothing outside the closed rectangle
of the root changes. -/
theorem BoxMarkChildren_rendered {Map : MapT} {N : BoxT} (hw : WFTree N) :
    ∀ (H : Heap) (d : Nat), InBounds Map N →
    ∃ G, BoxMarkChildren H Map N d = .ok G ∧ G.Next = H.Next ∧
      (∀ p r k, (p ≠ Map.Tiles ∨ ¬ N.Cell r k) → G.Cells p r k = H.Cells p r k) ∧
      Rendered (G.tile Map) N d := by
  induction hw with
  | mk T L B R kids hT hL hin hsort hapart hwf ih =>
    intro H d hb
    obtain ⟨hb1, hb2, hb3, hb4⟩ := hb
    simp only at hb1 hb2 hb3 hb4
    obtain ⟨G7, s1, s2, s3⟩ := BoxMarkChildren_step H Map ⟨T, L, B, R, kids⟩ d
      ⟨hb1, hb2, hb3, hb4⟩
    have hloop : ∀ (cs : List BoxT), (∀ c ∈ cs, c ∈ kids) → cs.Pairwise Apart → ∀ (H' : Heap),
        ∃ G, BoxMarkChildren.loop H' Map cs (d + 1) = .ok G ∧ G.Next = H'.Next ∧
          (∀ p r k, (p ≠ Map.Tiles ∨ ∀ c ∈ cs, ¬ c.Cell r k) →
            G.Cells p r k = H'.Cells p r k) ∧
          ∀ c ∈ cs, Rendered (G.tile Map) c (d + 1) := by
      intro cs
      induction cs with
      | nil =>
        intro _ _ H'
        exact ⟨H', by simp only [BoxMarkChildren.loop], rfl, fun _ _ _ _ => rfl,
          fun c hc => by cases hc⟩
      | cons c cs ihcs =>
        intro hsub hap H'
        rw [List.pairwise_cons] at hap
        obtain ⟨i1, i2, i3, i4⟩ := hin c (hsub c (List.mem_cons_self _ _))
        obtain ⟨i5, i6⟩ := WFTree_proper (hwf c (hsub c (List.mem_cons_self _ _)))
        obtain ⟨G1, a1, a2, a3, a4⟩ := ih c (hsub c (List.mem_cons_self _ _)) H' (d + 1)
          ⟨by omega, by omega, by omega, by omega⟩
        obtain ⟨G2, b1, b2, b3, b4⟩ := ihcs (fun x hx => hsub x (List.mem_cons_of_mem _ hx))
          hap.2 G1
        refine ⟨G2, by simp only [BoxMarkChildren.loop, a1, b1], b2.trans a2, ?_, ?_⟩
        · intro p r k hcond
          rw [b3 p r k (hcond.imp id (fun h x hx => h x (List.mem_cons_of_mem _ hx))),
            a3 p r k (hcond.imp id (fun h => h c (List.mem_cons_self _ _)))]
        · intro x hx
          rcases List.mem_cons.1 hx with hx | hx
          · subst hx
            refine Rendered_congr a4 ?_
            intro r k hcell
            unfold Heap.tile
            refine (b3 Map.Tiles r k (Or.inr ?_)).symm
            intro y hy hcy
            have := hap.1 y hy
            unfold Apart at this
            unfold BoxT.Cell at hcell hcy
            omega
          · exact b4 x hx
    obtain ⟨G, l1, l2, l3, l4⟩ := hloop kids (fun _ h => h) hapart G7
    have hout : ∀ r k, (∀ c ∈ kids, ¬ c.Cell r k) →
        G.tile Map r k = drawBox (H.Cells Map.Tiles) ⟨T, L, B, R, kids⟩ d r k := by
      intro r k hno
      unfold Heap.tile
      rw [l3 Map.Tiles r k (Or.inr hno), s2, if_pos rfl]
    have hnb : ∀ r k, ¬ ((T < r ∧ r < B) ∧ (L < k ∧ k < R)) → ∀ c ∈ kids, ¬ c.Cell r k := by
      intro r k hnot c hc hcell
      obtain ⟨i1, i2, i3, i4⟩ := hin c hc
      unfold BoxT.Cell at hcell
      omega
    refine ⟨G, by rw [s3]; exact l1, l2.trans s1, ?_, ?_⟩
    · intro p r k hcond
      rcases hcond with hp | hcell
      · rw [l3 p r k (Or.inl hp), s2, if_neg hp]
      · have e1 := hout r k (hnb r k (by unfold BoxT.Cell at hcell; simp only at hcell; omega))
        unfold Heap.tile at e1
        by_cases hp : p = Map.Tiles
        · subst hp
          rw [e1, drawBox_outside _ _ _ ⟨by simp only; omega, by simp only; omega⟩
            (by unfold BoxT.Cell at hcell; exact hcell)]
        · rw [l3 p r k (Or.inl hp), s2, if_neg hp]
    · refine Rendered.mk T L B R d kids hT hL hin hsort hapart ⟨⟨?_, ?_, ?_, ?_⟩, ?_, ?_⟩ ?_ l4
      · rw [hout T L (hnb T L (by omega))]
        exact drawBox_corner _ _ _ ⟨Or.inl rfl, Or.inl rfl⟩
      · rw [hout T R (hnb T R (by omega))]
        exact drawBox_corner _ _ _ ⟨Or.inl rfl, Or.inr rfl⟩
      · rw [hout B L (hnb B L (by omega))]
        exact drawBox_corner _ _ _ ⟨Or.inr rfl, Or.inl rfl⟩
      · rw [hout B R (hnb B R (by omega))]
        exact drawBox_corner _ _ _ ⟨Or.inr rfl, Or.inr rfl⟩
      · intro r h1 h2
        rw [hout r L (hnb r L (by omega)), hout r R (hnb r R (by omega))]
        exact ⟨drawBox_vedge _ _ _ ⟨⟨h1, h2⟩, Or.inl rfl⟩,
          drawBox_vedge _ _ _ ⟨⟨h1, h2⟩, Or.inr rfl⟩⟩
      · intro k h1 h2
        rw [hout T k (hnb T k (by omega)), hout B k (hnb B k (by omega))]
        exact ⟨drawBox_hedge _ _ _ ⟨Or.inl rfl, h1, h2⟩,
          drawBox_hedge _ _ _ ⟨Or.inr rfl, h1, h2⟩⟩
      · intro r k h1 h2 h3 h4 hno
        rw [hout r k hno]
        exact drawBox_interior _ _ _ ⟨⟨h1, h2⟩, h3, h4⟩

/-! ## Scanning a rendered tree -/

theorem DepthChar_ne_plus (d : Nat) : DepthChar d ≠ '+' := by
  unfold DepthChar
  split <;> decide

theorem Rendered_proper {g : Nat → Nat → Char} {N : BoxT} {d : Nat} (hr : Rendered g N d) :
    N.Top < N.Bottom ∧ N.Left < N.Right := by
  cases hr with
  | mk T L B R d kids hT hL => exact ⟨hT, hL⟩

/-- A box whose border is drawn on the grid is traced from its top-left cell. -/
theorem Border_traced {g : Nat → Nat → Char} {h w T L B R : Nat} (hb : Border g T L B R)
    (hT : T < B) (hL : L < R) (hB : B < h) (hR : R < w) : TracedOn g h w T L B R := by
  obtain ⟨⟨b1, b2, b3, b4⟩, b5, b6⟩ := hb
  exact ⟨hB, hR, hT, hL, b2, by simp only [BoxCreate]; omega, ⟨b1, b4⟩, b5, b6⟩

/-- On a grid that shows a tree, the scan of the root finds the children of the
root, each with the children it has in the tree. -/
theorem Rendered_scan {g : Nat → Nat → Char} (h w : Nat) {N : BoxT} {d : Nat}
    (hr : Rendered g N d) : N.Bottom < h → N.Right < w →
    Scan g h w true N.Top N.Left N.Bottom N.Right (N.Top + 1 + (N.Bottom - (N.Top + 1)))
      (N.Left + 1) N.Children := by
  induction hr with
  | mk T L B R d kids hT hL hin hsort hapart hborder hfill hkids ih =>
    intro hB hR
    simp only at hB hR ⊢
    -- one cell
    have hcell : ∀ i j, T < i → i < B → L < j → j < R →
        (∃ K rest, kids = K ++ rest ∧ (∀ c ∈ K, c.Top < i ∨ (c.Top = i ∧ c.Left < j)) ∧
          (∀ c ∈ rest, ¬ (c.Top < i ∨ (c.Top = i ∧ c.Left < j))) ∧
          Scan g h w true T L B R i j K) →
        (∃ K rest, kids = K ++ rest ∧ (∀ c ∈ K, c.Top < i ∨ (c.Top = i ∧ c.Left < j + 1)) ∧
          (∀ c ∈ rest, ¬ (c.Top < i ∨ (c.Top = i ∧ c.Left < j + 1))) ∧
          Scan g h w true T L B R i (j + 1) K) := by
      rintro i j h1 h2 h3 h4 ⟨K, rest, e0, e1, e2, e3⟩
      by_cases hex : ∃ c ∈ rest, c.Top = i ∧ c.Left = j
      · -- the cell is the top-left corner of the next child
        obtain ⟨c, hc, hct, hcl⟩ := hex
        cases rest with
        | nil => cases hc
        | cons c' rest' =>
          have hs' := hsort
          have ha' := hapart
          rw [e0, List.pairwise_append] at hs' ha'
          obtain ⟨-, hs2, -⟩ := hs'
          obtain ⟨-, -, ha3⟩ := ha'
          rw [List.pairwise_cons] at hs2
          have hcc : c = c' := by
            rcases List.mem_cons.1 hc with hc | hc
            · exact hc
            · have hb := hs2.1 c hc
              unfold Before at hb
              exact absurd (show c'.Top < i ∨ (c'.Top = i ∧ c'.Left < j) by omega)
                (e2 c' (List.mem_cons_self _ _))
          subst hcc
          have hck : c ∈ kids := by rw [e0]; simp
          obtain ⟨i1, i2, i3, i4⟩ := hin c hck
          have hrc := hkids c hck
          have hsc := ih c hck (by omega) (by omega)
          have hapK : ∀ a ∈ K, Apart a c := fun a ha => ha3 a ha c (List.mem_cons_self _ _)
          cases hrc with
          | mk ct cl cb cr _ ckids p1 p2 _ _ _ pb _ _ =>
            simp only at hct hcl i1 i2 i3 i4 hsc
            subst hct hcl
            have ht : TracedOn g h w ct cl cb cr :=
              Border_traced pb p1 p2 (by omega) (by omega)
            have ht' : TracedOn (stamped g K) h w ct cl cb cr := by
              refine TracedOn_congr_rect ?_ ht
              intro r k q1 q2 q3 q4
              refine (stamped_of_not_cell ?_).symm
              intro a ha hcella
              have := hapK a ha
              unfold Apart at this
              unfold BoxT.Cell at hcella
              simp only at this
              omega
            refine ⟨K ++ [⟨ct, cl, cb, cr, ckids⟩], rest', by rw [e0]; simp, ?_, ?_,
              Scan.hit e3 h2 h3 h4 ht' (fun _ => hsc) (fun hf => by cases hf)⟩
            · intro x hx
              rcases List.mem_append.1 hx with hx | hx
              · have := e1 x hx; omega
              · rw [List.mem_singleton] at hx
                subst hx
                exact Or.inr ⟨rfl, Nat.lt_succ_self _⟩
            · intro x hx
              have hb := hs2.1 x hx
              unfold Before at hb
              simp only at hb
              omega
      · -- no child starts at the cell
        have hplus : stamped g K i j ≠ '+' := by
          by_cases hcov : ∃ c ∈ kids, c.Cell i j
          · obtain ⟨c, hc, hcell⟩ := hcov
            rw [e0] at hc
            rcases List.mem_append.1 hc with hc | hc
            · rw [stamped_of_cell hc hcell]
              decide
            · exfalso
              have hn := e2 c hc
              apply hex
              refine ⟨c, hc, ?_⟩
              unfold BoxT.Cell at hcell
              omega
          · have hno : ∀ c ∈ kids, ¬ c.Cell i j := fun c hc hcell => hcov ⟨c, hc, hcell⟩
            rw [stamped_of_not_cell (fun c hc => hno c (by rw [e0]; simp [hc])),
              hfill i j h1 h2 h3 h4 hno]
            exact DepthChar_ne_plus d
        refine ⟨K, rest, e0, (fun x hx => by have := e1 x hx; omega), ?_,
          Scan.skip e3 h2 h3 h4 ?_⟩
        · intro x hx
          have hn := e2 x hx
          have hne : ¬ (x.Top = i ∧ x.Left = j) := fun hh => hex ⟨x, hx, hh⟩
          omega
        · intro b r ht
          exact hplus ht.2.2.2.2.2.2.1.1
    -- one row
    have hcols : ∀ i, T < i → i < B → ∀ n, L + 1 + n ≤ L + 1 + (R - (L + 1)) →
        (∃ K rest, kids = K ++ rest ∧ (∀ c ∈ K, c.Top < i ∨ (c.Top = i ∧ c.Left < L + 1)) ∧
          (∀ c ∈ rest, ¬ (c.Top < i ∨ (c.Top = i ∧ c.Left < L + 1))) ∧
          Scan g h w true T L B R i (L + 1) K) →
        (∃ K rest, kids = K ++ rest ∧ (∀ c ∈ K, c.Top < i ∨ (c.Top = i ∧ c.Left < L + 1 + n)) ∧
          (∀ c ∈ rest, ¬ (c.Top < i ∨ (c.Top = i ∧ c.Left < L + 1 + n))) ∧
          Scan g h w true T L B R i (L + 1 + n) K) := by
      intro i h1 h2 n
      induction n with
      | zero => intro _ hp; exact hp
      | succ n ihn =>
        intro hn hp
        exact hcell i (L + 1 + n) h1 h2 (by omega) (by omega) (ihn (by omega) hp)
    -- all rows
    have hrows : ∀ m, T + 1 + m ≤ T + 1 + (B - (T + 1)) →
        ∃ K rest, kids = K ++ rest ∧
          (∀ c ∈ K, c.Top < T + 1 + m ∨ (c.Top = T + 1 + m ∧ c.Left < L + 1)) ∧
          (∀ c ∈ rest, ¬ (c.Top < T + 1 + m ∨ (c.Top = T + 1 + m ∧ c.Left < L + 1))) ∧
          Scan g h w true T L B R (T + 1 + m) (L + 1) K := by
      intro m
      induction m with
      | zero =>
        intro _
        refine ⟨[], kids, rfl, (fun c hc => by cases hc), ?_, Scan.start _ _ _ _ _⟩
        intro c hc
        obtain ⟨i1, i2, i3, i4⟩ := hin c hc
        omega
      | succ m ihm =>
        intro hm
        obtain ⟨K, rest, e0, e1, e2, e3⟩ := hcols (T + 1 + m) (by omega) (by omega)
          (R - (L + 1)) (Nat.le_refl _) (ihm (by omega))
        have hrow : Scan g h w true T L B R (T + 1 + m + 1) (L + 1) K :=
          Scan.row e3 (show T + 1 + m < B by omega)
        refine ⟨K, rest, e0, (fun x hx => by have := e1 x hx; omega), ?_, hrow⟩
        intro x hx
        have hn := e2 x hx
        have hxk : x ∈ kids := by rw [e0]; simp [hx]
        obtain ⟨i1, i2, i3, i4⟩ := hin x hxk
        obtain ⟨i5, i6⟩ := Rendered_proper (hkids x hxk)
        omega
    obtain ⟨K, rest, e0, e1, e2, e3⟩ := hrows (B - (T + 1)) (Nat.le_refl _)
    have hrest : rest = [] := by
      cases rest with
      | nil => rfl
      | cons x xs =>
        exfalso
        have hxk : x ∈ kids := by rw [e0]; simp
        obtain ⟨i1, i2, i3, i4⟩ := hin x hxk
        obtain ⟨i5, i6⟩ := Rendered_proper (hkids x hxk)
        have := e2 x (List.mem_cons_self _ _)
        omega
    rw [hrest, List.append_nil] at e0
    rw [e0]
    exact e3

/-! ## Round trip -/

theorem Rendered_border {g : Nat → Nat → Char} {T L B R d : Nat} {kids : List BoxT}
    (hr : Rendered g ⟨T, L, B, R, kids⟩ d) : T < B ∧ L < R ∧ Border g T L B R := by
  cases hr with
  | mk _ _ _ _ _ _ hT hL _ _ _ hb => exact ⟨hT, hL, hb⟩

/-- C5: round trip.  For an allocated map whose whole-grid rectangle `root`
passes `BoxIsValid`, and with fuel for the recursion: `BoxFindChildren` builds a
tree `T` from `root`; `BoxMarkChildren` renders `T` at depth `0` on a fresh map
of the same size; `root` passes `BoxIsValid` on the rendered map; and
`BoxFindChildren` on the rendered map builds the same tree `T` again, with the
same rectangles, nesting and order of children. -/
theorem BoxFindChildren_roundtrip (fuel : Nat) (H : Heap) (Map : MapT) (ha : Map.Tiles < H.Next)
    (hv : BoxIsValid H Map (BoxCreate 0 0 (Map.Height - 1) (Map.Width - 1)) = .ok true)
    (hf : Map.Height < fuel) :
    ∃ H1 T, BoxFindChildren fuel H Map (BoxCreate 0 0 (Map.Height - 1) (Map.Width - 1)) true =
        .ok (H1, T) ∧
      ∃ H3, BoxMarkChildren (CreateMap H1 Map.Height Map.Width).1
          (CreateMap H1 Map.Height Map.Width).2 T 0 = .ok H3 ∧
        BoxIsValid H3 (CreateMap H1 Map.Height Map.Width).2
          (BoxCreate 0 0 (Map.Height - 1) (Map.Width - 1)) = .ok true ∧
        ∃ H4, BoxFindChildren fuel H3 (CreateMap H1 Map.Height Map.Width).2
          (BoxCreate 0 0 (Map.Height - 1) (Map.Width - 1)) true = .ok (H4, T) := by
  have hb := valid_inBounds hv
  have hd : DrawnOn (H.tile Map) (BoxCreate 0 0 (Map.Height - 1) (Map.Width - 1)) :=
    Drawn_of_valid hb hv
  obtain ⟨hb1, hb2, hb3, hb4⟩ := hb
  simp only [BoxCreate] at hb1 hb2 hb3 hb4
  have hz := hd.1
  simp only [BoxCreate] at hz
  have hT : 0 < Map.Height - 1 := by omega
  have hL : 0 < Map.Width - 1 := by omega
  obtain ⟨H1, kids, s1, s2, s3, s4⟩ := BoxFindChildren_spec fuel H Map
    (BoxCreate 0 0 (Map.Height - 1) (Map.Width - 1)) true ha
    (by simp only [BoxCreate]; omega) (by simp only [BoxCreate]; omega)
    (by simp only [BoxCreate]; omega)
  simp only [BoxCreate, List.nil_append] at s1 s4
  have hwf : WFTree ⟨0, 0, Map.Height - 1, Map.Width - 1, kids⟩ := Scan_wf_root s4 hd hT hL
  obtain ⟨H3, m1, m2, m3, m4⟩ := @BoxMarkChildren_rendered
    (CreateMap H1 Map.Height Map.Width).2 _ hwf (CreateMap H1 Map.Height Map.Width).1 0
    ⟨hb1, hb2, hb3, hb4⟩
  obtain ⟨-, -, hbord⟩ := Rendered_border m4
  have hd3 : Drawn H3 (CreateMap H1 Map.Height Map.Width).2
      (BoxCreate 0 0 (Map.Height - 1) (Map.Width - 1)) := by
    obtain ⟨⟨b1, b2, b3, b4⟩, b5, b6⟩ := hbord
    exact ⟨by simp only [BoxCreate]; omega, ⟨b1, b4⟩, b5, b6⟩
  have hv3 := valid_of_Drawn (show InBounds (CreateMap H1 Map.Height Map.Width).2
    (BoxCreate 0 0 (Map.Height - 1) (Map.Width - 1)) from ⟨hb1, hb2, hb3, hb4⟩) hd3
  have hscan := Rendered_scan Map.Height Map.Width m4 hb2 hb4
  simp only [Nat.zero_add] at hscan
  obtain ⟨H4, kids2, t1, -, -, t4⟩ := BoxFindChildren_spec fuel H3
    (CreateMap H1 Map.Height Map.Width).2 (BoxCreate 0 0 (Map.Height - 1) (Map.Width - 1)) true
    (by rw [m2]; simp only [CreateMap]; omega)
    (by simp only [BoxCreate, CreateMap]; omega) (by simp only [BoxCreate, CreateMap]; omega)
    (by simp only [BoxCreate, CreateMap]; omega)
  simp only [BoxCreate, List.nil_append, Nat.zero_add] at t1 t4
  have ek : kids2 = kids := Scan_unique t4 _ hscan
  rw [ek] at t1
  exact ⟨H1, ⟨0, 0, Map.Height - 1, Map.Width - 1, kids⟩, s1, H3, m1, hv3, H4, t1⟩

/-- C5 on the 5x9 grid with two boxes side by side in the root box. -/
theorem BoxFindChildren_roundtrip_witness :
    ∃ H1 T, BoxFindChildren 6
        (heapOfRows ["+-------+".toList, "|+-+ +-+|".toList, "|| | | ||".toList,
          "|+-+ +-+|".toList, "+-------+".toList])
        (mapOfRows ["+-------+".toList, "|+-+ +-+|".toList, "|| | | ||".toList,
          "|+-+ +-+|".toList, "+-------+".toList]) (BoxCreate 0 0 4 8) true = .ok (H1, T) ∧
      ∃ H3, BoxMarkChildren (CreateMap H1 5 9).1 (CreateMap H1 5 9).2 T 0 = .ok H3 ∧
        BoxIsValid H3 (CreateMap H1 5 9).2 (BoxCreate 0 0 4 8) = .ok true ∧
        ∃ H4, BoxFindChildren 6 H3 (CreateMap H1 5 9).2 (BoxCreate 0 0 4 8) true = .ok (H4, T) :=
  BoxFindChildren_roundtrip 6
    (heapOfRows ["+-------+".toList, "|+-+ +-+|".toList, "|| | | ||".toList,
      "|+-+ +-+|".toList, "+-------+".toList])
    (mapOfRows ["+-------+".toList, "|+-+ +-+|".toList, "|| | | ||".toList,
      "|+-+ +-+|".toList, "+-------+".toList]) (by decide) (by decide) (by decide)

/-! ## `BoxMarkChildren` as a function on cells -/

theorem renderOn_eq (f : Nat → Nat → Char) (T L B R : Nat) (kids : List BoxT) (d : Nat) :
    renderOn f ⟨T, L, B, R, kids⟩ d =
      renderList (drawBox f ⟨T, L, B, R, kids⟩ d) kids (d + 1) := by
  rw [renderOn]

theorem renderList_nil (f : Nat → Nat → Char) (d : Nat) : renderList f [] d = f := by
  rw [renderList]

theorem renderList_cons (f : Nat → Nat → Char) (c : BoxT) (cs : List BoxT) (d : Nat) :
    renderList f (c :: cs) d = renderList (renderOn f c d) cs d := by
  rw [renderList]

/-- On a tree whose nodes all lie in the map `BoxMarkChildren` returns; the
cells of the map become `renderOn` of the cells before, and no other block
changes. -/
theorem BoxMarkChildren_renderOn {Map : MapT} {N : BoxT} (hin : AllInBounds Map N) :
    ∀ (H : Heap) (d : Nat), ∃ G, BoxMarkChildren H Map N d = .ok G ∧ G.Next = H.Next ∧
      ∀ p r k, G.Cells p r k =
        if p = Map.Tiles then renderOn (H.Cells Map.Tiles) N d r k else H.Cells p r k := by
  induction hin with
  | mk T L B R kids hT hB hL hR _ ih =>
    intro H d
    obtain ⟨G7, s1, s2, s3⟩ := BoxMarkChildren_step H Map ⟨T, L, B, R, kids⟩ d
      ⟨hT, hB, hL, hR⟩
    have hloop : ∀ (cs : List BoxT), (∀ c ∈ cs, c ∈ kids) → ∀ (H' : Heap),
        ∃ G, BoxMarkChildren.loop H' Map cs (d + 1) = .ok G ∧ G.Next = H'.Next ∧
          ∀ p r k, G.Cells p r k =
            if p = Map.Tiles then renderList (H'.Cells Map.Tiles) cs (d + 1) r k
            else H'.Cells p r k := by
      intro cs
      induction cs with
      | nil =>
        intro _ H'
        refine ⟨H', by simp only [BoxMarkChildren.loop], rfl, fun p r k => ?_⟩
        rw [renderList_nil]
        by_cases hp : p = Map.Tiles
        · rw [if_pos hp, hp]
        · rw [if_neg hp]
      | cons c cs ihcs =>
        intro hsub H'
        obtain ⟨G1, a1, a2, a3⟩ := ih c (hsub c (List.mem_cons_self _ _)) H' (d + 1)
        obtain ⟨G2, b1, b2, b3⟩ := ihcs (fun x hx => hsub x (List.mem_cons_of_mem _ hx)) G1
        have ef : G1.Cells Map.Tiles = renderOn (H'.Cells Map.Tiles) c (d + 1) := by
          funext r k
          rw [a3, if_pos rfl]
        refine ⟨G2, by simp only [BoxMarkChildren.loop, a1, b1], b2.trans a2, fun p r k => ?_⟩
        rw [b3, renderList_cons, ef]
        by_cases hp : p = Map.Tiles
        · rw [if_pos hp, if_pos hp]
        · rw [if_neg hp, if_neg hp, a3, if_neg hp]
    obtain ⟨G, l1, l2, l3⟩ := hloop kids (fun _ h => h) G7
    have ef : G7.Cells Map.Tiles = drawBox (H.Cells Map.Tiles) ⟨T, L, B, R, kids⟩ d := by
      funext r k
      rw [s2, if_pos rfl]
    refine ⟨G, by rw [s3]; exact l1, l2.trans s1, fun p r k => ?_⟩
    rw [l3, renderOn_eq, ef]
    by_cases hp : p = Map.Tiles
    · rw [if_pos hp, if_pos hp]
    · rw [if_neg hp, if_neg hp, s2, if_neg hp]

theorem Nested_proper {N : BoxT} (hn : Nested N) : N.Top ≤ N.Bottom ∧ N.Left ≤ N.Right := by
  cases hn with
  | mk T L B R kids hT hL => exact ⟨hT, hL⟩

/-- A nested tree whose root lies in the map lies in the map as a whole. -/
theorem Nested_allIn {Map : MapT} {N : BoxT} (hn : Nested N) :
    InBounds Map N → AllInBounds Map N := by
  induction hn with
  | mk T L B R kids hT hL hin _ hk ih =>
    rintro ⟨h1, h2, h3, h4⟩
    simp only at h1 h2 h3 h4
    refine AllInBounds.mk T L B R kids h1 h2 h3 h4 ?_
    intro c hc
    obtain ⟨i1, i2, i3, i4⟩ := hin c hc
    obtain ⟨i5, i6⟩ := Nested_proper (hk c hc)
    exact ih c hc ⟨by omega, by omega, by omega, by omega⟩

/-- A well-formed tree is nested. -/
theorem WFTree_nested {N : BoxT} (hw : WFTree N) : Nested N := by
  induction hw with
  | mk T L B R kids hT hL hin _ hapart _ ih =>
    refine Nested.mk T L B R kids (Nat.le_of_lt hT) (Nat.le_of_lt hL) hin ?_ ih
    refine hapart.imp ?_
    intro a b hab r k hc
    unfold Apart at hab
    unfold BoxT.Cell at hc
    omega

/-- Rendering on a map that `CreateMap` has just made: the cells of the new
block are `renderOn` of the zero-filled grid. -/
theorem BoxMarkChildren_fresh (H : Heap) (h w : Nat) {N : BoxT}
    (hin : AllInBounds (CreateMap H h w).2 N) (d : Nat) :
    ∃ G, BoxMarkChildren (CreateMap H h w).1 (CreateMap H h w).2 N d = .ok G ∧
      G.Next = H.Next + 1 ∧
      (∀ r k, G.Cells H.Next r k = renderOn (fun _ _ => Char.ofNat 0) N d r k) ∧
      (∀ p r k, p ≠ H.Next → G.Cells p r k = H.Cells p r k) := by
  obtain ⟨G, g1, g2, g3⟩ := BoxMarkChildren_renderOn hin (CreateMap H h w).1 d
  have e0 : (CreateMap H h w).1.Cells (CreateMap H h w).2.Tiles = fun _ _ => Char.ofNat 0 := by
    funext r k
    simp only [CreateMap, if_true]
  refine ⟨G, g1, g2, ?_, ?_⟩
  · intro r k
    rw [g3, e0]
    exact if_pos rfl
  · intro p r k hp
    rw [g3]
    have hp' : ¬ p = (CreateMap H h w).2.Tiles := hp
    rw [if_neg hp']
    simp only [CreateMap, if_neg hp]
/-! ## The depth of the recursion -/

/-- A box traced from a cell of the open interior of a drawn box ends strictly
inside it. -/
theorem TracedOn_inside {f : Nat → Nat → Char} {h w T L B R i j b r : Nat}
    (htr : TracedOn f h w i j b r) (hd : DrawnOn f (BoxCreate T L B R))
    (p1 : T < i) (p2 : i < B) (p3 : L < j) (p4 : j < R) : b < B ∧ r < R := by
  obtain ⟨-, -, t3, t4, t5, -, ⟨-, t6⟩, t7, t8⟩ := htr
  obtain ⟨-, -, d3, d4⟩ := hd
  simp only [BoxCreate] at t6 t7 t8 d3 d4
  have hR : r < R := by
    by_contra hcon
    have e1 := (d3 i p1 p2).2
    by_cases e : R = r
    · rw [e, t5] at e1; exact absurd e1 (by decide)
    · have e2 := (t8 R (by omega) (by omega)).1
      rw [e1] at e2; exact absurd e2 (by decide)
  have hB : b < B := by
    by_contra hcon
    have e1 := (d4 r (by omega) hR).2
    by_cases e : B = b
    · rw [e, t6] at e1; exact absurd e1 (by decide)
    · have e2 := (t7 B (by omega) (by omega)).2
      rw [e1] at e2; exact absurd e2 (by decide)
  exact ⟨hB, hR⟩

/-- The call of `BoxFindChildren` on a box that is drawn on an allocated map
returns when the bound on the recursion is half the smaller side of the box. -/
theorem BoxFindChildren_tight : ∀ (fuel : Nat) (H : Heap) (Map : MapT) (Box : BoxT) (rec : Bool),
    Map.Tiles < H.Next → Box.Bottom < Map.Height → Box.Right < Map.Width →
    Box.Top < Box.Bottom → Box.Left < Box.Right →
    DrawnOn (H.tile Map) (BoxCreate Box.Top Box.Left Box.Bottom Box.Right) →
    (Box.Bottom - Box.Top ≤ 2 * fuel ∨ Box.Right - Box.Left ≤ 2 * fuel) →
    ∃ G kids, BoxFindChildren fuel H Map Box rec =
        .ok (G, { Box with Children := Box.Children ++ kids }) ∧
      H.Next ≤ G.Next ∧ (∀ p, p < H.Next → ∀ r k, G.Cells p r k = H.Cells p r k) ∧
      Scan (H.tile Map) Map.Height Map.Width rec Box.Top Box.Left Box.Bottom Box.Right
        (Box.Top + 1 + (Box.Bottom - (Box.Top + 1))) (Box.Left + 1) kids := by
  intro fuel
  induction fuel with
  | zero => intro H Map Box rec _ _ _ h1 h2 _ hf; omega
  | succ fuel ih =>
    intro H Map Box rec ha hB hR hTB hLR hd hf
    obtain ⟨H0, c1, c2, c3, c4⟩ := CopyMap_spec H Map ha
    obtain ⟨s', l1, kids, e1, e2, e3, -, e5⟩ := forLoop2_inv (ScanInv H Map Box rec)
      (Box.Top + 1) Box.Bottom (Box.Left + 1) Box.Right (H0, Box)
      (BoxFindChildren.visit (fun H1 BoxAtPosition => BoxFindChildren fuel H1 Map BoxAtPosition true)
        ⟨Map.Height, Map.Width, H.Next⟩ rec)
      ⟨[], by simp only [List.append_nil]; cases Box; rfl, by simp only; omega, fun p hp r k => c3 p r k (by omega),
        fun r k hr hk => by rw [stamped_nil]; exact c4 r k hr hk, Scan.start _ _ _ _ _⟩
      (by
        intro i j t h1 h2 h3 h4 hinv
        refine visit_step_traced _ (Nat.le_of_lt hB) (Nat.le_of_lt hR) ?_ h1 h2 h3 h4 t hinv
        intro _ G1 i j b r g1 g2 gt q2 q3 q4 g3 g4 g5 g6
        have ef : G1.tile Map = H.tile Map := by
          funext r k
          exact g2 Map.Tiles ha r k
        obtain ⟨q5, q6⟩ := TracedOn_inside gt hd g3 q2 q3 q4
        obtain ⟨-, -, -, u4, -, u6⟩ := gt
        obtain ⟨G2, Ch, r1, r2, r3, r4⟩ := ih G1 Map (BoxCreate i j b r) true (by omega)
          (by simp only [BoxCreate]; omega) (by simp only [BoxCreate]; omega)
          (by simp only [BoxCreate]; omega) (by simp only [BoxCreate]; omega)
          (by rw [ef]; exact u6)
          (by simp only [BoxCreate]; omega)
        refine ⟨G2, Ch, ?_, r2, r3, ?_⟩
        · rw [r1]; rfl
        · rw [ef] at r4
          exact r4)
      (by
        rintro i t h1 h2 ⟨kids, e1, e2, e3, e4, e5⟩
        exact ⟨kids, e1, e2, e3, e4, Scan.row e5 h2⟩)
    refine ⟨s'.1, kids, ?_, by omega, e3, e5⟩
    rw [BoxFindChildren]
    simp only [c1]
    rw [l1, ← e1]

theorem depth_eq (T L B R : Nat) (kids : List BoxT) :
    BoxT.depth ⟨T, L, B, R, kids⟩ = BoxT.depthList kids + 1 := by
  rw [BoxT.depth]

theorem depthList_nil : BoxT.depthList [] = 0 := by
  rw [BoxT.depthList]

theorem depthList_cons (c : BoxT) (cs : List BoxT) :
    BoxT.depthList (c :: cs) = max c.depth (BoxT.depthList cs) := by
  rw [BoxT.depthList]

theorem depthList_le {kids : List BoxT} {m : Nat} (h : ∀ c ∈ kids, c.depth ≤ m) :
    BoxT.depthList kids ≤ m := by
  induction kids with
  | nil => rw [depthList_nil]; exact Nat.zero_le _
  | cons c cs ih =>
    rw [depthList_cons]
    exact max_le (h c (List.mem_cons_self _ _)) (ih (fun x hx => h x (List.mem_cons_of_mem _ hx)))

theorem depth_le_depthList {kids : List BoxT} {c : BoxT} (hc : c ∈ kids) :
    c.depth ≤ BoxT.depthList kids := by
  induction kids with
  | nil => cases hc
  | cons a as ih =>
    rw [depthList_cons]
    rcases List.mem_cons.1 hc with h | h
    · subst h; exact le_max_left _ _
    · exact le_trans (ih h) (le_max_right _ _)

/-- In a well-formed tree every level takes two rows and two columns. -/
theorem WFTree_depth {N : BoxT} (hw : WFTree N) :
    2 * N.depth ≤ N.Bottom - N.Top + 1 ∧ 2 * N.depth ≤ N.Right - N.Left + 1 := by
  induction hw with
  | mk T L B R kids hT hL hin _ _ _ ih =>
    rw [depth_eq]
    simp only
    have h1 : BoxT.depthList kids ≤ (B - T - 1) / 2 := by
      refine depthList_le (fun c hc => ?_)
      obtain ⟨i1, i2, i3, i4⟩ := hin c hc
      have := (ih c hc).1
      omega
    have h2 : BoxT.depthList kids ≤ (R - L - 1) / 2 := by
      refine depthList_le (fun c hc => ?_)
      obtain ⟨i1, i2, i3, i4⟩ := hin c hc
      have := (ih c hc).2
      omega
    omega

/-- A node at depth `e` of a tree whose root is at depth `d`: the levels from
the node down fit in the levels of the tree. -/
theorem NodeAt_depth {N M : BoxT} {d e : Nat} (hm : NodeAt N d M e) :
    e + M.depth ≤ d + N.depth := by
  induction hm with
  | root N d => exact Nat.le_refl _
  | @step N d c M e hmem _ ih =>
    have h1 := depth_le_depthList hmem
    have h2 : N.depth = BoxT.depthList N.Children + 1 := by
      cases N
      exact depth_eq _ _ _ _ _
    omega

theorem depth_pos (N : BoxT) : 0 < N.depth := by
  cases N
  rw [depth_eq]
  omega

/-- C12: for an allocated map of height `h` and width `w` whose whole-grid
rectangle passes `BoxIsValid`, the call of `BoxFindChildren` with the flag set
returns when at most `min(h,w)/2` invocations may be nested (the recursion
never goes deeper, and it ends), and in the tree it builds every node stands at
a level of at most `min(h,w)/2`, the root being at level `1`: no path from the
root down to a leaf has more boxes than that. -/
theorem BoxFindChildren_depth (H : Heap) (Map : MapT) (ha : Map.Tiles < H.Next)
    (hv : BoxIsValid H Map (BoxCreate 0 0 (Map.Height - 1) (Map.Width - 1)) = .ok true) :
    ∃ G T, BoxFindChildren (min Map.Height Map.Width / 2) H Map
        (BoxCreate 0 0 (Map.Height - 1) (Map.Width - 1)) true = .ok (G, T) ∧
      T.depth ≤ min Map.Height Map.Width / 2 ∧
      ∀ N e, NodeAt T 1 N e → e ≤ min Map.Height Map.Width / 2 := by
  have hb := valid_inBounds hv
  have hd : DrawnOn (H.tile Map) (BoxCreate 0 0 (Map.Height - 1) (Map.Width - 1)) :=
    Drawn_of_valid hb hv
  obtain ⟨hb1, hb2, hb3, hb4⟩ := hb
  simp only [BoxCreate] at hb1 hb2 hb3 hb4
  have hz := hd.1
  simp only [BoxCreate] at hz
  have hm : min Map.Height Map.Width = Map.Height ∨ min Map.Height Map.Width = Map.Width := by
    rcases Nat.le_total Map.Height Map.Width with h | h
    · exact Or.inl (Nat.min_eq_left h)
    · exact Or.inr (Nat.min_eq_right h)
  have hle1 : min Map.Height Map.Width ≤ Map.Height := Nat.min_le_left _ _
  have hle2 : min Map.Height Map.Width ≤ Map.Width := Nat.min_le_right _ _
  obtain ⟨G, kids, s1, -, -, s4⟩ := BoxFindChildren_tight (min Map.Height Map.Width / 2) H Map
    (BoxCreate 0 0 (Map.Height - 1) (Map.Width - 1)) true ha
    (by simp only [BoxCreate]; omega) (by simp only [BoxCreate]; omega)
    (by simp only [BoxCreate]; omega) (by simp only [BoxCreate]; omega) hd
    (by simp only [BoxCreate]; omega)
  simp only [BoxCreate, List.nil_append] at s1 s4
  have hwf : WFTree ⟨0, 0, Map.Height - 1, Map.Width - 1, kids⟩ :=
    Scan_wf_root s4 hd (by omega) (by omega)
  obtain ⟨w1, w2⟩ := WFTree_depth hwf
  simp only at w1 w2
  have hdep : BoxT.depth ⟨0, 0, Map.Height - 1, Map.Width - 1, kids⟩ ≤
      min Map.Height Map.Width / 2 := by omega
  refine ⟨G, ⟨0, 0, Map.Height - 1, Map.Width - 1, kids⟩, s1, hdep, fun N e hN => ?_⟩
  have h1 := NodeAt_depth hN
  have h2 := depth_pos N
  omega

/-- C12 on the 5x9 grid with two boxes side by side in the root box: the bound
is `2`. -/
theorem BoxFindChildren_depth_witness :
    ∃ G T, BoxFindChildren 2
        (heapOfRows ["+-------+".toList, "|+-+ +-+|".toList, "|| | | ||".toList,
          "|+-+ +-+|".toList, "+-------+".toList])
        (mapOfRows ["+-------+".toList, "|+-+ +-+|".toList, "|| | | ||".toList,
          "|+-+ +-+|".toList, "+-------+".toList]) (BoxCreate 0 0 4 8) true = .ok (G, T) ∧
      T.depth ≤ 2 ∧ ∀ N e, NodeAt T 1 N e → e ≤ 2 :=
  BoxFindChildren_depth
    (heapOfRows ["+-------+".toList, "|+-+ +-+|".toList, "|| | | ||".toList,
      "|+-+ +-+|".toList, "+-------+".toList])
    (mapOfRows ["+-------+".toList, "|+-+ +-+|".toList, "|| | | ||".toList,
      "|+-+ +-+|".toList, "+-------+".toList]) (by decide) (by decide)
/-! ## The deepest node decides the cell -/

theorem renderList_append (f : Nat → Nat → Char) (as bs : List BoxT) (d : Nat) :
    renderList f (as ++ bs) d = renderList (renderList f as d) bs d := by
  induction as generalizing f with
  | nil => rw [List.nil_append, renderList_nil]
  | cons a as ih => rw [List.cons_append, renderList_cons, renderList_cons, ih]

/-- A nested tree is drawn inside the closed rectangle of its root. -/
theorem renderOn_outside {N : BoxT} (hn : Nested N) :
    ∀ (f : Nat → Nat → Char) (d r k : Nat), ¬ N.Cell r k → renderOn f N d r k = f r k := by
  induction hn with
  | mk T L B R kids hT hL hin _ _ ih =>
    intro f d r k hc
    have hlist : ∀ (cs : List BoxT), (∀ c ∈ cs, c ∈ kids) → ∀ (g : Nat → Nat → Char),
        renderList g cs (d + 1) r k = g r k := by
      intro cs
      induction cs with
      | nil => intro _ g; rw [renderList_nil]
      | cons c cs ihcs =>
        intro hsub g
        rw [renderList_cons, ihcs (fun x hx => hsub x (List.mem_cons_of_mem _ hx))]
        have hck := hsub c (List.mem_cons_self _ _)
        refine ih c hck g (d + 1) r k ?_
        obtain ⟨i1, i2, i3, i4⟩ := hin c hck
        unfold BoxT.Cell at hc ⊢
        simp only at hc
        omega
    rw [renderOn_eq, hlist kids (fun _ h => h)]
    exact drawBox_outside _ _ _ ⟨hT, hL⟩ hc

/-- Nested boxes that do not hold a cell leave it as it is. -/
theorem renderList_outside {cs : List BoxT} {r k : Nat}
    (hcs : ∀ c ∈ cs, Nested c ∧ ¬ c.Cell r k) (f : Nat → Nat → Char) (d : Nat) :
    renderList f cs d r k = f r k := by
  induction cs generalizing f with
  | nil => rw [renderList_nil]
  | cons c cs ih =>
    rw [renderList_cons, ih (fun x hx => hcs x (List.mem_cons_of_mem _ hx))]
    exact renderOn_outside (hcs c (List.mem_cons_self _ _)).1 f d r k
      (hcs c (List.mem_cons_self _ _)).2

/-- On its closed rectangle a box is drawn as `BoxT.mark` says. -/
theorem drawBox_mark (f : Nat → Nat → Char) (N : BoxT) (d : Nat) {r k : Nat}
    (hc : N.Cell r k) : drawBox f N d r k = N.mark d r k := by
  unfold BoxT.Cell at hc
  unfold BoxT.mark
  by_cases h1 : (r = N.Top ∨ r = N.Bottom) ∧ (k = N.Left ∨ k = N.Right)
  · rw [if_pos h1]
    exact drawBox_corner _ _ _ h1
  · rw [if_neg h1]
    by_cases h2 : k = N.Left ∨ k = N.Right
    · rw [if_pos h2]
      exact drawBox_vedge _ _ _ ⟨by omega, h2⟩
    · rw [if_neg h2]
      by_cases h3 : r = N.Top ∨ r = N.Bottom
      · rw [if_pos h3]
        exact drawBox_hedge _ _ _ ⟨h3, by omega⟩
      · rw [if_neg h3]
        exact drawBox_interior _ _ _ ⟨by omega, by omega⟩

/-- The deepest node of a cell holds the cell, and so does the root. -/
theorem Deepest_cell {N M : BoxT} {d e r k : Nat} (hd : Deepest N d r k M e) (hn : Nested N) :
    N.Cell r k ∧ M.Cell r k ∧ d ≤ e := by
  induction hd with
  | here N d r k hc _ => exact ⟨hc, hc, Nat.le_refl _⟩
  | @inside N d r k c M e hmem _ ih =>
    cases hn with
    | mk T L B R kids hT hL hin _ hk =>
      obtain ⟨a1, a2, a3⟩ := ih (hk c hmem)
      obtain ⟨i1, i2, i3, i4⟩ := hin c hmem
      refine ⟨?_, a2, by omega⟩
      unfold BoxT.Cell at a1 ⊢
      simp only
      omega

/-- The cell of a nested tree shows the mark of its deepest node. -/
theorem renderOn_deepest {N M : BoxT} {d e r k : Nat} (hd : Deepest N d r k M e) :
    Nested N → ∀ f : Nat → Nat → Char, renderOn f N d r k = M.mark e r k := by
  induction hd with
  | here N d r k hc hno =>
    intro hn f
    cases hn with
    | mk T L B R kids hT hL hin _ hk =>
      rw [renderOn_eq, renderList_outside (fun c hc' => ⟨hk c hc', hno c hc'⟩)]
      exact drawBox_mark f _ d hc
  | @inside N d r k c M e hmem hdc ih =>
    intro hn f
    cases hn with
    | mk T L B R kids hT hL hin hpw hk =>
      simp only at hmem
      obtain ⟨pre, post, e1⟩ := List.append_of_mem hmem
      have hcell := (Deepest_cell hdc (hk c hmem)).1
      rw [e1] at hpw
      rw [List.pairwise_append] at hpw
      obtain ⟨-, hpost, hcross⟩ := hpw
      rw [List.pairwise_cons] at hpost
      have hpre : ∀ x ∈ pre, Nested x ∧ ¬ x.Cell r k := by
        intro x hx
        refine ⟨hk x (by rw [e1]; simp [hx]), fun hxc => ?_⟩
        exact hcross x hx c (List.mem_cons_self _ _) r k ⟨hxc, hcell⟩
      have hpo : ∀ x ∈ post, Nested x ∧ ¬ x.Cell r k := by
        intro x hx
        refine ⟨hk x (by rw [e1]; simp [hx]), fun hxc => ?_⟩
        exact hpost.1 x hx r k ⟨hcell, hxc⟩
      rw [renderOn_eq]
      conv_lhs => rw [e1]
      rw [renderList_append, renderList_cons, renderList_outside hpo]
      exact ih (hk c hmem) _

/-- Every cell of the closed rectangle of a nested tree has a deepest node. -/
theorem Deepest_exists {N : BoxT} (hn : Nested N) :
    ∀ d r k, N.Cell r k → ∃ M e, Deepest N d r k M e := by
  induction hn with
  | mk T L B R kids hT hL hin _ hk ih =>
    intro d r k hc
    by_cases hex : ∃ c ∈ kids, c.Cell r k
    · obtain ⟨c, hmem, hcc⟩ := hex
      obtain ⟨M, e, hM⟩ := ih c hmem (d + 1) r k hcc
      exact ⟨M, e, Deepest.inside hmem hM⟩
    · exact ⟨_, d, Deepest.here _ d r k hc (fun c hmem hcc => hex ⟨c, hmem, hcc⟩)⟩

/-- The deepest node of a cell is a node of the tree. -/
theorem Deepest_node {N M : BoxT} {d e r k : Nat} (hd : Deepest N d r k M e) :
    NodeAt N d M e := by
  induction hd with
  | here N d r k _ _ => exact NodeAt.root N d
  | inside hmem _ ih => exact NodeAt.step hmem ih

/-- A node of a nested tree lies in the closed rectangle of the root, at the
depth of the root or deeper. -/
theorem NodeAt_cell {N M : BoxT} {d e : Nat} (hm : NodeAt N d M e) (hn : Nested N)
    {r k : Nat} (hc : M.Cell r k) : N.Cell r k ∧ d ≤ e := by
  induction hm with
  | root N d => exact ⟨hc, Nat.le_refl _⟩
  | @step N d c M e hmem _ ih =>
    cases hn with
    | mk T L B R kids hT hL hin _ hk =>
      obtain ⟨a1, a2⟩ := ih (hk c hmem) hc
      obtain ⟨i1, i2, i3, i4⟩ := hin c hmem
      refine ⟨?_, by omega⟩
      unfold BoxT.Cell at a1 ⊢
      simp only
      omega

/-- No node that holds the cell is deeper than the deepest node of the cell. -/
theorem Deepest_max {N M : BoxT} {d e r k : Nat} (hd : Deepest N d r k M e) :
    Nested N → ∀ M' e', NodeAt N d M' e' → M'.Cell r k → e' ≤ e := by
  induction hd with
  | here N d r k hc hno =>
    intro hn M' e' hm hc'
    cases hm with
    | root => exact Nat.le_refl _
    | @step _ _ c _ _ hmem hm' =>
      cases hn with
      | mk T L B R kids hT hL hin _ hk =>
        exact absurd (NodeAt_cell hm' (hk c hmem) hc').1 (hno c hmem)
  | @inside N d r k c M e hmem hdc ih =>
    intro hn M' e' hm hc'
    cases hn with
    | mk T L B R kids hT hL hin hpw hk =>
      have hde := (Deepest_cell hdc (hk c hmem)).2.2
      cases hm with
      | root => omega
      | @step _ _ c' _ _ hmem' hm' =>
        have hcell := (Deepest_cell hdc (hk c hmem)).1
        have hcell' := (NodeAt_cell hm' (hk c' hmem') hc').1
        by_cases hcc : c' = c
        · subst hcc
          exact ih (hk c' hmem) M' e' hm' hc'
        · have hsym : Symmetric (fun a b : BoxT => ∀ r k, ¬ (a.Cell r k ∧ b.Cell r k)) :=
            fun a b h r k hab => h r k ⟨hab.2, hab.1⟩
          exact absurd ⟨hcell', hcell⟩ (hpw.forall hsym hmem' hmem hcc r k)

/-- C11: on a tree in which, at every node, the children lie strictly inside the
open interior of the node and no two of them have a cell in common (all nodes
being rectangles, `Top ≤ Bottom` and `Left ≤ Right`), with the root in the map,
`BoxMarkChildren` from depth `0` returns, and every cell of the closed
rectangle of the root has a deepest node `N` that holds it (a node at depth `e`
none of whose children holds the cell; no node that holds the cell is deeper)
and shows what `N` draws there: `+` at a corner of `N`, `|` on a vertical edge,
`-` on a horizontal edge, and the fill character of depth `e` elsewhere.  So
what a child draws is never overwritten by its parent or by a sibling. -/
theorem BoxMarkChildren_deepest (H : Heap) (Map : MapT) (root : BoxT) (hn : Nested root)
    (hb : InBounds Map root) :
    ∃ G, BoxMarkChildren H Map root 0 = .ok G ∧
      ∀ r k, root.Cell r k → ∃ N e, Deepest root 0 r k N e ∧
        (∀ M e', NodeAt root 0 M e' → M.Cell r k → e' ≤ e) ∧
        G.tile Map r k = N.mark e r k := by
  obtain ⟨G, g1, -, g3⟩ := BoxMarkChildren_renderOn (Nested_allIn hn hb) H 0
  refine ⟨G, g1, fun r k hc => ?_⟩
  obtain ⟨N, e, hN⟩ := Deepest_exists hn 0 r k hc
  refine ⟨N, e, hN, Deepest_max hN hn, ?_⟩
  unfold Heap.tile
  rw [g3, if_pos rfl]
  exact renderOn_deepest hN hn _

/-- C11 on a zero-filled 5x5 map, for the box `(0,0,4,4)` with the child
`(1,1,3,3)`. -/
theorem BoxMarkChildren_deepest_witness :
    ∃ G, BoxMarkChildren (CreateMap ⟨0, fun _ _ _ => '#'⟩ 5 5).1
        (CreateMap ⟨0, fun _ _ _ => '#'⟩ 5 5).2 ⟨0, 0, 4, 4, [BoxCreate 1 1 3 3]⟩ 0 = .ok G ∧
      ∀ r k, BoxT.Cell ⟨0, 0, 4, 4, [BoxCreate 1 1 3 3]⟩ r k →
        ∃ N e, Deepest ⟨0, 0, 4, 4, [BoxCreate 1 1 3 3]⟩ 0 r k N e ∧
          (∀ M e', NodeAt ⟨0, 0, 4, 4, [BoxCreate 1 1 3 3]⟩ 0 M e' → M.Cell r k → e' ≤ e) ∧
          G.tile (CreateMap ⟨0, fun _ _ _ => '#'⟩ 5 5).2 r k = N.mark e r k :=
  BoxMarkChildren_deepest (CreateMap ⟨0, fun _ _ _ => '#'⟩ 5 5).1
    (CreateMap ⟨0, fun _ _ _ => '#'⟩ 5 5).2 ⟨0, 0, 4, 4, [BoxCreate 1 1 3 3]⟩
    (Nested.mk 0 0 4 4 [BoxCreate 1 1 3 3] (by decide) (by decide) (by decide)
      (List.pairwise_singleton _ _)
      (fun c hc => by
        rw [List.mem_singleton] at hc
        subst hc
        exact Nested.mk 1 1 3 3 [] (by decide) (by decide) (fun c hc => by cases hc)
          List.Pairwise.nil (fun c hc => by cases hc)))
    (by decide)
/-! ## The assertion of `BoxFindChildren` -/

/-- A counted loop stops with a fault only if a round of its body does. -/
theorem forLoop_ne {σ : Type} (Start Stop : Nat) (s : σ) (Body : Nat → σ → Except Fault σ)
    (e : Fault) (h : ∀ i t, Start ≤ i → i < Stop → Body i t ≠ .error e) :
    forLoop Start Stop s Body ≠ .error e := by
  unfold forLoop
  have key : ∀ n I t, I + n ≤ Start + (Stop - Start) → Start ≤ I →
      forLoop.go Body n I t ≠ .error e := by
    intro n
    induction n with
    | zero => intro I t _ _ hc; cases hc
    | succ n ih =>
      intro I t h1 h2
      simp only [forLoop.go]
      cases hb : Body I t with
      | error e' =>
        intro hc
        injection hc with hc
        subst hc
        exact h I t h2 (by omega) hb
      | ok u => exact ih (I + 1) u (by omega) (by omega)
  exact key _ _ _ (Nat.le_refl _) (Nat.le_refl _)

theorem read_ne (H : Heap) (Map : MapT) (Row Col : Nat) :
    H.read Map Row Col ≠ .error .assertFailed := by
  unfold Heap.read
  split
  · intro hc; cases hc
  · intro hc; cases hc

theorem write_ne (H : Heap) (Map : MapT) (Row Col : Nat) (c : Char) :
    H.write Map Row Col c ≠ .error .assertFailed := by
  unfold Heap.write
  split
  · intro hc; cases hc
  · intro hc; cases hc

/-- The copy made by `CopyMap` has the size of its source. -/
theorem CopyMap_size {H G : Heap} {Map M : MapT} (h : CopyMap H Map = .ok (G, M)) :
    M.Height = Map.Height ∧ M.Width = Map.Width := by
  unfold CopyMap at h
  simp only at h
  split at h
  · cases h
  · injection h with h
    injection h with h1 h2
    rw [← h2]
    exact ⟨rfl, rfl⟩

theorem CopyMap_ne (H : Heap) (Map : MapT) : CopyMap H Map ≠ .error .assertFailed := by
  unfold CopyMap
  simp only
  split
  · rename_i e he
    intro hc
    injection hc with hc
    subst hc
    refine forLoop_ne _ _ _ _ _ ?_ he
    intro Row H1 _ _
    refine forLoop_ne _ _ _ _ _ ?_
    intro Col H2 _ _
    cases hr : H2.read Map Row Col with
    | error e' =>
      intro hc
      injection hc with hc
      subst hc
      exact read_ne _ _ _ _ hr
    | ok c => exact write_ne _ _ _ _ _
  · intro hc; cases hc

/-- The assertion in the loop body of `BoxFindChildren` holds at every cell of
the mark map, whatever the map holds. -/
theorem visit_ne (Recurse : Heap → BoxT → Except Fault (Heap × BoxT)) (MarkMap : MapT)
    (rec : Bool) {Row Col : Nat} (hr : Row < MarkMap.Height) (hc : Col < MarkMap.Width)
    (s : Heap × BoxT)
    (hR : ∀ G b r, Row < b → b < MarkMap.Height → r < MarkMap.Width →
      Recurse G (BoxCreate Row Col b r) ≠ .error .assertFailed) :
    BoxFindChildren.visit Recurse MarkMap rec Row Col s ≠ .error .assertFailed := by
  obtain ⟨B', f1, fcase⟩ := FindBoxAt_spec s.1 MarkMap hr hc
  unfold BoxFindChildren.visit
  simp only [f1]
  rcases fcase with ⟨b, r, ht, eB⟩ | ⟨eB, -⟩
  · obtain ⟨t1, t2, t3, t4, -⟩ := ht
    have hz : BoxIsZeroSized B' = false := by
      rw [eB]
      simp only [BoxIsZeroSized, BoxCreate, Bool.or_eq_false_iff, beq_eq_false_iff_ne, ne_eq]
      omega
    obtain ⟨G1, m1, -, -⟩ := MapReplaceRectangle_spec s.1 MarkMap '#' Row Col b r t1 t2
    have hB'1 : B'.Top = Row := by rw [eB]; rfl
    have hB'2 : B'.Left = Col := by rw [eB]; rfl
    have hB'3 : B'.Bottom = b := by rw [eB]; rfl
    have hB'4 : B'.Right = r := by rw [eB]; rfl
    simp only [hz, hB'1, hB'2, hB'3, hB'4, m1, Bool.false_eq_true, not_false_eq_true, if_true,
      and_self, not_true_eq_false, if_false]
    cases hrec : rec with
    | true =>
      simp only [if_true]
      rw [eB]
      cases hrc : Recurse G1 (BoxCreate Row Col b r) with
      | error e' =>
        intro hcon
        injection hcon with hcon
        subst hcon
        exact hR G1 b r t3 t1 t2 hrc
      | ok p => intro hcon; cases hcon
    | false =>
      simp only [Bool.false_eq_true, if_false]
      intro hcon
      cases hcon
  · have hz : BoxIsZeroSized B' = true := by rw [eB]; rfl
    simp only [hz, not_true_eq_false, if_false]
    intro hcon
    cases hcon

/-- Whatever the bound on the recursion, `BoxFindChildren` does not stop at its
assertion. -/
theorem BoxFindChildren_ne : ∀ (fuel : Nat) (H : Heap) (Map : MapT) (Box : BoxT) (rec : Bool),
    Box.Bottom ≤ Map.Height → Box.Right ≤ Map.Width →
    BoxFindChildren fuel H Map Box rec ≠ .error .assertFailed := by
  intro fuel
  induction fuel with
  | zero =>
    intro H Map Box rec _ _ hc
    rw [BoxFindChildren] at hc
    cases hc
  | succ fuel ih =>
    intro H Map Box rec hB hR
    rw [BoxFindChildren]
    cases hcm : CopyMap H Map with
    | error e' =>
      simp only
      intro hc
      injection hc with hc
      subst hc
      exact CopyMap_ne H Map hcm
    | ok p =>
      obtain ⟨H0, MarkMap⟩ := p
      obtain ⟨z1, z2⟩ := CopyMap_size hcm
      simp only
      refine forLoop_ne _ _ _ _ _ ?_
      intro Row s1 h1 h2
      refine forLoop_ne _ _ _ _ _ ?_
      intro Col s2 h3 h4
      refine visit_ne _ MarkMap rec (by omega) (by omega) s2 ?_
      intro G b r g1 g2 g3
      exact ih G Map (BoxCreate Row Col b r) true (by simp only [BoxCreate]; omega)
        (by simp only [BoxCreate]; omega)

/-- C15: from an in-bounds cell `FindBoxAt` returns, and a box it reports as
found (a result that is not zero-sized) starts at the given cell, has `+` at
its top-right cell, and passes `BoxIsValid`.  So the assertion in
`BoxFindChildren` holds each time it is reached: for a box whose interior lies
in the map the call does not stop at the assertion, whatever the grid holds and
however deep the recursion goes. -/
theorem FindBoxAt_found (H : Heap) (Map : MapT) (top left : Nat) (hT : top < Map.Height)
    (hL : left < Map.Width) :
    (∃ B, FindBoxAt H Map top left = .ok B ∧
      (BoxIsZeroSized B = false → B.Top = top ∧ B.Left = left ∧
        H.tile Map top B.Right = '+' ∧ BoxIsValid H Map B = .ok true)) ∧
    ∀ (fuel : Nat) (G : Heap) (Box : BoxT) (rec : Bool), InBounds Map Box →
      BoxFindChildren fuel G Map Box rec ≠ .error .assertFailed := by
  refine ⟨?_, fun fuel G Box rec hb =>
    BoxFindChildren_ne fuel G Map Box rec (Nat.le_of_lt hb.2.1) (Nat.le_of_lt hb.2.2.2)⟩
  obtain ⟨B, f1, fcase⟩ := FindBoxAt_spec H Map hT hL
  refine ⟨B, f1, fun hz => ?_⟩
  rcases fcase with ⟨b, r, ht, eB⟩ | ⟨eB, -⟩
  · subst eB
    obtain ⟨t1, t2, t3, t4, t5, t6⟩ := ht
    refine ⟨rfl, rfl, t5, ?_⟩
    exact valid_of_Drawn (show InBounds Map (BoxCreate top left b r) from ⟨hT, t1, hL, t2⟩) t6
  · subst eB
    cases hz

/-- C15 on the 3x3 grid `+-+ / | | / +-+`, from the cell `(0, 0)`. -/
theorem FindBoxAt_found_witness :
    (∃ B, FindBoxAt (heapOfRows ["+-+".toList, "| |".toList, "+-+".toList])
        (mapOfRows ["+-+".toList, "| |".toList, "+-+".toList]) 0 0 = .ok B ∧
      (BoxIsZeroSized B = false → B.Top = 0 ∧ B.Left = 0 ∧
        (heapOfRows ["+-+".toList, "| |".toList, "+-+".toList]).tile
          (mapOfRows ["+-+".toList, "| |".toList, "+-+".toList]) 0 B.Right = '+' ∧
        BoxIsValid (heapOfRows ["+-+".toList, "| |".toList, "+-+".toList])
          (mapOfRows ["+-+".toList, "| |".toList, "+-+".toList]) B = .ok true)) ∧
    ∀ (fuel : Nat) (G : Heap) (Box : BoxT) (rec : Bool),
      InBounds (mapOfRows ["+-+".toList, "| |".toList, "+-+".toList]) Box →
      BoxFindChildren fuel G (mapOfRows ["+-+".toList, "| |".toList, "+-+".toList]) Box rec ≠
        .error .assertFailed :=
  FindBoxAt_found (heapOfRows ["+-+".toList, "| |".toList, "+-+".toList])
    (mapOfRows ["+-+".toList, "| |".toList, "+-+".toList]) 0 0 (by decide) (by decide)

/-! ## Scanning, printing and running on given grids -/

theorem Scan_skip_ne {f : Nat → Nat → Char} {h w : Nat} {rec : Bool} {T L B R i j : Nat}
    {kids : List BoxT} (hs : Scan f h w rec T L B R i j kids) (h1 : i < B) (h2 : L < j)
    (h3 : j < R) (hne : stamped f kids i j ≠ '+') : Scan f h w rec T L B R i (j + 1) kids :=
  Scan.skip hs h1 h2 h3 (fun _ _ ht => hne ht.2.2.2.2.2.2.1.1)

/-- A run of cells of one row, none of which holds `+` on the stamped grid, is
skipped. -/
theorem Scan_skip_run {f : Nat → Nat → Char} {h w : Nat} {rec : Bool} {T L B R i j : Nat}
    {kids : List BoxT} (hs : Scan f h w rec T L B R i j kids) (h1 : i < B) (h2 : L < j) :
    ∀ n, j + n ≤ R → (∀ m, m < n → stamped f kids i (j + m) ≠ '+') →
      Scan f h w rec T L B R i (j + n) kids := by
  intro n
  induction n with
  | zero => intro _ _; exact hs
  | succ n ih =>
    intro hn hne
    have hs' : Scan f h w rec T L B R i (j + n) kids :=
      ih (by omega) (fun m hm => hne m (by omega))
    have hn1 : L < j + n := by omega
    have hn2 : j + n < R := by omega
    exact Scan_skip_ne hs' h1 hn1 hn2 (hne n (by omega))

theorem PrintMap_row_full (H : Heap) (Map : MapT) (r : Nat)
    (hgood : ∀ k, k < Map.Width →
      H.Cells Map.Tiles r k ≠ Char.ofNat 0 ∧ H.Cells Map.Tiles r k ≠ '%')
    (hpad : H.Cells Map.Tiles r Map.Width = Char.ofNat 0) :
    ∀ n col, col + n = Map.Width + 1 → col ≤ Map.Width →
      PrintMap.row H Map r n col =
        some ((List.range' col (Map.Width - col)).map (fun k => H.Cells Map.Tiles r k)) := by
  intro n
  induction n with
  | zero => intro col h1 h2; omega
  | succ n ih =>
    intro col h1 h2
    rw [PrintMap.row]
    by_cases hc : col = Map.Width
    · subst hc
      rw [if_pos hpad]
      simp
    · have hlt : col < Map.Width := by omega
      obtain ⟨g1, g2⟩ := hgood col hlt
      rw [if_neg g1, if_neg g2, ih (col + 1) (by omega) (by omega)]
      have e : Map.Width - col = (Map.Width - (col + 1)) + 1 := by omega
      rw [e, List.range'_succ]
      simp

/-- When every cell of the map holds a character other than NUL and `%` and the
terminator byte of every row is NUL, `PrintMap` prints every row at its full
width. -/
theorem PrintMap_full (H : Heap) (Map : MapT)
    (hgood : ∀ r k, r < Map.Height → k < Map.Width →
      H.Cells Map.Tiles r k ≠ Char.ofNat 0 ∧ H.Cells Map.Tiles r k ≠ '%')
    (hpad : ∀ r, r < Map.Height → H.Cells Map.Tiles r Map.Width = Char.ofNat 0) :
    PrintMap H Map = some (rowsOfMap H Map) := by
  have key : ∀ n r0, r0 + n = Map.Height →
      PrintMap.rows H Map n r0 = some ((List.range' r0 n).map (fun r =>
        (List.range' 0 Map.Width).map (fun k => H.Cells Map.Tiles r k))) := by
    intro n
    induction n with
    | zero => intro r0 _; rw [PrintMap.rows]; simp
    | succ n ih =>
      intro r0 h1
      rw [PrintMap.rows, PrintMap_row_full H Map r0 (fun k hk => hgood r0 k (by omega) hk)
        (hpad r0 (by omega)) (Map.Width + 1) 0 (by omega) (Nat.zero_le _)]
      simp only [Nat.sub_zero]
      rw [ih (r0 + 1) (by omega), List.range'_succ]
      simp
  unfold PrintMap rowsOfMap
  rw [key Map.Height 0 (by omega), List.range_eq_range', List.range_eq_range']

/-- The run of a map whose root box is valid, from its three steps. -/
theorem Run_steps {fuel : Nat} {H : Heap} {Map : MapT} {G1 G2 : Heap} {R : BoxT}
    (hv : BoxIsValid H Map (BoxCreate 0 0 (uintPred Map.Height) (uintPred Map.Width)) = .ok true)
    (hs : BoxFindChildren fuel H Map
      (BoxCreate 0 0 (uintPred Map.Height) (uintPred Map.Width)) true = .ok (G1, R))
    (hm : BoxMarkChildren (CreateMap G1 Map.Height Map.Width).1
      (CreateMap G1 Map.Height Map.Width).2 R 0 = .ok G2) :
    Run fuel H Map = .ok (some (G2, (CreateMap G1 Map.Height Map.Width).2)) := by
  unfold Run
  rw [hv, hs]
  simp only [Except.bind, if_true]
  rw [hm]

/-- The run of a map whose root box is not valid stops after the check. -/
theorem Run_invalid {fuel : Nat} {H : Heap} {Map : MapT}
    (hv : BoxIsValid H Map (BoxCreate 0 0 (uintPred Map.Height) (uintPred Map.Width)) = .ok false) :
    Run fuel H Map = .ok none := by
  unfold Run
  rw [hv]
  rfl

/-- The function `Run` on an allocated map whose root box passes `BoxIsValid`,
with half the smaller side of the map as the bound on the recursion: the
children of the root are those of the scan, the tree is rendered on a new
zero-filled map, and this map is what `Run` hands to `PrintMap`. -/
theorem Run_ok (fuel : Nat) (H : Heap) (Map : MapT) (ha : Map.Tiles < H.Next)
    (hH : Map.Height < 4294967296) (hW : Map.Width < 4294967296)
    (hv : BoxIsValid H Map (BoxCreate 0 0 (Map.Height - 1) (Map.Width - 1)) = .ok true)
    (hf : min Map.Height Map.Width / 2 ≤ fuel) :
    ∃ G1 kids G2, BoxFindChildren fuel H Map (BoxCreate 0 0 (Map.Height - 1) (Map.Width - 1))
        true = .ok (G1, ⟨0, 0, Map.Height - 1, Map.Width - 1, kids⟩) ∧
      Scan (H.tile Map) Map.Height Map.Width true 0 0 (Map.Height - 1) (Map.Width - 1)
        (0 + 1 + (Map.Height - 1 - (0 + 1))) (0 + 1) kids ∧
      WFTree ⟨0, 0, Map.Height - 1, Map.Width - 1, kids⟩ ∧
      BoxMarkChildren (CreateMap G1 Map.Height Map.Width).1 (CreateMap G1 Map.Height Map.Width).2
        ⟨0, 0, Map.Height - 1, Map.Width - 1, kids⟩ 0 = .ok G2 ∧
      (∀ r k, G2.Cells G1.Next r k = renderOn (fun _ _ => Char.ofNat 0)
        ⟨0, 0, Map.Height - 1, Map.Width - 1, kids⟩ 0 r k) ∧
      Run fuel H Map = .ok (some (G2, (CreateMap G1 Map.Height Map.Width).2)) := by
  have hb := valid_inBounds hv
  have hd : DrawnOn (H.tile Map) (BoxCreate 0 0 (Map.Height - 1) (Map.Width - 1)) :=
    Drawn_of_valid hb hv
  obtain ⟨hb1, hb2, hb3, hb4⟩ := hb
  simp only [BoxCreate] at hb1 hb2 hb3 hb4
  have hz := hd.1
  simp only [BoxCreate] at hz
  have hm : min Map.Height Map.Width = Map.Height ∨ min Map.Height Map.Width = Map.Width := by
    rcases Nat.le_total Map.Height Map.Width with h | h
    · exact Or.inl (Nat.min_eq_left h)
    · exact Or.inr (Nat.min_eq_right h)
  obtain ⟨G1, kids, s1, -, -, s4⟩ := BoxFindChildren_tight fuel H Map
    (BoxCreate 0 0 (Map.Height - 1) (Map.Width - 1)) true ha
    (by simp only [BoxCreate]; omega) (by simp only [BoxCreate]; omega)
    (by simp only [BoxCreate]; omega) (by simp only [BoxCreate]; omega) hd
    (by simp only [BoxCreate]; omega)
  simp only [BoxCreate, List.nil_append] at s1 s4
  have hwf : WFTree ⟨0, 0, Map.Height - 1, Map.Width - 1, kids⟩ :=
    Scan_wf_root s4 hd (by omega) (by omega)
  have hall : AllInBounds (CreateMap G1 Map.Height Map.Width).2
      ⟨0, 0, Map.Height - 1, Map.Width - 1, kids⟩ :=
    Nested_allIn (WFTree_nested hwf) ⟨hb1, hb2, hb3, hb4⟩
  obtain ⟨G2, m1, -, m3, -⟩ := BoxMarkChildren_fresh G1 Map.Height Map.Width hall 0
  refine ⟨G1, kids, G2, s1, s4, hwf, m1, m3, ?_⟩
  have e1 : uintPred Map.Height = Map.Height - 1 := by unfold uintPred; omega
  have e2 : uintPred Map.Width = Map.Width - 1 := by unfold uintPred; omega
  have s1' : BoxFindChildren fuel H Map (BoxCreate 0 0 (Map.Height - 1) (Map.Width - 1)) true =
      .ok (G1, ⟨0, 0, Map.Height - 1, Map.Width - 1, kids⟩) := s1
  rw [← e1, ← e2] at hv s1' m1
  exact Run_steps hv s1' m1
/-! ## The rendered map holds no NUL -/

theorem DepthChar_printable (d : Nat) : Printable (DepthChar d) := by
  unfold DepthChar
  split <;> decide

theorem Printable_ne_nul {c : Char} (h : Printable c) : c ≠ Char.ofNat 0 ∧ c ≠ '%' := by
  rcases h with h | h | h | h | h | h | h <;> subst h <;> exact ⟨by decide, by decide⟩

/-- A cell after one box has been drawn is as before or holds a character of
the rendering. -/
theorem drawBox_printable (f : Nat → Nat → Char) (N : BoxT) (d r k : Nat) :
    drawBox f N d r k = f r k ∨ Printable (drawBox f N d r k) := by
  unfold drawBox
  by_cases h1 : (N.Top < r ∧ r < N.Bottom) ∧ (N.Left < k ∧ k < N.Right)
  · rw [if_pos h1]; exact Or.inr (DepthChar_printable d)
  rw [if_neg h1]
  by_cases h2 : (r = N.Top ∨ r = N.Bottom) ∧ (N.Left < k ∧ k < N.Right)
  · rw [if_pos h2]; exact Or.inr (by decide)
  rw [if_neg h2]
  by_cases h3 : (N.Top < r ∧ r < N.Bottom) ∧ (k = N.Left ∨ k = N.Right)
  · rw [if_pos h3]; exact Or.inr (by decide)
  rw [if_neg h3]
  by_cases h4 : (r = N.Top ∨ r = N.Bottom) ∧ (k = N.Left ∨ k = N.Right)
  · rw [if_pos h4]; exact Or.inr (by decide)
  rw [if_neg h4]
  exact Or.inl rfl

/-- A box in the map is drawn on cells of the map. -/
theorem drawBox_far (f : Nat → Nat → Char) {Map : MapT} {N : BoxT} (hb : InBounds Map N)
    (d : Nat) {r k : Nat} (hfar : Map.Height ≤ r ∨ Map.Width ≤ k) :
    drawBox f N d r k = f r k := by
  obtain ⟨b1, b2, b3, b4⟩ := hb
  unfold drawBox
  rw [if_neg (by omega), if_neg (by omega), if_neg (by omega), if_neg (by omega)]

/-- A cell after a tree has been rendered is as before or holds a character of
the rendering; a cell outside the map is as before. -/
theorem renderOn_printable {Map : MapT} {N : BoxT} (hin : AllInBounds Map N) :
    ∀ (f : Nat → Nat → Char) (d r k : Nat),
      (renderOn f N d r k = f r k ∨ Printable (renderOn f N d r k)) ∧
      (Map.Height ≤ r ∨ Map.Width ≤ k → renderOn f N d r k = f r k) := by
  induction hin with
  | mk T L B R kids hT hB hL hR _ ih =>
    intro f d r k
    have hlist : ∀ (cs : List BoxT), (∀ c ∈ cs, c ∈ kids) → ∀ (g : Nat → Nat → Char),
        (renderList g cs (d + 1) r k = g r k ∨ Printable (renderList g cs (d + 1) r k)) ∧
        (Map.Height ≤ r ∨ Map.Width ≤ k → renderList g cs (d + 1) r k = g r k) := by
      intro cs
      induction cs with
      | nil => intro _ g; rw [renderList_nil]; exact ⟨Or.inl rfl, fun _ => rfl⟩
      | cons c cs ihcs =>
        intro hsub g
        rw [renderList_cons]
        obtain ⟨a1, a2⟩ := ihcs (fun x hx => hsub x (List.mem_cons_of_mem _ hx))
          (renderOn g c (d + 1))
        obtain ⟨b1, b2⟩ := ih c (hsub c (List.mem_cons_self _ _)) g (d + 1) r k
        refine ⟨?_, fun hfar => (a2 hfar).trans (b2 hfar)⟩
        rcases a1 with a1 | a1
        · rw [a1]; exact b1
        · exact Or.inr a1
    rw [renderOn_eq]
    obtain ⟨a1, a2⟩ := hlist kids (fun _ h => h) (drawBox f ⟨T, L, B, R, kids⟩ d)
    refine ⟨?_, fun hfar => (a2 hfar).trans (drawBox_far f ⟨hT, hB, hL, hR⟩ d hfar)⟩
    rcases a1 with a1 | a1
    · rw [a1]; exact drawBox_printable f _ d r k
    · exact Or.inr a1

/-- Every cell of the closed rectangle of the root holds a character of the
rendering once the tree is rendered. -/
theorem renderOn_root_printable {Map : MapT} {N : BoxT} (hin : AllInBounds Map N)
    (f : Nat → Nat → Char) (d : Nat) {r k : Nat} (hc : N.Cell r k) :
    Printable (renderOn f N d r k) := by
  cases hin with
  | mk T L B R kids hT hB hL hR hk =>
    have hlist : ∀ (cs : List BoxT), (∀ c ∈ cs, c ∈ kids) → ∀ (g : Nat → Nat → Char),
        Printable (g r k) → Printable (renderList g cs (d + 1) r k) := by
      intro cs
      induction cs with
      | nil => intro _ g hg; rw [renderList_nil]; exact hg
      | cons c cs ihcs =>
        intro hsub g hg
        rw [renderList_cons]
        refine ihcs (fun x hx => hsub x (List.mem_cons_of_mem _ hx)) _ ?_
        rcases (renderOn_printable (hk c (hsub c (List.mem_cons_self _ _))) g (d + 1) r k).1
          with a | a
        · rw [a]; exact hg
        · exact a
    rw [renderOn_eq]
    refine hlist kids (fun _ h => h) _ ?_
    rw [drawBox_mark f _ d hc]
    unfold BoxT.mark
    split_ifs
    · decide
    · decide
    · decide
    · exact DepthChar_printable d

/-- C20: for `h ≥ 2` and `w ≥ 2`, on a map that `CreateMap` has just made and a
tree whose root is the whole-grid rectangle and whose nodes all lie in the map,
`BoxMarkChildren` from depth `0` returns; every cell of the map then holds one
of `+ | - # = .` or the space, none holds the NUL that `CreateMap` filled in,
the terminator byte of every row still does, and `PrintMap` prints the `h` rows
of the map, each at its full width `w`. -/
theorem BoxMarkChildren_no_nul (H : Heap) (h w : Nat) (root : BoxT) (hh : 2 ≤ h) (hw : 2 ≤ w)
    (hroot : root.Top = 0 ∧ root.Left = 0 ∧ root.Bottom = h - 1 ∧ root.Right = w - 1)
    (hin : AllInBounds (CreateMap H h w).2 root) :
    ∃ G, BoxMarkChildren (CreateMap H h w).1 (CreateMap H h w).2 root 0 = .ok G ∧
      (∀ r k, r < h → k < w → Printable (G.tile (CreateMap H h w).2 r k) ∧
        G.tile (CreateMap H h w).2 r k ≠ Char.ofNat 0) ∧
      (∀ r, r < h → G.tile (CreateMap H h w).2 r w = Char.ofNat 0) ∧
      PrintMap G (CreateMap H h w).2 = some (rowsOfMap G (CreateMap H h w).2) ∧
      (rowsOfMap G (CreateMap H h w).2).length = h ∧
      ∀ row ∈ rowsOfMap G (CreateMap H h w).2, row.length = w := by
  obtain ⟨G, g1, -, g3, -⟩ := BoxMarkChildren_fresh H h w hin 0
  obtain ⟨r1, r2, r3, r4⟩ := hroot
  have hcell : ∀ r k, r < h → k < w →
      Printable (G.tile (CreateMap H h w).2 r k) := by
    intro r k hr hk
    have e : G.tile (CreateMap H h w).2 r k = G.Cells H.Next r k := rfl
    rw [e, g3]
    refine renderOn_root_printable hin _ 0 ?_
    unfold BoxT.Cell
    omega
  have hpad : ∀ r, r < h → G.tile (CreateMap H h w).2 r w = Char.ofNat 0 := by
    intro r _
    have e : G.tile (CreateMap H h w).2 r w = G.Cells H.Next r w := rfl
    rw [e, g3]
    exact (renderOn_printable hin _ 0 r w).2 (Or.inr (Nat.le_refl _))
  refine ⟨G, g1, fun r k hr hk => ⟨hcell r k hr hk, (Printable_ne_nul (hcell r k hr hk)).1⟩,
    hpad, ?_, ?_, ?_⟩
  · exact PrintMap_full G (CreateMap H h w).2
      (fun r k hr hk => Printable_ne_nul (hcell r k hr hk)) hpad
  · unfold rowsOfMap
    rw [List.length_map, List.length_range]
    rfl
  · intro row hrow
    unfold rowsOfMap at hrow
    rw [List.mem_map] at hrow
    obtain ⟨r, -, e⟩ := hrow
    rw [← e, List.length_map, List.length_range]
    rfl

/-- C20 on a 5x5 map, for the box `(0,0,4,4)` with the child `(1,1,3,3)`. -/
theorem BoxMarkChildren_no_nul_witness :
    ∃ G, BoxMarkChildren (CreateMap ⟨0, fun _ _ _ => '#'⟩ 5 5).1
        (CreateMap ⟨0, fun _ _ _ => '#'⟩ 5 5).2 ⟨0, 0, 4, 4, [BoxCreate 1 1 3 3]⟩ 0 = .ok G ∧
      (∀ r k, r < 5 → k < 5 → Printable (G.tile (CreateMap ⟨0, fun _ _ _ => '#'⟩ 5 5).2 r k) ∧
        G.tile (CreateMap ⟨0, fun _ _ _ => '#'⟩ 5 5).2 r k ≠ Char.ofNat 0) ∧
      (∀ r, r < 5 → G.tile (CreateMap ⟨0, fun _ _ _ => '#'⟩ 5 5).2 r 5 = Char.ofNat 0) ∧
      PrintMap G (CreateMap ⟨0, fun _ _ _ => '#'⟩ 5 5).2 =
        some (rowsOfMap G (CreateMap ⟨0, fun _ _ _ => '#'⟩ 5 5).2) ∧
      (rowsOfMap G (CreateMap ⟨0, fun _ _ _ => '#'⟩ 5 5).2).length = 5 ∧
      ∀ row ∈ rowsOfMap G (CreateMap ⟨0, fun _ _ _ => '#'⟩ 5 5).2, row.length = 5 :=
  BoxMarkChildren_no_nul ⟨0, fun _ _ _ => '#'⟩ 5 5 ⟨0, 0, 4, 4, [BoxCreate 1 1 3 3]⟩
    (by decide) (by decide) ⟨rfl, rfl, rfl, rfl⟩
    (AllInBounds.mk 0 0 4 4 [BoxCreate 1 1 3 3] (by decide) (by decide) (by decide) (by decide)
      (fun c hc => by
        rw [List.mem_singleton] at hc
        subst hc
        exact AllInBounds.mk 1 1 3 3 [] (by decide) (by decide) (by decide) (by decide)
          (fun c hc => by cases hc)))
/-! ## The two scenarios -/

/-- The scan of the 3x3 grid `+-+ / | | / +-+` finds nothing. -/
theorem Scan_scenario1 :
    Scan ((heapOfRows ["+-+".toList, "| |".toList, "+-+".toList]).tile
        (mapOfRows ["+-+".toList, "| |".toList, "+-+".toList])) 3 3 true 0 0 2 2 2 1 [] := by
  have s0 : Scan ((heapOfRows ["+-+".toList, "| |".toList, "+-+".toList]).tile
      (mapOfRows ["+-+".toList, "| |".toList, "+-+".toList])) 3 3 true 0 0 2 2 1 1 [] :=
    Scan.start _ _ _ _ _
  have s1 := Scan_skip_run s0 (by decide) (by decide) 1 (by decide) (by decide)
  exact Scan.row s1 (by decide)

/-- The scan of the 5x9 grid of the second scenario finds the two boxes of row
`1`, the left one first, and nothing inside them. -/
theorem Scan_scenario2 :
    Scan ((heapOfRows ["+-------+".toList, "|+-+ +-+|".toList, "|| | | ||".toList,
          "|+-+ +-+|".toList, "+-------+".toList]).tile
        (mapOfRows ["+-------+".toList, "|+-+ +-+|".toList, "|| | | ||".toList,
          "|+-+ +-+|".toList, "+-------+".toList])) 5 9 true 0 0 4 8 4 1
      [BoxCreate 1 1 3 3, BoxCreate 1 5 3 7] := by
  have c1 : Scan ((heapOfRows ["+-------+".toList, "|+-+ +-+|".toList, "|| | | ||".toList,
          "|+-+ +-+|".toList, "+-------+".toList]).tile
        (mapOfRows ["+-------+".toList, "|+-+ +-+|".toList, "|| | | ||".toList,
          "|+-+ +-+|".toList, "+-------+".toList])) 5 9 true 1 1 3 3 3 2 [] := by
    have s0 : Scan ((heapOfRows ["+-------+".toList, "|+-+ +-+|".toList, "|| | | ||".toList,
          "|+-+ +-+|".toList, "+-------+".toList]).tile
        (mapOfRows ["+-------+".toList, "|+-+ +-+|".toList, "|| | | ||".toList,
          "|+-+ +-+|".toList, "+-------+".toList])) 5 9 true 1 1 3 3 2 2 [] :=
      Scan.start _ _ _ _ _
    have s1 := Scan_skip_run s0 (by decide) (by decide) 1 (by decide) (by decide)
    exact Scan.row s1 (by decide)
  have c2 : Scan ((heapOfRows ["+-------+".toList, "|+-+ +-+|".toList, "|| | | ||".toList,
          "|+-+ +-+|".toList, "+-------+".toList]).tile
        (mapOfRows ["+-------+".toList, "|+-+ +-+|".toList, "|| | | ||".toList,
          "|+-+ +-+|".toList, "+-------+".toList])) 5 9 true 1 5 3 7 3 6 [] := by
    have s0 : Scan ((heapOfRows ["+-------+".toList, "|+-+ +-+|".toList, "|| | | ||".toList,
          "|+-+ +-+|".toList, "+-------+".toList]).tile
        (mapOfRows ["+-------+".toList, "|+-+ +-+|".toList, "|| | | ||".toList,
          "|+-+ +-+|".toList, "+-------+".toList])) 5 9 true 1 5 3 7 2 6 [] :=
      Scan.start _ _ _ _ _
    have s1 := Scan_skip_run s0 (by decide) (by decide) 1 (by decide) (by decide)
    exact Scan.row s1 (by decide)
  have s0 : Scan ((heapOfRows ["+-------+".toList, "|+-+ +-+|".toList, "|| | | ||".toList,
          "|+-+ +-+|".toList, "+-------+".toList]).tile
        (mapOfRows ["+-------+".toList, "|+-+ +-+|".toList, "|| | | ||".toList,
          "|+-+ +-+|".toList, "+-------+".toList])) 5 9 true 0 0 4 8 1 1 [] :=
    Scan.start _ _ _ _ _
  have s1 : Scan _ 5 9 true 0 0 4 8 1 2 ([] ++ [⟨1, 1, 3, 3, []⟩]) :=
    Scan.hit s0 (by decide) (by decide) (by decide) (by decide) (fun _ => c1) (fun h => by cases h)
  have s2 : Scan _ 5 9 true 0 0 4 8 1 5 ([] ++ [⟨1, 1, 3, 3, []⟩]) :=
    Scan_skip_run s1 (by decide) (by decide) 3 (by decide) (by decide)
  have s3 : Scan _ 5 9 true 0 0 4 8 1 6 (([] ++ [⟨1, 1, 3, 3, []⟩]) ++ [⟨1, 5, 3, 7, []⟩]) :=
    Scan.hit s2 (by decide) (by decide) (by decide) (by decide) (fun _ => c2) (fun h => by cases h)
  have s4 : Scan _ 5 9 true 0 0 4 8 1 8 (([] ++ [⟨1, 1, 3, 3, []⟩]) ++ [⟨1, 5, 3, 7, []⟩]) :=
    Scan_skip_run s3 (by decide) (by decide) 2 (by decide) (by decide)
  have s5 : Scan _ 5 9 true 0 0 4 8 2 1 (([] ++ [⟨1, 1, 3, 3, []⟩]) ++ [⟨1, 5, 3, 7, []⟩]) :=
    Scan.row s4 (by decide)
  have s6 : Scan _ 5 9 true 0 0 4 8 2 8 (([] ++ [⟨1, 1, 3, 3, []⟩]) ++ [⟨1, 5, 3, 7, []⟩]) :=
    Scan_skip_run s5 (by decide) (by decide) 7 (by decide) (by decide)
  have s7 : Scan _ 5 9 true 0 0 4 8 3 1 (([] ++ [⟨1, 1, 3, 3, []⟩]) ++ [⟨1, 5, 3, 7, []⟩]) :=
    Scan.row s6 (by decide)
  have s8 : Scan _ 5 9 true 0 0 4 8 3 8 (([] ++ [⟨1, 1, 3, 3, []⟩]) ++ [⟨1, 5, 3, 7, []⟩]) :=
    Scan_skip_run s7 (by decide) (by decide) 7 (by decide) (by decide)
  exact Scan.row s8 (by decide)

/-- The rows of a map whose cells are given by a function on cells. -/
theorem rowsOfMap_eq (G : Heap) (Map : MapT) (g : Nat → Nat → Char)
    (h : ∀ r k, G.Cells Map.Tiles r k = g r k) :
    rowsOfMap G Map = (List.range Map.Height).map (fun r =>
      (List.range Map.Width).map (fun k => g r k)) := by
  unfold rowsOfMap
  simp only [h]

/-- A map just made, on which a tree that covers it has been rendered, prints
as its rows. -/
theorem PrintMap_fresh (H : Heap) (h w : Nat) {N : BoxT}
    (hin : AllInBounds (CreateMap H h w).2 N) (hcov : ∀ r k, r < h → k < w → N.Cell r k)
    (d : Nat) {G : Heap}
    (hG : ∀ r k, G.Cells H.Next r k = renderOn (fun _ _ => Char.ofNat 0) N d r k) :
    PrintMap G (CreateMap H h w).2 = some (rowsOfMap G (CreateMap H h w).2) := by
  refine PrintMap_full G (CreateMap H h w).2 (fun r k hr hk => ?_) (fun r _ => ?_)
  · have e : G.Cells (CreateMap H h w).2.Tiles r k = G.Cells H.Next r k := rfl
    rw [e, hG]
    exact Printable_ne_nul (renderOn_root_printable hin _ d (hcov r k hr hk))
  · have e : G.Cells (CreateMap H h w).2.Tiles r (CreateMap H h w).2.Width =
        G.Cells H.Next r w := rfl
    rw [e, hG]
    exact (renderOn_printable hin _ d r w).2 (Or.inr (Nat.le_refl _))

/-- What `BoxMarkChildren` and `PrintMap` give for a tree that covers a map
just made: the rows of `renderOn`. -/
theorem render_fresh (H : Heap) (h w : Nat) {N : BoxT}
    (hin : AllInBounds (CreateMap H h w).2 N) (hcov : ∀ r k, r < h → k < w → N.Cell r k)
    (d : Nat) :
    ∃ G, BoxMarkChildren (CreateMap H h w).1 (CreateMap H h w).2 N d = .ok G ∧
      rowsOfMap G (CreateMap H h w).2 = (List.range h).map (fun r =>
        (List.range w).map (fun k => renderOn (fun _ _ => Char.ofNat 0) N d r k)) ∧
      PrintMap G (CreateMap H h w).2 = some ((List.range h).map (fun r =>
        (List.range w).map (fun k => renderOn (fun _ _ => Char.ofNat 0) N d r k))) := by
  obtain ⟨G, g1, -, g3, -⟩ := BoxMarkChildren_fresh H h w hin d
  have e := rowsOfMap_eq G (CreateMap H h w).2 _ g3
  refine ⟨G, g1, e, ?_⟩
  rw [PrintMap_fresh H h w hin hcov d g3, e]
  rfl

/-- C13: the first scenario.  On the 3x3 grid `+-+ / | | / +-+` the root box
`(0,0,2,2)` passes `BoxIsValid`; `BoxFindChildren` with the flag set returns it
without children (one invocation, no nested one); `BoxMarkChildren` at depth
`0` on a 3x3 map just made by `CreateMap` gives the rows `+-+ / |#| / +-+`,
and these are the lines `PrintMap` prints, also at the end of `Run`. -/
theorem scenario_single_box :
    BoxIsValid (heapOfRows ["+-+".toList, "| |".toList, "+-+".toList])
      (mapOfRows ["+-+".toList, "| |".toList, "+-+".toList]) (BoxCreate 0 0 2 2) = .ok true ∧
    (∃ G1, BoxFindChildren 1 (heapOfRows ["+-+".toList, "| |".toList, "+-+".toList])
      (mapOfRows ["+-+".toList, "| |".toList, "+-+".toList]) (BoxCreate 0 0 2 2) true =
        .ok (G1, BoxCreate 0 0 2 2)) ∧
    (∀ H : Heap, ∃ G2, BoxMarkChildren (CreateMap H 3 3).1 (CreateMap H 3 3).2
        (BoxCreate 0 0 2 2) 0 = .ok G2 ∧
      rowsOfMap G2 (CreateMap H 3 3).2 = ["+-+".toList, "|#|".toList, "+-+".toList] ∧
      PrintMap G2 (CreateMap H 3 3).2 = some ["+-+".toList, "|#|".toList, "+-+".toList]) ∧
    ∃ G2 M, Run 1 (heapOfRows ["+-+".toList, "| |".toList, "+-+".toList])
        (mapOfRows ["+-+".toList, "| |".toList, "+-+".toList]) = .ok (some (G2, M)) ∧
      PrintMap G2 M = some ["+-+".toList, "|#|".toList, "+-+".toList] := by
  have hin : ∀ H : Heap, AllInBounds (CreateMap H 3 3).2 (BoxCreate 0 0 2 2) := fun H =>
    AllInBounds.mk 0 0 2 2 [] (show 0 < 3 by decide) (show 2 < 3 by decide)
      (show 0 < 3 by decide) (show 2 < 3 by decide) (fun c hc => by cases hc)
  have hcov : ∀ r k, r < 3 → k < 3 → (BoxCreate 0 0 2 2).Cell r k := by
    intro r k hr hk
    unfold BoxT.Cell BoxCreate
    simp only
    omega
  have hrows : (List.range 3).map (fun r => (List.range 3).map (fun k =>
      renderOn (fun _ _ => Char.ofNat 0) (BoxCreate 0 0 2 2) 0 r k)) =
      ["+-+".toList, "|#|".toList, "+-+".toList] := by decide
  have hmark : ∀ H : Heap, ∃ G2, BoxMarkChildren (CreateMap H 3 3).1 (CreateMap H 3 3).2
        (BoxCreate 0 0 2 2) 0 = .ok G2 ∧
      rowsOfMap G2 (CreateMap H 3 3).2 = ["+-+".toList, "|#|".toList, "+-+".toList] ∧
      PrintMap G2 (CreateMap H 3 3).2 = some ["+-+".toList, "|#|".toList, "+-+".toList] := by
    intro H
    obtain ⟨G2, m1, m2, m3⟩ := render_fresh H 3 3 (hin H) hcov 0
    rw [hrows] at m2 m3
    exact ⟨G2, m1, m2, m3⟩
  obtain ⟨G1, kids, G2, s1, s2, -, m1, -, hrun⟩ := Run_ok 1
    (heapOfRows ["+-+".toList, "| |".toList, "+-+".toList])
    (mapOfRows ["+-+".toList, "| |".toList, "+-+".toList]) (by decide) (by decide) (by decide)
    (by decide) (by decide)
  have ek : kids = [] := Scan_unique s2 _ Scan_scenario1
  subst ek
  obtain ⟨G2', n1, -, n3⟩ := hmark G1
  have eG : G2 = G2' := by
    have := m1.symm.trans n1
    injection this
  subst eG
  exact ⟨by decide, ⟨G1, s1⟩, hmark, G2, _, hrun, n3⟩

/-- C14: the second scenario.  On the 5x9 grid
`+-------+ / |+-+ +-+| / || | | || / |+-+ +-+| / +-------+` the root box
`(0,0,4,8)` passes `BoxIsValid`; `BoxFindChildren` with the flag set returns it
with exactly two children, `(1,1,3,3)` and then `(1,5,3,7)`, each without
children; `BoxMarkChildren` at depth `0` on a 5x9 map just made by `CreateMap`
gives the rows `+-------+ / |+-+#+-+| / ||=|#|=|| / |+-+#+-+| / +-------+`,
and these are the lines `PrintMap` prints, also at the end of `Run`. -/
theorem scenario_two_children :
    BoxIsValid (heapOfRows ["+-------+".toList, "|+-+ +-+|".toList, "|| | | ||".toList,
        "|+-+ +-+|".toList, "+-------+".toList])
      (mapOfRows ["+-------+".toList, "|+-+ +-+|".toList, "|| | | ||".toList,
        "|+-+ +-+|".toList, "+-------+".toList]) (BoxCreate 0 0 4 8) = .ok true ∧
    (∃ G1, BoxFindChildren 2 (heapOfRows ["+-------+".toList, "|+-+ +-+|".toList,
        "|| | | ||".toList, "|+-+ +-+|".toList, "+-------+".toList])
      (mapOfRows ["+-------+".toList, "|+-+ +-+|".toList, "|| | | ||".toList,
        "|+-+ +-+|".toList, "+-------+".toList]) (BoxCreate 0 0 4 8) true =
        .ok (G1, ⟨0, 0, 4, 8, [BoxCreate 1 1 3 3, BoxCreate 1 5 3 7]⟩)) ∧
    (∀ H : Heap, ∃ G2, BoxMarkChildren (CreateMap H 5 9).1 (CreateMap H 5 9).2
        ⟨0, 0, 4, 8, [BoxCreate 1 1 3 3, BoxCreate 1 5 3 7]⟩ 0 = .ok G2 ∧
      rowsOfMap G2 (CreateMap H 5 9).2 = ["+-------+".toList, "|+-+#+-+|".toList,
        "||=|#|=||".toList, "|+-+#+-+|".toList, "+-------+".toList] ∧
      PrintMap G2 (CreateMap H 5 9).2 = some ["+-------+".toList, "|+-+#+-+|".toList,
        "||=|#|=||".toList, "|+-+#+-+|".toList, "+-------+".toList]) ∧
    ∃ G2 M, Run 2 (heapOfRows ["+-------+".toList, "|+-+ +-+|".toList, "|| | | ||".toList,
        "|+-+ +-+|".toList, "+-------+".toList])
        (mapOfRows ["+-------+".toList, "|+-+ +-+|".toList, "|| | | ||".toList,
        "|+-+ +-+|".toList, "+-------+".toList]) = .ok (some (G2, M)) ∧
      PrintMap G2 M = some ["+-------+".toList, "|+-+#+-+|".toList,
        "||=|#|=||".toList, "|+-+#+-+|".toList, "+-------+".toList] := by
  have hin : ∀ H : Heap, AllInBounds (CreateMap H 5 9).2
      ⟨0, 0, 4, 8, [BoxCreate 1 1 3 3, BoxCreate 1 5 3 7]⟩ := fun H =>
    AllInBounds.mk 0 0 4 8 _ (show 0 < 5 by decide) (show 4 < 5 by decide)
      (show 0 < 9 by decide) (show 8 < 9 by decide) (fun c hc => by
        rcases List.mem_cons.1 hc with hc | hc
        · subst hc
          exact AllInBounds.mk 1 1 3 3 [] (show 1 < 5 by decide) (show 3 < 5 by decide)
            (show 1 < 9 by decide) (show 3 < 9 by decide) (fun c hc => by cases hc)
        · rw [List.mem_singleton] at hc
          subst hc
          exact AllInBounds.mk 1 5 3 7 [] (show 1 < 5 by decide) (show 3 < 5 by decide)
            (show 5 < 9 by decide) (show 7 < 9 by decide) (fun c hc => by cases hc))
  have hcov : ∀ r k, r < 5 → k < 9 →
      BoxT.Cell ⟨0, 0, 4, 8, [BoxCreate 1 1 3 3, BoxCreate 1 5 3 7]⟩ r k := by
    intro r k hr hk
    unfold BoxT.Cell
    simp only
    omega
  have hrows : (List.range 5).map (fun r => (List.range 9).map (fun k =>
      renderOn (fun _ _ => Char.ofNat 0)
        ⟨0, 0, 4, 8, [BoxCreate 1 1 3 3, BoxCreate 1 5 3 7]⟩ 0 r k)) =
      ["+-------+".toList, "|+-+#+-+|".toList, "||=|#|=||".toList, "|+-+#+-+|".toList,
        "+-------+".toList] := by decide
  have hmark : ∀ H : Heap, ∃ G2, BoxMarkChildren (CreateMap H 5 9).1 (CreateMap H 5 9).2
        ⟨0, 0, 4, 8, [BoxCreate 1 1 3 3, BoxCreate 1 5 3 7]⟩ 0 = .ok G2 ∧
      rowsOfMap G2 (CreateMap H 5 9).2 = ["+-------+".toList, "|+-+#+-+|".toList,
        "||=|#|=||".toList, "|+-+#+-+|".toList, "+-------+".toList] ∧
      PrintMap G2 (CreateMap H 5 9).2 = some ["+-------+".toList, "|+-+#+-+|".toList,
        "||=|#|=||".toList, "|+-+#+-+|".toList, "+-------+".toList] := by
    intro H
    obtain ⟨G2, m1, m2, m3⟩ := render_fresh H 5 9 (hin H) hcov 0
    rw [hrows] at m2 m3
    exact ⟨G2, m1, m2, m3⟩
  obtain ⟨G1, kids, G2, s1, s2, -, m1, -, hrun⟩ := Run_ok 2
    (heapOfRows ["+-------+".toList, "|+-+ +-+|".toList, "|| | | ||".toList,
      "|+-+ +-+|".toList, "+-------+".toList])
    (mapOfRows ["+-------+".toList, "|+-+ +-+|".toList, "|| | | ||".toList,
      "|+-+ +-+|".toList, "+-------+".toList]) (by decide) (by decide) (by decide)
    (by decide) (by decide)
  have ek : kids = [BoxCreate 1 1 3 3, BoxCreate 1 5 3 7] := Scan_unique s2 _ Scan_scenario2
  subst ek
  obtain ⟨G2', n1, -, n3⟩ := hmark G1
  have eG : G2 = G2' := by
    have := m1.symm.trans n1
    injection this
  subst eG
  exact ⟨by decide, ⟨G1, s1⟩, hmark, G2, _, hrun, n3⟩
/-! ## The flag `Recursive`, and the nodes of the tree -/

theorem stamped_bare (f : Nat → Nat → Char) (kids : List BoxT) :
    stamped f (kids.map BoxT.bare) = stamped f kids := by
  funext r k
  unfold stamped
  have e : (∃ c ∈ kids.map BoxT.bare, c.Cell r k) ↔ ∃ c ∈ kids, c.Cell r k := by
    constructor
    · rintro ⟨c, hc, hcell⟩
      rw [List.mem_map] at hc
      obtain ⟨c', hc', rfl⟩ := hc
      exact ⟨c', hc', hcell⟩
    · rintro ⟨c, hc, hcell⟩
      exact ⟨c.bare, List.mem_map.2 ⟨c, hc, rfl⟩, hcell⟩
  by_cases h : ∃ c ∈ kids, c.Cell r k
  · rw [if_pos h, if_pos (e.2 h)]
  · rw [if_neg h, if_neg (fun h' => h (e.1 h'))]

/-- Without the flag the scan adds the same rectangles, without children. -/
theorem Scan_bare {f : Nat → Nat → Char} {h w : Nat} {rec : Bool} {T L B R i j : Nat}
    {kids : List BoxT} (hs : Scan f h w rec T L B R i j kids) :
    Scan f h w false T L B R i j (kids.map BoxT.bare) := by
  induction hs with
  | start rec T L B R => exact Scan.start _ _ _ _ _
  | skip _ h1 h2 h3 hno ih =>
    refine Scan.skip ih h1 h2 h3 ?_
    rw [stamped_bare]
    exact hno
  | @hit rec T L B R i j kids b r Ch _ h1 h2 h3 h4 _ _ ih _ =>
    rw [List.map_append]
    refine Scan.hit ih h1 h2 h3 ?_ (fun h => by cases h) (fun _ => rfl)
    rw [stamped_bare]
    exact h4
  | row _ h1 ih => exact Scan.row ih h1

/-- C17: for an in-bounds box of an allocated map, and with fuel for the
recursion, `BoxFindChildren` returns for both values of the flag, and the two
calls add the same rectangles in the same order: without the flag the
children are those of the call with the flag, each with its own children
removed, so every one of them is childless; with the flag each child `C` is
what `BoxFindChildren` with the flag returns for the rectangle of `C` on the
map itself, the unstamped grid. -/
theorem BoxFindChildren_recursive_flag (fuel : Nat) (H : Heap) (Map : MapT) (B : BoxT)
    (ha : Map.Tiles < H.Next) (hb : InBounds Map B) (hf : Map.Height - B.Top < fuel) :
    ∃ G0 G1 kids,
      BoxFindChildren fuel H Map B false =
        .ok (G0, { B with Children := B.Children ++ kids.map BoxT.bare }) ∧
      BoxFindChildren fuel H Map B true =
        .ok (G1, { B with Children := B.Children ++ kids }) ∧
      (∀ C ∈ kids.map BoxT.bare, C.Children = []) ∧
      ∀ C ∈ kids, ∃ G2, BoxFindChildren fuel H Map C.bare true = .ok (G2, C) := by
  obtain ⟨G0, kids0, a1, -, -, a4⟩ := BoxFindChildren_spec fuel H Map B false ha
    (Nat.le_of_lt hb.2.1) (Nat.le_of_lt hb.2.2.2) hf
  obtain ⟨G1, kids, b1, -, -, b4⟩ := BoxFindChildren_spec fuel H Map B true ha
    (Nat.le_of_lt hb.2.1) (Nat.le_of_lt hb.2.2.2) hf
  have e0 : kids0 = kids.map BoxT.bare := Scan_unique a4 _ (Scan_bare b4)
  rw [e0] at a1
  refine ⟨G0, G1, kids, a1, b1, ?_, ?_⟩
  · intro C hC
    rw [List.mem_map] at hC
    obtain ⟨C', -, rfl⟩ := hC
    rfl
  · intro C hC
    obtain ⟨⟨p1, -, -, -⟩, -, htr, hsc, -⟩ := Scan_mem b4 C hC
    obtain ⟨t1, t2, -⟩ := htr
    obtain ⟨G2, kids2, c1, -, -, c4⟩ := BoxFindChildren_spec fuel H Map C.bare true ha
      (Nat.le_of_lt t1) (Nat.le_of_lt t2)
      (by
        have e : C.bare.Top = C.Top := rfl
        rw [e]
        omega)
    have e2 : kids2 = C.Children := Scan_unique c4 _ (hsc rfl)
    rw [e2] at c1
    refine ⟨G2, ?_⟩
    rw [c1]
    cases C
    rfl

/-- C17 on the 5x9 grid with two boxes side by side in the root box. -/
theorem BoxFindChildren_recursive_flag_witness :
    ∃ G0 G1 kids,
      BoxFindChildren 6
        (heapOfRows ["+-------+".toList, "|+-+ +-+|".toList, "|| | | ||".toList,
          "|+-+ +-+|".toList, "+-------+".toList])
        (mapOfRows ["+-------+".toList, "|+-+ +-+|".toList, "|| | | ||".toList,
          "|+-+ +-+|".toList, "+-------+".toList]) (BoxCreate 0 0 4 8) false =
        .ok (G0, { BoxCreate 0 0 4 8 with
          Children := (BoxCreate 0 0 4 8).Children ++ kids.map BoxT.bare }) ∧
      BoxFindChildren 6
        (heapOfRows ["+-------+".toList, "|+-+ +-+|".toList, "|| | | ||".toList,
          "|+-+ +-+|".toList, "+-------+".toList])
        (mapOfRows ["+-------+".toList, "|+-+ +-+|".toList, "|| | | ||".toList,
          "|+-+ +-+|".toList, "+-------+".toList]) (BoxCreate 0 0 4 8) true =
        .ok (G1, { BoxCreate 0 0 4 8 with Children := (BoxCreate 0 0 4 8).Children ++ kids }) :=
  have h := BoxFindChildren_recursive_flag 6
    (heapOfRows ["+-------+".toList, "|+-+ +-+|".toList, "|| | | ||".toList,
      "|+-+ +-+|".toList, "+-------+".toList])
    (mapOfRows ["+-------+".toList, "|+-+ +-+|".toList, "|| | | ||".toList,
      "|+-+ +-+|".toList, "+-------+".toList]) (BoxCreate 0 0 4 8) (by decide) (by decide)
    (by decide)
  match h with
  | ⟨G0, G1, kids, h1, h2, _⟩ => ⟨G0, G1, kids, h1, h2⟩

/-- Every node below the root of a scanned tree is traced on the grid. -/
theorem Below_traced {f : Nat → Nat → Char} {h w : Nat} {X N : BoxT} (hbel : Below X N) :
    ∀ i j, Scan f h w true X.Top X.Left X.Bottom X.Right i j X.Children →
      TracedOn f h w N.Top N.Left N.Bottom N.Right := by
  induction hbel with
  | child hmem =>
    intro i j hs
    exact (Scan_mem hs _ hmem).2.2.1
  | deeper hmem _ ih =>
    intro i j hs
    exact ih _ _ ((Scan_mem hs _ hmem).2.2.2.1 rfl)

/-- C18, as stated, fails at the root, which is a node of the tree but is
given by the caller and not located by the scan.  On the 3x3 grid
`+-x / | | / x-+` the box `(0,0,2,2)` is in bounds and even passes
`BoxIsValid`, the tree built for it is the box itself, and `FindBoxAt` from its
top-left cell returns the zeroed box, not the box.  On the 3x3 grid of spaces
the same box is in bounds, the tree built for it is the box itself, and
`BoxIsValid` rejects it. -/
theorem BoxFindChildren_nodes_real_counterexample :
    (InBounds (mapOfRows ["+-x".toList, "| |".toList, "x-+".toList]) (BoxCreate 0 0 2 2) ∧
      (∃ G, BoxFindChildren 4 (heapOfRows ["+-x".toList, "| |".toList, "x-+".toList])
        (mapOfRows ["+-x".toList, "| |".toList, "x-+".toList]) (BoxCreate 0 0 2 2) true =
          .ok (G, BoxCreate 0 0 2 2)) ∧
      BoxIsValid (heapOfRows ["+-x".toList, "| |".toList, "x-+".toList])
        (mapOfRows ["+-x".toList, "| |".toList, "x-+".toList]) (BoxCreate 0 0 2 2) = .ok true ∧
      FindBoxAt (heapOfRows ["+-x".toList, "| |".toList, "x-+".toList])
        (mapOfRows ["+-x".toList, "| |".toList, "x-+".toList]) 0 0 = .ok EmptyBox ∧
      EmptyBox ≠ BoxCreate 0 0 2 2) ∧
    (InBounds (mapOfRows ["   ".toList, "   ".toList, "   ".toList]) (BoxCreate 0 0 2 2) ∧
      (∃ G, BoxFindChildren 4 (heapOfRows ["   ".toList, "   ".toList, "   ".toList])
        (mapOfRows ["   ".toList, "   ".toList, "   ".toList]) (BoxCreate 0 0 2 2) true =
          .ok (G, BoxCreate 0 0 2 2)) ∧
      BoxIsValid (heapOfRows ["   ".toList, "   ".toList, "   ".toList])
        (mapOfRows ["   ".toList, "   ".toList, "   ".toList]) (BoxCreate 0 0 2 2) =
          .ok false) := by
  have s1 : Scan ((heapOfRows ["+-x".toList, "| |".toList, "x-+".toList]).tile
      (mapOfRows ["+-x".toList, "| |".toList, "x-+".toList])) 3 3 true 0 0 2 2 2 1 [] := by
    have s0 : Scan ((heapOfRows ["+-x".toList, "| |".toList, "x-+".toList]).tile
        (mapOfRows ["+-x".toList, "| |".toList, "x-+".toList])) 3 3 true 0 0 2 2 1 1 [] :=
      Scan.start _ _ _ _ _
    exact Scan.row (Scan_skip_run s0 (by decide) (by decide) 1 (by decide) (by decide))
      (by decide)
  have s2 : Scan ((heapOfRows ["   ".toList, "   ".toList, "   ".toList]).tile
      (mapOfRows ["   ".toList, "   ".toList, "   ".toList])) 3 3 true 0 0 2 2 2 1 [] := by
    have s0 : Scan ((heapOfRows ["   ".toList, "   ".toList, "   ".toList]).tile
        (mapOfRows ["   ".toList, "   ".toList, "   ".toList])) 3 3 true 0 0 2 2 1 1 [] :=
      Scan.start _ _ _ _ _
    exact Scan.row (Scan_skip_run s0 (by decide) (by decide) 1 (by decide) (by decide))
      (by decide)
  obtain ⟨G1, kids1, a1, -, -, a4⟩ := BoxFindChildren_spec 4
    (heapOfRows ["+-x".toList, "| |".toList, "x-+".toList])
    (mapOfRows ["+-x".toList, "| |".toList, "x-+".toList]) (BoxCreate 0 0 2 2) true
    (by decide) (by decide) (by decide) (by decide)
  obtain ⟨G2, kids2, b1, -, -, b4⟩ := BoxFindChildren_spec 4
    (heapOfRows ["   ".toList, "   ".toList, "   ".toList])
    (mapOfRows ["   ".toList, "   ".toList, "   ".toList]) (BoxCreate 0 0 2 2) true
    (by decide) (by decide) (by decide) (by decide)
  have e1 : kids1 = [] := Scan_unique a4 _ s1
  have e2 : kids2 = [] := Scan_unique b4 _ s2
  subst e1
  subst e2
  exact ⟨⟨by decide, ⟨G1, a1⟩, by decide, by decide, by decide⟩,
    ⟨by decide, ⟨G2, b1⟩, by decide⟩⟩

/-- C18, amended: for an in-bounds box `B` of an allocated map, passed without
children, and with fuel for the recursion, `BoxFindChildren` with the flag set
returns a tree, and every node `N` of the tree other than its root (a child of
the root, or of a child, at any depth) is a box of the map as it was given:
`BoxIsValid` accepts `N` on the unmarked map, and `FindBoxAt` from the top-left
cell of `N` on the unmarked map returns the rectangle of `N`. -/
theorem BoxFindChildren_nodes_real (fuel : Nat) (H : Heap) (Map : MapT) (B : BoxT)
    (ha : Map.Tiles < H.Next) (hb : InBounds Map B) (hf : Map.Height - B.Top < fuel)
    (hB : B.Children = []) :
    ∃ G T, BoxFindChildren fuel H Map B true = .ok (G, T) ∧ T.bare = B.bare ∧
      ∀ N, Below T N → BoxIsValid H Map N = .ok true ∧
        FindBoxAt H Map N.Top N.Left = .ok N.bare := by
  obtain ⟨G, kids, b1, -, -, b4⟩ := BoxFindChildren_spec fuel H Map B true ha
    (Nat.le_of_lt hb.2.1) (Nat.le_of_lt hb.2.2.2) hf
  rw [hB, List.nil_append] at b1
  refine ⟨G, _, b1, rfl, fun N hN => ?_⟩
  have htr : TracedOn (H.tile Map) Map.Height Map.Width N.Top N.Left N.Bottom N.Right :=
    Below_traced hN _ _ b4
  obtain ⟨t1, t2, t3, t4, t5, t6⟩ := htr
  have hin : InBounds Map N := ⟨by omega, t1, by omega, t2⟩
  refine ⟨valid_of_Drawn hin ((@Drawn_congr H Map N (BoxCreate N.Top N.Left N.Bottom N.Right)
    rfl rfl rfl rfl).2 t6), ?_⟩
  obtain ⟨X, f1, fcase⟩ := FindBoxAt_spec H Map (show N.Top < Map.Height by omega)
    (show N.Left < Map.Width by omega)
  rcases fcase with ⟨b, r, ht, eX⟩ | ⟨-, hno⟩
  · obtain ⟨e1, e2⟩ := TracedOn_unique ht ⟨t1, t2, t3, t4, t5, t6⟩
    rw [f1, eX, e1, e2]
    rfl
  · exact absurd ⟨t1, t2, t3, t4, t5, t6⟩ (hno N.Bottom N.Right)

/-- C18, amended, on the 5x9 grid with two boxes side by side in the root
box. -/
theorem BoxFindChildren_nodes_real_witness :
    ∃ G T, BoxFindChildren 6
        (heapOfRows ["+-------+".toList, "|+-+ +-+|".toList, "|| | | ||".toList,
          "|+-+ +-+|".toList, "+-------+".toList])
        (mapOfRows ["+-------+".toList, "|+-+ +-+|".toList, "|| | | ||".toList,
          "|+-+ +-+|".toList, "+-------+".toList]) (BoxCreate 0 0 4 8) true = .ok (G, T) ∧
      T.bare = (BoxCreate 0 0 4 8).bare ∧
      ∀ N, Below T N →
        BoxIsValid (heapOfRows ["+-------+".toList, "|+-+ +-+|".toList, "|| | | ||".toList,
          "|+-+ +-+|".toList, "+-------+".toList])
          (mapOfRows ["+-------+".toList, "|+-+ +-+|".toList, "|| | | ||".toList,
          "|+-+ +-+|".toList, "+-------+".toList]) N = .ok true ∧
        FindBoxAt (heapOfRows ["+-------+".toList, "|+-+ +-+|".toList, "|| | | ||".toList,
          "|+-+ +-+|".toList, "+-------+".toList])
          (mapOfRows ["+-------+".toList, "|+-+ +-+|".toList, "|| | | ||".toList,
          "|+-+ +-+|".toList, "+-------+".toList]) N.Top N.Left = .ok N.bare :=
  BoxFindChildren_nodes_real 6
    (heapOfRows ["+-------+".toList, "|+-+ +-+|".toList, "|| | | ||".toList,
      "|+-+ +-+|".toList, "+-------+".toList])
    (mapOfRows ["+-------+".toList, "|+-+ +-+|".toList, "|| | | ||".toList,
      "|+-+ +-+|".toList, "+-------+".toList]) (BoxCreate 0 0 4 8) (by decide) (by decide)
    (by decide) rfl
/-! ## Completeness of the scan -/

/-- Every box that can be traced on the grid from a cell the scan has passed is
a child, or shares a cell with a child that starts before that cell. -/
theorem Scan_complete {f : Nat → Nat → Char} {h w : Nat} {rec : Bool} {T L B R i j : Nat}
    {kids : List BoxT} (hs : Scan f h w rec T L B R i j kids) :
    ∀ r c b' r', T < r → L < c → c < R → (r < i ∨ (r = i ∧ c < j)) →
      TracedOn f h w r c b' r' →
      (∃ C ∈ kids, C.Top = r ∧ C.Left = c ∧ C.Bottom = b' ∧ C.Right = r') ∨
      (∃ C ∈ kids, (C.Top < r ∨ (C.Top = r ∧ C.Left < c)) ∧
        ∃ y x, C.Cell y x ∧ (r ≤ y ∧ y ≤ b') ∧ (c ≤ x ∧ x ≤ r')) := by
  induction hs with
  | start rec T L B R =>
    intro r c b' r' h1 h2 h3 h4 _
    omega
  | @skip rec T L B R i j kids hs' h1 h2 h3 hno ih =>
    intro r c b' r' p1 p2 p3 p4 ht
    by_cases hold : r < i ∨ (r = i ∧ c < j)
    · exact ih r c b' r' p1 p2 p3 hold ht
    · have er : r = i := by omega
      have ec : c = j := by omega
      subst er
      subst ec
      by_cases hex : ∃ C ∈ kids, ∃ y x, C.Cell y x ∧ (r ≤ y ∧ y ≤ b') ∧ (c ≤ x ∧ x ≤ r')
      · obtain ⟨C, hC, hsh⟩ := hex
        exact Or.inr ⟨C, hC, (Scan_mem hs' C hC).2.1, hsh⟩
      · exfalso
        refine hno b' r' (TracedOn_congr_rect ?_ ht)
        intro y x q1 q2 q3 q4
        rw [stamped_of_not_cell]
        intro C hC hcell
        exact hex ⟨C, hC, y, x, hcell, ⟨q1, q2⟩, q3, q4⟩
  | @hit rec T L B R i j kids b r0 Ch hs' h1 h2 h3 h4 _ _ ih _ =>
    intro r c b' r' p1 p2 p3 p4 ht
    by_cases hold : r < i ∨ (r = i ∧ c < j)
    · rcases ih r c b' r' p1 p2 p3 hold ht with ⟨C, hC, hh⟩ | ⟨C, hC, hh⟩
      · exact Or.inl ⟨C, List.mem_append_left _ hC, hh⟩
      · exact Or.inr ⟨C, List.mem_append_left _ hC, hh⟩
    · have er : r = i := by omega
      have ec : c = j := by omega
      subst er
      subst ec
      obtain ⟨e1, e2⟩ := TracedOn_unique (TracedOn_stamped h4).1 ht
      exact Or.inl ⟨⟨r, c, b, r0, Ch⟩, List.mem_append_right _ (List.mem_singleton.2 rfl),
        rfl, rfl, e1, e2⟩
  | @row rec T L B R i kids _ h1 ih =>
    intro r c b' r' p1 p2 p3 p4 ht
    exact ih r c b' r' p1 p2 p3 (by omega) ht

/-- C16: completeness of the discovery.  For an in-bounds box `B` of an
allocated map, with fuel for the recursion, and a cell `(r, c)` of the open
interior of `B` from which `FindBoxAt` on the map as given reports a box `X`:
`BoxFindChildren` returns, and `X` is the rectangle of one of the children it
adds, or `X` has a cell in common with a child whose top-left corner comes
before `(r, c)` in row-major order. -/
theorem BoxFindChildren_complete (fuel : Nat) (H : Heap) (Map : MapT) (B : BoxT) (rec : Bool)
    (ha : Map.Tiles < H.Next) (hb : InBounds Map B) (hf : Map.Height - B.Top < fuel)
    (r c : Nat) (hr : B.Top < r ∧ r < B.Bottom) (hc : B.Left < c ∧ c < B.Right) (X : BoxT)
    (hX : FindBoxAt H Map r c = .ok X) (hfound : BoxIsZeroSized X = false) :
    ∃ G kids, BoxFindChildren fuel H Map B rec =
        .ok (G, { B with Children := B.Children ++ kids }) ∧
      ((∃ C ∈ kids, C.bare = X) ∨
       (∃ C ∈ kids, (C.Top < r ∨ (C.Top = r ∧ C.Left < c)) ∧
         ∃ y x, C.Cell y x ∧ X.Cell y x)) := by
  obtain ⟨G, kids, b1, -, -, b4⟩ := BoxFindChildren_spec fuel H Map B rec ha
    (Nat.le_of_lt hb.2.1) (Nat.le_of_lt hb.2.2.2) hf
  refine ⟨G, kids, b1, ?_⟩
  rcases FindBoxAt_cases hX with e | ⟨b', r', e, ht⟩
  · subst e
    cases hfound
  · subst e
    rcases Scan_complete b4 r c b' r' hr.1 hc.1 hc.2 (by omega) ht with
      ⟨C, hC, e1, e2, e3, e4⟩ | ⟨C, hC, hbef, y, x, hcell, hy, hx⟩
    · refine Or.inl ⟨C, hC, ?_⟩
      unfold BoxT.bare
      rw [e1, e2, e3, e4]
    · exact Or.inr ⟨C, hC, hbef, y, x, hcell, hy, hx⟩

/-- C16 on the 5x9 grid with two boxes side by side in the root box, for the
box found from the cell `(1, 5)`. -/
theorem BoxFindChildren_complete_witness :
    ∃ G kids, BoxFindChildren 6
        (heapOfRows ["+-------+".toList, "|+-+ +-+|".toList, "|| | | ||".toList,
          "|+-+ +-+|".toList, "+-------+".toList])
        (mapOfRows ["+-------+".toList, "|+-+ +-+|".toList, "|| | | ||".toList,
          "|+-+ +-+|".toList, "+-------+".toList]) (BoxCreate 0 0 4 8) true =
        .ok (G, { BoxCreate 0 0 4 8 with Children := (BoxCreate 0 0 4 8).Children ++ kids }) ∧
      ((∃ C ∈ kids, C.bare = BoxCreate 1 5 3 7) ∨
       (∃ C ∈ kids, (C.Top < 1 ∨ (C.Top = 1 ∧ C.Left < 5)) ∧
         ∃ y x, C.Cell y x ∧ (BoxCreate 1 5 3 7).Cell y x)) :=
  BoxFindChildren_complete 6
    (heapOfRows ["+-------+".toList, "|+-+ +-+|".toList, "|| | | ||".toList,
      "|+-+ +-+|".toList, "+-------+".toList])
    (mapOfRows ["+-------+".toList, "|+-+ +-+|".toList, "|| | | ||".toList,
      "|+-+ +-+|".toList, "+-------+".toList]) (BoxCreate 0 0 4 8) true (by decide) (by decide)
    (by decide) 1 5 (by decide) (by decide) (BoxCreate 1 5 3 7) (by decide) (by decide)

/-! ## Depths without a case in the `switch` -/

theorem DepthChar_deep {d : Nat} (hd : 4 ≤ d) : DepthChar d = ' ' := by
  unfold DepthChar
  split
  · omega
  · omega
  · omega
  · omega
  · rfl

theorem DepthChar_mod_ne_space (d : Nat) : DepthChar (d % 4) ≠ ' ' := by
  have h : d % 4 = 0 ∨ d % 4 = 1 ∨ d % 4 = 2 ∨ d % 4 = 3 := by omega
  rcases h with h | h | h | h <;> rw [h] <;> decide

/-- C19: at a depth `d ≥ 4` the `switch` of `BoxMarkChildren` has no case, and
`DepthChar` keeps its initial value.  On an in-bounds box rendered at such a
depth, with its children (if any) strictly inside it and pairwise disjoint,
the call returns; every cell of the open interior that lies in no child holds
the space character, which is not the character a cyclic table would give
(that of depth `d mod 4`, so not `#` at depths `4, 8, ...`); and the border is
drawn as at any depth: `+` at the four corners, `|` and `-` on the edges
between them. -/
theorem BoxMarkChildren_deep (H : Heap) (Map : MapT) (B : BoxT) (d : Nat)
    (hn : Nested B) (hb : InBounds Map B) (hd : 4 ≤ d) :
    ∃ G, BoxMarkChildren H Map B d = .ok G ∧
      (∀ r k, B.Top < r → r < B.Bottom → B.Left < k → k < B.Right →
        (∀ c ∈ B.Children, ¬ c.Cell r k) →
        G.tile Map r k = ' ' ∧ G.tile Map r k ≠ DepthChar (d % 4)) ∧
      (G.tile Map B.Top B.Left = '+' ∧ G.tile Map B.Top B.Right = '+' ∧
        G.tile Map B.Bottom B.Left = '+' ∧ G.tile Map B.Bottom B.Right = '+') ∧
      (∀ r, B.Top < r → r < B.Bottom →
        G.tile Map r B.Left = '|' ∧ G.tile Map r B.Right = '|') ∧
      (∀ k, B.Left < k → k < B.Right →
        G.tile Map B.Top k = '-' ∧ G.tile Map B.Bottom k = '-') := by
  obtain ⟨G, g1, -, g3⟩ := BoxMarkChildren_renderOn (Nested_allIn hn hb) H d
  obtain ⟨hTB, hLR⟩ := Nested_proper hn
  have hkids : ∀ c ∈ B.Children, B.Top < c.Top ∧ B.Left < c.Left ∧ c.Bottom < B.Bottom ∧
      c.Right < B.Right := by
    cases hn with
    | mk T L B R kids _ _ hin _ _ => exact hin
  have ht : ∀ r k, B.Cell r k → (∀ c ∈ B.Children, ¬ c.Cell r k) →
      G.tile Map r k = B.mark d r k := by
    intro r k hc hno
    unfold Heap.tile
    rw [g3, if_pos rfl]
    exact renderOn_deepest (Deepest.here B d r k hc hno) hn _
  have hedge : ∀ r k, B.Cell r k →
      (r = B.Top ∨ r = B.Bottom ∨ k = B.Left ∨ k = B.Right) →
      G.tile Map r k = B.mark d r k := by
    intro r k hc hon
    refine ht r k hc (fun c hmem hcc => ?_)
    obtain ⟨i1, i2, i3, i4⟩ := hkids c hmem
    unfold BoxT.Cell at hcc
    omega
  refine ⟨G, g1, ?_, ⟨?_, ?_, ?_, ?_⟩, ?_, ?_⟩
  · intro r k h1 h2 h3 h4 hno
    have e : G.tile Map r k = ' ' := by
      rw [ht r k (by unfold BoxT.Cell; omega) hno]
      unfold BoxT.mark
      rw [if_neg (by omega), if_neg (by omega), if_neg (by omega)]
      exact DepthChar_deep hd
    exact ⟨e, by rw [e]; exact (DepthChar_mod_ne_space d).symm⟩
  · rw [hedge _ _ (by unfold BoxT.Cell; omega) (Or.inl rfl)]
    unfold BoxT.mark
    rw [if_pos ⟨Or.inl rfl, Or.inl rfl⟩]
  · rw [hedge _ _ (by unfold BoxT.Cell; omega) (Or.inl rfl)]
    unfold BoxT.mark
    rw [if_pos ⟨Or.inl rfl, Or.inr rfl⟩]
  · rw [hedge _ _ (by unfold BoxT.Cell; omega) (Or.inr (Or.inl rfl))]
    unfold BoxT.mark
    rw [if_pos ⟨Or.inr rfl, Or.inl rfl⟩]
  · rw [hedge _ _ (by unfold BoxT.Cell; omega) (Or.inr (Or.inl rfl))]
    unfold BoxT.mark
    rw [if_pos ⟨Or.inr rfl, Or.inr rfl⟩]
  · intro r h1 h2
    rw [hedge r B.Left (by unfold BoxT.Cell; omega) (Or.inr (Or.inr (Or.inl rfl))),
      hedge r B.Right (by unfold BoxT.Cell; omega) (Or.inr (Or.inr (Or.inr rfl)))]
    unfold BoxT.mark
    rw [if_neg (by omega), if_pos (Or.inl rfl), if_neg (by omega), if_pos (Or.inr rfl)]
    exact ⟨rfl, rfl⟩
  · intro k h1 h2
    rw [hedge B.Top k (by unfold BoxT.Cell; omega) (Or.inl rfl),
      hedge B.Bottom k (by unfold BoxT.Cell; omega) (Or.inr (Or.inl rfl))]
    unfold BoxT.mark
    rw [if_neg (by omega), if_neg (by omega), if_pos (Or.inl rfl), if_neg (by omega),
      if_neg (by omega), if_pos (Or.inr rfl)]
    exact ⟨rfl, rfl⟩

/-- C19 on a zero-filled 3x3 map: the leaf `(0,0,2,2)` drawn at depth `4`
gives the rows `+-+ / | | / +-+`. -/
theorem BoxMarkChildren_deep_witness :
    ∃ G, BoxMarkChildren (CreateMap ⟨0, fun _ _ _ => '#'⟩ 3 3).1
        (CreateMap ⟨0, fun _ _ _ => '#'⟩ 3 3).2 (BoxCreate 0 0 2 2) 4 = .ok G ∧
      G.tile (CreateMap ⟨0, fun _ _ _ => '#'⟩ 3 3).2 1 1 = ' ' := by
  obtain ⟨G, h1, h2, -⟩ := BoxMarkChildren_deep (CreateMap ⟨0, fun _ _ _ => '#'⟩ 3 3).1
    (CreateMap ⟨0, fun _ _ _ => '#'⟩ 3 3).2 (BoxCreate 0 0 2 2) 4
    (Nested.mk 0 0 2 2 [] (by decide) (by decide) (fun c hc => by cases hc)
      List.Pairwise.nil (fun c hc => by cases hc))
    (by decide) (by decide)
  exact ⟨G, h1, (h2 1 1 (by decide) (by decide) (by decide) (by decide)
    (fun c hc => by cases hc)).1⟩

end Dp237
